import Mathlib

/-!
# Replication relay (src/box/relay.cc)

A shallow embedding of the relay of `src/box/relay.cc`: the relay state, the
cbus messages it exchanges with the tx thread, the garbage collection
scheduler, the status round trip and the subscribe loop, followed by the
properties proved about them.

Conventions of the embedding:
* C structs become structures with the same field names; a pointer that may be
  `NULL` becomes an `Option`;
* functions that mutate `struct relay` take the relay and return the new one;
* a function that may raise a C++ exception returns the state it leaves
  together with the exception raised, if any;
* `int64_t` signatures are `Int` (the relay only compares and copies them);
* a `double` is an IEEE 754 binary64 value, with the subtraction and the
  comparisons of the machine;
* results of the environment (allocation, socket writes, clocks) are explicit
  arguments.
-/

namespace Relay

/-! ## Data model -/

/-- Number of components of a log position vector. -/
def VCLOCK_MAX : Nat := 32

/-- Modelled from the spec: the log position vector library (`vclock.h`) is not
among the sources. A vector maps node identifiers to sequence numbers; the
component of node `i` is `lsn[i]`. -/
structure vclock where
  lsn : List Int
deriving DecidableEq, Repr

/-- Modelled from the spec: `vclock_sum`, the scalar sum of a position vector
(its signature). -/
def vclock_sum (v : vclock) : Int := v.lsn.sum

/-- Modelled from the spec: `vclock_create`, the all-zero vector (also what
`memset(relay, 0, ...)` leaves in every vector of the relay). -/
def vclock_create : vclock := ⟨List.replicate VCLOCK_MAX 0⟩

/-- Modelled from the spec: `vclock_copy(dst, src)` overwrites `dst` with `src`;
the result is the new value of `dst`. -/
def vclock_copy (_dst src : vclock) : vclock := src

/-- The functions that appear as a hop of a cbus route in `relay.cc`. -/
inductive cmsg_f where
  | tx_status_update
  | relay_status_update
  | tx_gc_advance
deriving DecidableEq, Repr

/-- One hop of a route: `struct cmsg_hop { f, pipe }`; every hop of `relay.cc`
has `pipe == NULL`, recorded as `false`. -/
structure cmsg_hop where
  f : cmsg_f
  pipe : Bool
deriving DecidableEq, Repr

/-- The parent of every cbus message: `struct cmsg { route, hop }`. -/
structure cmsg where
  route : Option (List cmsg_hop)
  hop : Option (List cmsg_hop)
deriving DecidableEq, Repr

/-- Modelled from the spec: `cmsg_init(msg, route)` of `cbus.h` (not among the
sources) points both the route and the current hop at the given route. -/
def cmsg_init (_msg : cmsg) (route : List cmsg_hop) : cmsg :=
  { route := some route, hop := some route }

/-- The message of `struct relay_status_msg`; the `relay` back pointer is
implicit since a message lives inside its relay. -/
structure relay_status_msg where
  msg : cmsg
  vclock : vclock
deriving DecidableEq, Repr

/-- The message of `struct relay_gc_msg`: the vclock signature to advance to. -/
structure relay_gc_msg where
  msg : cmsg
  signature : Int
deriving DecidableEq, Repr

/-- What a pipe carries: a pointer to a `struct cmsg`, which is either the
relay's own `status_msg` or a heap allocated gc message. -/
inductive cmsg_ptr where
  | status_msg
  | gc_msg (m : relay_gc_msg)
deriving DecidableEq, Repr

/-- Modelled from the spec: the GC consumer of `gc.h` (not among the sources), a
cursor into the log retention policy; `advanced` keeps the signatures of the
`gc_consumer_advance` calls in call order. -/
structure gc_consumer where
  signature : Int
  advanced : List Int
deriving DecidableEq, Repr

/-- Modelled from the spec: `gc_consumer_advance(gc, signature)` moves the
cursor to the signature. -/
def gc_consumer_advance (gc : gc_consumer) (signature : Int) : gc_consumer :=
  { signature := signature, advanced := gc.advanced ++ [signature] }

/-- The fields of `struct replica` (replication.h) that the relay reads. -/
structure replica where
  id : Nat
  gc : Option gc_consumer
deriving DecidableEq, Repr

/-! ## Doubles -/

/-- A `double` of the machine, an IEEE 754 binary64 value: a finite value is
`(-1)^neg * m * 2^e`, and there are two infinities and the NaNs (all NaNs
behave alike in the operations below). The values that the operations produce
have `m < 2^53` and `-1074 ≤ e`. -/
inductive double where
  | finite (neg : Bool) (m : Nat) (e : Int)
  | infinite (neg : Bool)
  | nan
deriving DecidableEq, Repr

/-- The number of low bits to drop from `m` so that at most 53 bits are left.
The first argument bounds the recursion; `m` itself always suffices. -/
def double.excess_bits : Nat → Nat → Nat
  | 0, _ => 0
  | fuel + 1, m => if m < 2 ^ 53 then 0 else double.excess_bits fuel (m / 2) + 1

/-- The `double` nearest to `(-1)^neg * m * 2^e`, ties going to the even
mantissa (the rounding mode in force): `k` low bits are dropped to fit the 53
bits of the mantissa and the least exponent -1074, the rest rounds the
mantissa up or not, and a magnitude of `2^1024 = 2^53 * 2^971` or more is an
infinity. -/
def double.round (neg : Bool) (m : Nat) (e : Int) : double :=
  let k := max (double.excess_bits m m) (-1074 - e).toNat
  let q := m / 2 ^ k
  let rest := m % 2 ^ k
  let q1 := if k ≠ 0 ∧ (rest > 2 ^ (k - 1) ∨ (rest = 2 ^ (k - 1) ∧ q % 2 = 1)) then q + 1 else q
  if q1 = 0 then double.finite neg 0 0
  else if e + k ≥ 971 ∧ q1 * 2 ^ (e + k - 971).toNat ≥ 2 ^ 53 then double.infinite neg
  else if q1 = 2 ^ 53 then double.finite neg (2 ^ 52) (e + k + 1)
  else double.finite neg q1 (e + k)

/-- The `double` of a whole number. -/
def double.of_nat (n : Nat) : double := double.round false n 0

instance (n : Nat) : OfNat double n := ⟨double.of_nat n⟩

/-- The exact value of a finite `double` as a multiple of `2^g`, for `g` at
most its exponent. -/
def double.scaled (neg : Bool) (m : Nat) (e g : Int) : Int :=
  if neg then -((m * 2 ^ (e - g).toNat : Nat) : Int) else ((m * 2 ^ (e - g).toNat : Nat) : Int)

/-- The subtraction `a - b` of two `double`s: the exact difference, rounded. -/
def double.sub : double → double → double
  | double.nan, _ => double.nan
  | _, double.nan => double.nan
  | double.infinite s, double.infinite t => if s = t then double.nan else double.infinite s
  | double.infinite s, double.finite _ _ _ => double.infinite s
  | double.finite _ _ _, double.infinite t => double.infinite (!t)
  | double.finite s m e, double.finite t n f =>
    let d := double.scaled s m e (min e f) - double.scaled t n f (min e f)
    if d = 0 then double.finite (s && !t) 0 0
    else double.round (decide (d < 0)) d.natAbs (min e f)

/-- The comparison `a > b` of two `double`s; it is false when either is a NaN. -/
def double.gt : double → double → Bool
  | double.nan, _ => false
  | _, double.nan => false
  | double.infinite s, double.infinite t => !s && t
  | double.infinite s, double.finite _ _ _ => !s
  | double.finite _ _ _, double.infinite t => t
  | double.finite s m e, double.finite t n f =>
    decide (double.scaled s m e (min e f) > double.scaled t n f (min e f))

/-- The comparison `d != 0` of a `double` with zero; it is true of a NaN. -/
def double.ne_zero : double → Bool
  | double.nan => true
  | double.infinite _ => true
  | double.finite _ m _ => m != 0

/-- The fields of `struct xrow_header` that the relay reads or writes. -/
structure xrow_header where
  type : Nat
  replica_id : Nat
  sync : Nat
  lsn : Int
  tm : double
deriving DecidableEq, Repr

/-- Errors raised in `relay.cc` or by the functions it calls. -/
inductive error where
  | ClientError_ER_CFG_duplicate_connection
  | OutOfMemory
  | SocketError
  | XlogError
  | FiberIsCancelled
  | TimedOut
deriving DecidableEq, Repr

/-- The two stream writers a relay is created with. -/
inductive stream_write_f where
  | relay_send_initial_join_row
  | relay_send_row
deriving DecidableEq, Repr

/-- State of a replication relay: `struct relay`.
`r_vclock` is `relay->r->vclock` (`none` while `relay->r == NULL`), `io_out`
the packets written to the replica connection so far, `cancelled` the
cancellation flag of the relay fiber; times are `double`s. -/
structure relay where
  fd : Int
  sync : Nat
  r_vclock : Option vclock
  stream_write : stream_write_f
  stop_vclock : vclock
  replica : Option replica
  exiting : Bool
  diag : Option error
  recv_vclock : vclock
  version_id : Nat
  tx_pipe : List cmsg_ptr
  relay_pipe : List cmsg_ptr
  status_msg : relay_status_msg
  pending_gc : List relay_gc_msg
  last_row_tm : double
  tx_vclock : vclock
  io_out : List xrow_header
  cancelled : Bool
deriving DecidableEq, Repr

/-- Modelled from the spec: `cpipe_push` on the pipe to the tx thread enqueues
the message at the tail (FIFO delivery). -/
def cpipe_push_tx (rl : relay) (m : cmsg_ptr) : relay :=
  { rl with tx_pipe := rl.tx_pipe ++ [m] }

/-- Modelled from the spec: `cpipe_push` on the pipe from the tx thread back to
the relay. -/
def cpipe_push_relay (rl : relay) (m : cmsg_ptr) : relay :=
  { rl with relay_pipe := rl.relay_pipe ++ [m] }

/-- The relay left by `relay_create`: everything zeroed by `memset`, then the
stream writer, the descriptor and the sync set, an empty diagnostics area and
an empty `pending_gc`. -/
def relay_create (fd : Int) (sync : Nat) (stream_write : stream_write_f) : relay :=
  { fd := fd
    sync := sync
    r_vclock := none
    stream_write := stream_write
    stop_vclock := vclock_create
    replica := none
    exiting := false
    diag := none
    recv_vclock := vclock_create
    version_id := 0
    tx_pipe := []
    relay_pipe := []
    status_msg := { msg := { route := none, hop := none }, vclock := vclock_create }
    pending_gc := []
    last_row_tm := 0
    tx_vclock := vclock_create
    io_out := []
    cancelled := false }

/-! ## Status round trip -/

/-- The static route of `tx_status_update`. -/
def tx_status_update_route : List cmsg_hop := [⟨cmsg_f.relay_status_update, false⟩]

/-- The static route of `relay_on_close_log_f`. -/
def relay_on_close_log_f_route : List cmsg_hop := [⟨cmsg_f.tx_gc_advance, false⟩]

/-- The static route of `relay_subscribe_f`. -/
def relay_subscribe_f_route : List cmsg_hop := [⟨cmsg_f.tx_status_update, false⟩]

/-- The status message has returned to the relay: `msg->route = NULL`. -/
def relay_status_update (rl : relay) : relay :=
  { rl with status_msg := { rl.status_msg with msg := { rl.status_msg.msg with route := none } } }

/-- Deliver a fresh relay vclock to the tx thread: copy the vector of the
message into `relay->tx.vclock`, re-route the message and push it back. -/
def tx_status_update (rl : relay) : relay :=
  let rl1 := { rl with tx_vclock := vclock_copy rl.tx_vclock rl.status_msg.vclock }
  let rl2 := { rl1 with status_msg :=
    { rl1.status_msg with msg := cmsg_init rl1.status_msg.msg tx_status_update_route } }
  cpipe_push_relay rl2 cmsg_ptr.status_msg

/-- Update the replica gc state in the tx thread:
`gc_consumer_advance(m->relay->replica->gc, m->signature)`; the message is
then freed. -/
def tx_gc_advance (rl : relay) (m : relay_gc_msg) : relay :=
  { rl with replica := rl.replica.map fun rep =>
      { rep with gc := rep.gc.map fun gc => gc_consumer_advance gc m.signature } }

/-! ## Garbage collection scheduler -/

/-- The trigger run when recovery closes a log: allocate a gc message carrying
the current recovery signature and append it to `pending_gc`. `malloc_ok` is
the outcome of the allocation; when it fails the function only logs. -/
def relay_on_close_log_f (rl : relay) (malloc_ok : Bool) : relay :=
  if !malloc_ok then rl
  else
    let m : relay_gc_msg :=
      { msg := cmsg_init ⟨none, none⟩ relay_on_close_log_f_route
        signature := vclock_sum (rl.r_vclock.getD vclock_create) }
    { rl with pending_gc := rl.pending_gc ++ [m] }

/-- The loop of `relay_schedule_pending_gc`: walk `pending_gc` from the head;
stop at the first message with a signature above the given one; otherwise
shift the message off the queue, free the previously kept one and keep this
one. Returns the queue that is left and the kept message. -/
def relay_schedule_pending_gc_loop (signature : Int) :
    List relay_gc_msg → Option relay_gc_msg → List relay_gc_msg × Option relay_gc_msg
  | [], gc_msg => ([], gc_msg)
  | curr :: next, gc_msg =>
    if curr.signature > signature then (curr :: next, gc_msg)
    else relay_schedule_pending_gc_loop signature next (some curr)

/-- Invoke pending garbage collection requests: run the loop, then push the
kept message, if any, to the tx pipe. -/
def relay_schedule_pending_gc (rl : relay) (signature : Int) : relay :=
  let res := relay_schedule_pending_gc_loop signature rl.pending_gc none
  let rl1 := { rl with pending_gc := res.1 }
  match res.2 with
  | none => rl1
  | some gc_msg => cpipe_push_tx rl1 (cmsg_ptr.gc_msg gc_msg)

/-! ## Sending rows -/

/-- Send a packet: stamp it with the relay's sync, record the send time, write
it to the connection. `now` is `ev_monotonic_now`, `write_ok` the outcome of
`coio_write_xrow`, which raises on failure; the result is the relay and the
exception raised, if any. -/
def relay_send (rl : relay) (packet : xrow_header) (now : double) (write_ok : Bool) :
    relay × Option error :=
  let packet1 := { packet with sync := rl.sync }
  let rl1 := { rl with last_row_tm := now }
  if write_ok then ({ rl1 with io_out := rl1.io_out ++ [packet1] }, none)
  else (rl1, some error.SocketError)

/-- Send a single row to the client: only if it is not from the same replica
(the `assert` on the row type is not part of the behaviour). -/
def relay_send_row (rl : relay) (packet : xrow_header) (now : double) (write_ok : Bool) :
    relay × Option error :=
  match rl.replica with
  | none => relay_send rl packet now write_ok
  | some rep =>
    if packet.replica_id != rep.id then relay_send rl packet now write_ok
    else (rl, none)

/-- Modelled from the spec: `xrow_encode_timestamp` of `xrow.h` (not among the
sources) builds a zero-payload row carrying only the sender and a timestamp. -/
def xrow_encode_timestamp (replica_id : Nat) (tm : double) : xrow_header :=
  { type := 0, replica_id := replica_id, sync := 0, lsn := 0, tm := tm }

/-- Send a heartbeat message over a connected relay; an exception of
`relay_send` is caught and logged. -/
def relay_send_heartbeat (rl : relay) (instance_id : Nat) (ev_now now : double)
    (write_ok : Bool) : relay :=
  (relay_send rl (xrow_encode_timestamp instance_id ev_now) now write_ok).1

/-! ## Message delivery -/

/-- The function of the current hop of a message. -/
def cmsg_hop_f (rl : relay) (m : cmsg_ptr) : Option cmsg_f :=
  let msg := match m with
    | cmsg_ptr.status_msg => rl.status_msg.msg
    | cmsg_ptr.gc_msg g => g.msg
  match msg.hop with
  | some (h :: _) => some h.f
  | _ => none

/-- Modelled from the spec: `cmsg_deliver` of `cbus.h` (not among the sources)
runs the function of the message's current hop on the message; every hop of
`relay.cc` ends its route. A hop function applied to a message of the other
struct does not occur and is modelled as doing nothing. -/
def cmsg_deliver (rl : relay) (m : cmsg_ptr) : relay :=
  match cmsg_hop_f rl m, m with
  | some cmsg_f.tx_status_update, cmsg_ptr.status_msg => tx_status_update rl
  | some cmsg_f.relay_status_update, cmsg_ptr.status_msg => relay_status_update rl
  | some cmsg_f.tx_gc_advance, cmsg_ptr.gc_msg g => tx_gc_advance rl g
  | _, _ => rl

/-- The tx thread takes the message at the head of the tx pipe and delivers it. -/
def tx_deliver (rl : relay) : relay :=
  match rl.tx_pipe with
  | [] => rl
  | m :: rest => cmsg_deliver { rl with tx_pipe := rest } m

/-- The relay thread takes the message at the head of the relay pipe and
delivers it. -/
def relay_deliver (rl : relay) : relay :=
  match rl.relay_pipe with
  | [] => rl
  | m :: rest => cmsg_deliver { rl with relay_pipe := rest } m

/-- Modelled from the spec: `cbus_process(&relay->endpoint)` delivers, in
order, every message that is queued for the relay when it is called. -/
def cbus_process (rl : relay) : relay :=
  relay_deliver^[rl.relay_pipe.length] rl

/-! ## The subscribe loop -/

/-- What one iteration of the loop of `relay_subscribe_f` reads from its
environment: the configured timeout, the error injection override (`none`
when `errinj` returns `NULL`), the clocks and the outcome of a heartbeat
write. -/
structure loop_env where
  replication_timeout : double
  inj_dparam : Option double
  now : double
  ev_now : double
  send_now : double
  instance_id : Nat
  write_ok : Bool
deriving DecidableEq, Repr

/-- The timeout of an iteration: `replication_timeout`, replaced by the
`dparam` of the error injection when there is one and `dparam != 0`. -/
def loop_timeout (e : loop_env) : double :=
  match e.inj_dparam with
  | some d => if double.ne_zero d then d else e.replication_timeout
  | none => e.replication_timeout

/-- The vector an iteration reports: the recovery position for a replica
older than 1.7.4, the vector received from the replica otherwise. `vid` is
the `version_id` macro of `version.h`, which is not among the sources. -/
def send_vclock (vid : Nat → Nat → Nat → Nat) (rl : relay) : vclock :=
  if rl.version_id < vid 1 7 4 then rl.r_vclock.getD vclock_create
  else rl.recv_vclock

/-- The loop sends a status message carrying the vector `sv`: initialise the
message with the route to `tx_status_update`, copy the vector into it and push
it to the tx pipe. -/
def relay_subscribe_f_push (rl : relay) (sv : vclock) : relay :=
  let rl1 := { rl with status_msg :=
    { msg := cmsg_init rl.status_msg.msg relay_subscribe_f_route
      vclock := vclock_copy rl.status_msg.vclock sv } }
  cpipe_push_tx rl1 cmsg_ptr.status_msg

/-- The part of an iteration after the heartbeat check: when the previous
status message is delivered and the vclock has been updated, send a status
message and collect the xlog files received by the replica. -/
def relay_subscribe_f_status (vid : Nat → Nat → Nat → Nat) (rl : relay) : relay :=
  if rl.status_msg.msg.route.isSome then rl
  else
    let sv := send_vclock vid rl
    if vclock_sum rl.status_msg.vclock == vclock_sum sv then rl
    else relay_schedule_pending_gc (relay_subscribe_f_push rl sv) (vclock_sum sv)

/-- The first part of an iteration of the loop of `relay_subscribe_f`, from the
return of `fiber_cond_wait_deadline` on: handle cbus messages, then check for
a heartbeat timeout. -/
def relay_subscribe_f_events (e : loop_env) (rl : relay) : relay :=
  let rl1 := cbus_process rl
  if double.gt (double.sub e.now rl1.last_row_tm) (loop_timeout e) then
    relay_send_heartbeat rl1 e.instance_id e.ev_now e.send_now e.write_ok
  else rl1

/-- One iteration of the `while` loop of `relay_subscribe_f`: handle cbus
messages, check for a heartbeat timeout, then report status. -/
def relay_subscribe_f_iteration (vid : Nat → Nat → Nat → Nat) (e : loop_env)
    (rl : relay) : relay :=
  relay_subscribe_f_status vid (relay_subscribe_f_events e rl)

/-! ## The session as a state machine -/

/-- The events that change a relay while it is subscribed. -/
inductive event where
  /-- One iteration of the loop of `relay_subscribe_f`. -/
  | loop_iteration (e : loop_env)
  /-- The tx thread delivers the head of the tx pipe. -/
  | tx_deliver
  /-- The relay thread delivers the head of the relay pipe. -/
  | relay_deliver
  /-- The reader fiber decoded an acknowledgment into `recv_vclock`. -/
  | reader_recv (v : vclock)
  /-- Recovery moved its position `r->vclock`. -/
  | recovery_advance (v : vclock)
  /-- Recovery closed a log and ran the `on_close_log` trigger. -/
  | close_log (malloc_ok : Bool)
  /-- Recovery wrote a row to the stream. -/
  | send_row (packet : xrow_header) (now : double) (write_ok : Bool)
deriving DecidableEq, Repr

/-- The effect of one event. -/
def step (vid : Nat → Nat → Nat → Nat) (rl : relay) : event → relay
  | event.loop_iteration e => relay_subscribe_f_iteration vid e rl
  | event.tx_deliver => tx_deliver rl
  | event.relay_deliver => relay_deliver rl
  | event.reader_recv v => { rl with recv_vclock := v }
  | event.recovery_advance v => { rl with r_vclock := some v }
  | event.close_log malloc_ok => relay_on_close_log_f rl malloc_ok
  | event.send_row packet now write_ok => (relay_send_row rl packet now write_ok).1

/-- The relay after a sequence of events. -/
def run (vid : Nat → Nat → Nat → Nat) (rl : relay) (evs : List event) : relay :=
  evs.foldl (step vid) rl

/-- The relay that `relay_subscribe` hands to `relay_subscribe_f`: created,
with a recovery positioned at `replica_clock`, `tx.vclock` a copy of it, the
replica's version and the replica attached. -/
def relay_subscribe_relay (fd : Int) (sync : Nat) (rep : replica) (replica_clock : vclock)
    (replica_version_id : Nat) : relay :=
  let rl := relay_create fd sync stream_write_f.relay_send_row
  { rl with
    r_vclock := some replica_clock
    tx_vclock := vclock_copy rl.tx_vclock replica_clock
    version_id := replica_version_id
    replica := some rep }

/-! ## Subscribing -/

/-- The state `relay_subscribe` works on in the tx thread: the replica, its
`relay` pointer (the running session, if any), and counters of the gc
consumers registered, relays created and threads started. -/
structure subscribe_state where
  replica : replica
  replica_relay : Option relay
  gc_registered : List Int
  relays_created : Nat
  cords_started : Nat
deriving DecidableEq, Repr

/-- What `relay_subscribe` gets from its environment: whether
`gc_consumer_register` and `cord_costart` succeed, and the run of the relay
thread until `cord_cojoin` returns (the final relay and the error it left in
the diagnostics area, if any). -/
structure subscribe_env where
  gc_register_ok : Bool
  cord_costart_ok : Bool
  session : relay → relay × Option error

/-- Replication acceptor fiber handler. Returns the state and the error
raised, if any. -/
def relay_subscribe (w : subscribe_state) (fd : Int) (sync : Nat) (replica_clock : vclock)
    (replica_version_id : Nat) (o : subscribe_env) : subscribe_state × Option error :=
  if w.replica_relay.isSome then
    (w, some error.ClientError_ER_CFG_duplicate_connection)
  else
    let reg : subscribe_state × Option error :=
      match w.replica.gc with
      | some _ => (w, none)
      | none =>
        let w1 := { w with gc_registered := w.gc_registered ++ [vclock_sum replica_clock] }
        if o.gc_register_ok then
          ({ w1 with replica :=
              { w1.replica with gc := some ⟨vclock_sum replica_clock, []⟩ } }, none)
        else (w1, some error.OutOfMemory)
    match reg with
    | (w1, some e) => (w1, some e)
    | (w1, none) =>
      let rl := relay_subscribe_relay fd sync w1.replica replica_clock replica_version_id
      let w2 := { w1 with replica_relay := some rl, relays_created := w1.relays_created + 1 }
      let res : relay × Option error :=
        if o.cord_costart_ok then o.session rl else (rl, some error.OutOfMemory)
      let w3 := { w2 with
        cords_started := if o.cord_costart_ok then w2.cords_started + 1 else w2.cords_started
        replica := res.1.replica.getD w2.replica
        replica_relay := none }
      (w3, res.2)

/-! ## Runs of the garbage collection scheduler -/

/-- The two calls that touch `pending_gc`: recovery closes a log while at
position `v` (the trigger `relay_on_close_log_f` runs, with the given outcome
of its allocation), or the loop calls `relay_schedule_pending_gc`. -/
inductive gc_event where
  | close_log (v : vclock) (malloc_ok : Bool)
  | schedule (signature : Int)
deriving DecidableEq, Repr

/-- The effect of one scheduler call. -/
def gc_step (rl : relay) : gc_event → relay
  | gc_event.close_log v malloc_ok =>
    relay_on_close_log_f { rl with r_vclock := some v } malloc_ok
  | gc_event.schedule signature => relay_schedule_pending_gc rl signature

/-- The relay after a sequence of scheduler calls. -/
def gc_run (rl : relay) (evs : List gc_event) : relay :=
  evs.foldl gc_step rl

/-- The recovery signatures at the log closes of a sequence of calls. -/
def close_signatures : List gc_event → List Int
  | [] => []
  | gc_event.close_log v _ :: evs => vclock_sum v :: close_signatures evs
  | gc_event.schedule _ :: evs => close_signatures evs

/-- The gc message enqueued by a successful `relay_on_close_log_f` at a
recovery signature. -/
def gc_msg_at (signature : Int) : relay_gc_msg :=
  { msg := cmsg_init ⟨none, none⟩ relay_on_close_log_f_route, signature := signature }

/-- Recovery closes one log at each of the given positions, every allocation
succeeding. -/
def close_logs (rl : relay) (vs : List vclock) : relay :=
  vs.foldl (fun acc v => relay_on_close_log_f { acc with r_vclock := some v } true) rl

/-- The messages pushed to the tx pipe between two states of a relay. -/
def pushed_tx (before after : relay) : List cmsg_ptr :=
  after.tx_pipe.drop before.tx_pipe.length

/-- The queue is ordered by signature from head to tail. -/
def pending_gc_ordered (q : List relay_gc_msg) : Prop :=
  q.Pairwise (fun x y => x.signature ≤ y.signature)

/-- The position of the replica's gc consumer, if it has one. -/
def replica_gc_signature (rl : relay) : Option Int :=
  (rl.replica.bind fun rep => rep.gc).map fun gc => gc.signature

/-- The signatures handed to `gc_consumer_advance` for the replica so far. -/
def replica_gc_advanced (rl : relay) : Option (List Int) :=
  (rl.replica.bind fun rep => rep.gc).map fun gc => gc.advanced

/-- A relay for examples: the one `relay_subscribe` builds for replica 2, which
subscribes at position `[3, 4]` with its gc consumer at 7. -/
def example_relay (replica_version_id : Nat) : relay :=
  relay_subscribe_relay 5 1 { id := 2, gc := some ⟨7, []⟩ } ⟨[3, 4]⟩ replica_version_id

/-- A packing of version numbers for examples: one byte for each of minor and
patch. The properties below hold for every packing `vid`. -/
def example_version_id (major minor patch : Nat) : Nat :=
  (major * 256 + minor) * 256 + patch

/-- An iteration environment for examples: timeout 10, clock at 3, no error
injection, writes succeed. -/
def example_env : loop_env :=
  { replication_timeout := 10, inj_dparam := none, now := 3, ev_now := 3, send_now := 3
    instance_id := 1, write_ok := true }

/-- Copies of the relay's status message queued in the pipe to the tx thread. -/
def in_flight_tx (rl : relay) : Nat := rl.tx_pipe.count cmsg_ptr.status_msg

/-- Copies of the relay's status message queued in the pipe back to the relay. -/
def in_flight_relay (rl : relay) : Nat := rl.relay_pipe.count cmsg_ptr.status_msg

/-- Two states of a relay agree on what selects the reported vector: the
replica's version, the recovery position and the received vector. -/
def same_positions (a b : relay) : Prop :=
  a.version_id = b.version_id ∧ a.r_vclock = b.r_vclock ∧ a.recv_vclock = b.recv_vclock

/-- The relay of the examples with a received vector `[9, 9]` and two gc
messages queued, at signatures 7 and 18. -/
def example_relay_acked (replica_version_id : Nat) : relay :=
  { example_relay replica_version_id with
    recv_vclock := ⟨[9, 9]⟩, pending_gc := [gc_msg_at 7, gc_msg_at 18] }

/-- The three states of the status message: at rest in the relay, on its way
to the tx thread, on its way back. -/
def status_inv (rl : relay) : Prop :=
  (rl.status_msg.msg.route = none ∧ in_flight_tx rl = 0 ∧ in_flight_relay rl = 0) ∨
  (rl.status_msg.msg = ⟨some relay_subscribe_f_route, some relay_subscribe_f_route⟩ ∧
    in_flight_tx rl = 1 ∧ in_flight_relay rl = 0) ∨
  (rl.status_msg.msg = ⟨some tx_status_update_route, some tx_status_update_route⟩ ∧
    in_flight_tx rl = 0 ∧ in_flight_relay rl = 1)

/-- What the environment may do at an event for the known position to stay
monotone: an acknowledged vector, and a new recovery position, has a signature
neither below the one it replaces nor below `lb`, the signature the replica
subscribed with. -/
def env_ok (lb : Int) (rl : relay) : event → Bool
  | event.reader_recv v =>
    decide (vclock_sum rl.recv_vclock ≤ vclock_sum v ∧ lb ≤ vclock_sum v)
  | event.recovery_advance v =>
    decide (vclock_sum (rl.r_vclock.getD vclock_create) ≤ vclock_sum v ∧ lb ≤ vclock_sum v)
  | _ => true

/-- Every event of a run satisfies `env_ok` in the state it occurs in. -/
def env_monotone (vid : Nat → Nat → Nat → Nat) (lb : Int) : relay → List event → Bool
  | _, [] => true
  | rl, ev :: evs => env_ok lb rl ev && env_monotone vid lb (step vid rl ev) evs

/-- The invariant behind the monotone known position: either the known
signature is at most the last reported one, which is at most the one to
report next, or nothing was reported yet; and the signature to report next is
not below the subscribe signature `lb` unless it is still zero. -/
def known_inv (vid : Nat → Nat → Nat → Nat) (lb : Int) (rl : relay) : Prop :=
  ((vclock_sum rl.tx_vclock ≤ vclock_sum rl.status_msg.vclock ∧
      vclock_sum rl.status_msg.vclock ≤ vclock_sum (send_vclock vid rl)) ∨
    (vclock_sum rl.status_msg.vclock = 0 ∧ vclock_sum rl.tx_vclock = lb ∧
      in_flight_tx rl = 0 ∧ in_flight_relay rl = 0)) ∧
  (lb ≤ vclock_sum (send_vclock vid rl) ∨ vclock_sum (send_vclock vid rl) = 0)

/-- The relay of the examples for a 1.7.5 replica. -/
def example_relay_175 : relay := example_relay (example_version_id 1 7 5)

/-- A run in which the replica first acknowledges `[3, 5]`, which is reported
to the tx thread and returns, and then acknowledges `[3, 4]`, which the next
iteration reports as well. -/
def example_run_decreasing : List event :=
  [event.reader_recv ⟨[3, 5]⟩, event.loop_iteration example_env, event.tx_deliver,
    event.loop_iteration example_env, event.reader_recv ⟨[3, 4]⟩,
    event.loop_iteration example_env]

/-- A run in which the acknowledged vectors grow: `[3, 5]`, then `[4, 6]`. -/
def example_run_growing : List event :=
  [event.reader_recv ⟨[3, 5]⟩, event.loop_iteration example_env, event.tx_deliver,
    event.loop_iteration example_env, event.reader_recv ⟨[4, 6]⟩,
    event.loop_iteration example_env]

/-! ## WAL events -/

/-- Modelled from the spec: one thing the WAL tailer (`recover_remaining_wals`
of `recovery.h`, not among the sources) does while it reads the logs: it reads
a row, which moves its position to `v`, and writes it to the stream (`now` and
`write_ok` are what the stream write reads from its environment); it closes a
log and runs the `on_close_log` trigger (`malloc_ok` is the outcome of the
trigger's allocation); or it raises an error of its own. -/
inductive recovery_action where
  | row (v : vclock) (packet : xrow_header) (now : double) (write_ok : Bool)
  | close_log (malloc_ok : Bool)
  | fail (e : error)
deriving DecidableEq, Repr

/-- The stream write of a relay: the function given to `relay_create`. -/
def xstream_write (rl : relay) (packet : xrow_header) (now : double) (write_ok : Bool) :
    relay × Option error :=
  match rl.stream_write with
  | stream_write_f.relay_send_row => relay_send_row rl packet now write_ok
  | stream_write_f.relay_send_initial_join_row => relay_send rl packet now write_ok

/-- Modelled from the spec: `recover_remaining_wals` performs its actions in
order and stops at the first exception, its own or one raised by the stream
write, which it lets through. -/
def recover_remaining_wals (rl : relay) : List recovery_action → relay × Option error
  | [] => (rl, none)
  | recovery_action.row v packet now write_ok :: rest =>
    match xstream_write { rl with r_vclock := some v } packet now write_ok with
    | (rl1, some e) => (rl1, some e)
    | (rl1, none) => recover_remaining_wals rl1 rest
  | recovery_action.close_log malloc_ok :: rest =>
    recover_remaining_wals (relay_on_close_log_f rl malloc_ok) rest
  | recovery_action.fail e :: _ => (rl, some e)

/-- The WAL watcher callback. Nothing is done once `exiting` is set; otherwise
the new rows are recovered, and an exception is logged, moved into
`relay->diag` (`diag_move` replaces what the destination holds) and the relay
fiber is cancelled. `rotate` is the `WAL_EVENT_ROTATE` bit of `wal.h`, `wal`
what the tailer does for either value of its last argument. -/
def relay_process_wal_event (rl : relay) (events rotate : Nat)
    (wal : Bool → List recovery_action) : relay :=
  if rl.exiting then rl
  else
    match recover_remaining_wals rl (wal ((events &&& rotate) != 0)) with
    | (rl1, none) => rl1
    | (rl1, some e) => { rl1 with diag := some e, cancelled := true }

/-! ## The reader fiber -/

/-- Modelled from the spec: the outcome of one pass of the reader's loop body,
whose read and decode functions (`coio_read_xrow_timeout_xc`,
`xrow_decode_vclock_xc`) are not among the sources. Either a packet is read
and decoded into `v`, or the read raises `e` (an I/O error, a timeout, or
`FiberIsCancelled` when the fiber is cancelled while it waits), or the
decoding raises `e` after `recv_vclock` was zeroed and filled up to
`decoded`. `cancelled` is what `fiber_is_cancelled()` returns for the reader
fiber once the pass is over. -/
inductive read_result where
  | packet (v : vclock) (cancelled : Bool)
  | read_raise (e : error) (cancelled : Bool)
  | decode_raise (decoded : vclock) (e : error) (cancelled : Bool)
deriving DecidableEq, Repr

/-- The state a run of `relay_reader_f` leaves: the relay, the return value
(`none` while the fiber is still waiting for a packet) and the errors written
to the log. -/
structure reader_out where
  relay : relay
  ret : Option Int
  logged : List error
deriving DecidableEq, Repr

/-- The `catch` block of `relay_reader_f`: the first error is moved into
`relay->diag` and the relay fiber cancelled; with an error already there, the
new one is only logged, and not even that when the reader is cancelled. The
function then returns 0. -/
def relay_reader_f_catch (rl : relay) (e : error) (cancelled : Bool) : reader_out :=
  if rl.diag.isNone then
    { relay := { rl with diag := some e, cancelled := true }, ret := some 0, logged := [] }
  else if !cancelled then
    { relay := rl, ret := some 0, logged := [e] }
  else
    { relay := rl, ret := some 0, logged := [] }

/-- Relay reader fiber function: read the vclocks sent by the replica until
the fiber is cancelled or an exception is raised. The arguments are the
relay, the reader's cancellation flag at the loop condition and the outcomes
of its reads. -/
def relay_reader_f : relay → Bool → List read_result → reader_out
  | rl, true, _ => { relay := rl, ret := some 0, logged := [] }
  | rl, false, [] => { relay := rl, ret := none, logged := [] }
  | rl, false, read_result.packet v c :: rest =>
    relay_reader_f { rl with recv_vclock := v } c rest
  | rl, false, read_result.read_raise e c :: _ => relay_reader_f_catch rl e c
  | rl, false, read_result.decode_raise decoded e c :: _ =>
    relay_reader_f_catch { rl with recv_vclock := decoded } e c

/-! ## The loop and the exit of `relay_subscribe_f` -/

/-- What happens while the loop waits in `fiber_cond_wait_deadline` and
handles cbus messages: an event of the machine above, a WAL notification, or a
pass of the reader fiber. -/
inductive wait_event where
  | machine (ev : event)
  | wal_event (events : Nat) (wal : Bool → List recovery_action)
  | reader (r : read_result)

/-- The effect of what happens during a wait. -/
def wait_step (vid : Nat → Nat → Nat → Nat) (rotate : Nat) (rl : relay) : wait_event → relay
  | wait_event.machine ev => step vid rl ev
  | wait_event.wal_event events wal => relay_process_wal_event rl events rotate wal
  | wait_event.reader r => (relay_reader_f rl false [r]).relay

/-- One round of the loop: what happens during the wait, and what the
iteration reads from its environment. -/
structure loop_round where
  wait : List wait_event
  env : loop_env

/-- The loop `while (!fiber_is_cancelled())` of `relay_subscribe_f` over the
given rounds. Returns the relay and the number of iterations run. -/
def relay_subscribe_f_loop (vid : Nat → Nat → Nat → Nat) (rotate : Nat) :
    relay → List loop_round → relay × Nat
  | rl, [] => (rl, 0)
  | rl, r :: rs =>
    if rl.cancelled then (rl, 0)
    else
      let res := relay_subscribe_f_loop vid rotate
        (relay_subscribe_f_iteration vid r.env (r.wait.foldl (wait_step vid rotate) rl)) rs
      (res.1, res.2 + 1)

/-- What `relay_subscribe_f` leaves when it returns: the relay, the
diagnostics area of its fiber and the return value. -/
structure exit_result where
  relay : relay
  fiber_diag : Option error
  ret : Int
deriving DecidableEq, Repr

/-- The relay once the reader is cancelled and joined: unchanged when the
reader is dead already, otherwise what the reader leaves when it returns on
the given reads; `none` when it does not return on them. -/
def relay_subscribe_f_join (rl : relay) (reader_dead : Bool) (reads : List read_result) :
    Option relay :=
  if reader_dead then some rl
  else
    match (relay_reader_f rl false reads).ret with
    | some _ => some (relay_reader_f rl false reads).relay
    | none => none

/-- The part of `relay_subscribe_f` after the loop: cancel and join the
reader, set `exiting`, detach from recovery, the WAL and the cbus (what is
still queued for the relay is delivered), move a pending `relay->diag` into
the fiber's diagnostics area (`fiber_diag` is what that area holds when the
loop exits), and return 0 if that area is empty, -1 otherwise. -/
def relay_subscribe_f_exit (rl : relay) (reader_dead : Bool) (reads : List read_result)
    (fiber_diag : Option error) : Option exit_result :=
  match relay_subscribe_f_join rl reader_dead reads with
  | none => none
  | some rl1 =>
    let rl2 := cbus_process { rl1 with exiting := true }
    let fd : Option error :=
      match rl2.diag with
      | some e => some e
      | none => fiber_diag
    some { relay := { rl2 with diag := none }, fiber_diag := fd
           ret := if fd.isNone then 0 else -1 }

/-- Modelled from the spec: `cord_cojoin` hands the return value of the thread
function to `relay_subscribe`, which raises the error in the diagnostics area
when the value is not 0. This is the `session` of `subscribe_env` for a thread
that ends with the given result. -/
def cord_cojoin (res : exit_result) : relay × Option error :=
  (res.relay, if res.ret != 0 then res.fiber_diag else none)

/-- Two states of a relay agree on what ends a session: the diagnostics area
of the relay, the cancellation flag of its fiber and the `exiting` flag. -/
def same_flags (a b : relay) : Prop :=
  a.diag = b.diag ∧ a.cancelled = b.cancelled ∧ a.exiting = b.exiting

/-- A run in which the first status message is still on its way when a log is
closed at signature 9 and the replica acknowledges `[4, 6]`. -/
def example_run_in_flight : List event :=
  [event.reader_recv ⟨[3, 5]⟩, event.loop_iteration example_env,
    event.recovery_advance ⟨[4, 5]⟩, event.close_log true, event.reader_recv ⟨[4, 6]⟩]

/-- An iteration environment in which the heartbeat is due and its write
fails: the clock is at 50, past the timeout of 10. -/
def example_env_late : loop_env :=
  { replication_timeout := 10, inj_dparam := none, now := 50, ev_now := 50, send_now := 50
    instance_id := 1, write_ok := false }

/-- The same iteration environment with a successful write. -/
def example_env_late_ok : loop_env :=
  { example_env_late with now := 70, ev_now := 70, send_now := 70, write_ok := true }

/-- The status message is on its way to the tx thread: routed to
`tx_status_update` and queued once, in the tx pipe. -/
def status_to_tx (rl : relay) : Prop :=
  rl.status_msg.msg = ⟨some relay_subscribe_f_route, some relay_subscribe_f_route⟩ ∧
    in_flight_tx rl = 1 ∧ in_flight_relay rl = 0

/-- The status message is on its way back: routed to `relay_status_update` and
queued once, in the relay pipe. -/
def status_to_relay (rl : relay) : Prop :=
  rl.status_msg.msg = ⟨some tx_status_update_route, some tx_status_update_route⟩ ∧
    in_flight_tx rl = 0 ∧ in_flight_relay rl = 1

/-- Two states of a relay agree on the status message, on the known vector and
on where the status message is queued. -/
def same_status (a b : relay) : Prop :=
  a.status_msg = b.status_msg ∧ a.tx_vclock = b.tx_vclock ∧
    in_flight_tx a = in_flight_tx b ∧ in_flight_relay a = in_flight_relay b

end Relay

/-!
# JSON path lexer (src/lib/json/path.c)

The buffer of a parser is the memory that starts at `src`: a function from
offsets to bytes, so that a read at or beyond `src_len` has a value of its own.
Pointers into the buffer are offsets from `src`. Characters are their ASCII
codes; `isalpha` and `isdigit` are those of the C locale.
-/

namespace JsonPath

/-- The type of a lexed node: `enum json_path_type`. -/
inductive json_path_type where
  | JSON_PATH_STR
  | JSON_PATH_NUM
  | JSON_PATH_END
deriving DecidableEq, Repr

/-- The node of `struct json_path_node`: `str` is the offset of the string in
the buffer; the union of `{str, len}` and `num` is kept as separate fields. -/
structure json_path_node where
  type : json_path_type
  str : Nat
  len : Nat
  num : Nat
deriving DecidableEq, Repr

/-- The parser state, `struct json_path_parser` in the source; `pos` is
`parser->pos - parser->src`. -/
structure json_path_parser_t where
  src : Nat → Nat
  src_len : Nat
  pos : Nat

/-- What a lexing function leaves: its return value, the parser and the node. -/
structure lex_result where
  rc : Nat
  parser : json_path_parser_t
  node : json_path_node

/-- The `isdigit` of the C locale. -/
def isdigit (c : Nat) : Bool := decide (48 ≤ c) && decide (c ≤ 57)

/-- The `isalpha` of the C locale. -/
def isalpha (c : Nat) : Bool :=
  (decide (65 ≤ c) && decide (c ≤ 90)) || (decide (97 ≤ c) && decide (c ≤ 122))

/-- The shape shared by the three `for` loops of the lexer,
`for (c = *pos; pos < end && test(c); c = *++pos) ++len;`: starting at `pos`,
advance while `pos < end` and the byte at `pos` passes the test. The first
argument bounds the iterations; `end - pos` of them always suffice. Returns the
final `pos`; `len` is the distance covered. -/
def scan (test : Nat → Bool) (src : Nat → Nat) (endp : Nat) : Nat → Nat → Nat
  | 0, pos => pos
  | fuel + 1, pos =>
    if pos < endp ∧ test (src pos) = true then scan test src endp fuel (pos + 1) else pos

/-- Same as `strtoull`, but with limited length: the digits are `len` bytes
from offset `start`, the arithmetic is that of `uint64_t`. -/
def strntoull (src : Nat → Nat) (start len : Nat) : Nat :=
  (List.range len).foldl
    (fun value i => (value * 10 + src (start + i) + 2 ^ 64 - 48) % 2 ^ 64) 0

/-- Parse string identifier in quotes. The byte at the final `pos` is read
whether or not `pos < end`. -/
def json_parse_string (p : json_path_parser_t) (node : json_path_node) : lex_result :=
  let quote_type := p.src p.pos
  let str := p.pos + 1
  let pos := scan (fun c => c != quote_type) p.src p.src_len (p.src_len - str) str
  let len := pos - str
  if p.src pos ≠ quote_type ∨ len = 0 then { rc := pos + 1, parser := p, node := node }
  else
    { rc := 0, parser := { p with pos := pos + 1 }
      node := { node with type := json_path_type.JSON_PATH_STR, str := str, len := len } }

/-- Parse digit sequence into integer until non-digit is met. -/
def json_parse_integer (p : json_path_parser_t) (node : json_path_node) : lex_result :=
  let str := p.pos
  let pos := scan isdigit p.src p.src_len (p.src_len - str) str
  let len := pos - str
  if len = 0 then { rc := pos + 1, parser := p, node := node }
  else
    { rc := 0, parser := { p with pos := pos }
      node := { node with type := json_path_type.JSON_PATH_NUM
                          num := strntoull p.src str len } }

/-- Parse identifier out of quotes: alphas, digits and underscores, no digit at
the first position. -/
def json_parse_identifier (p : json_path_parser_t) (node : json_path_node) : lex_result :=
  let str := p.pos
  let c := p.src p.pos
  if !isalpha c && c != 95 then { rc := p.pos + 1, parser := p, node := node }
  else
    let pos := scan (fun c => isalpha c || c == 95 || isdigit c) p.src p.src_len
      (p.src_len - (str + 1)) (str + 1)
    { rc := 0, parser := { p with pos := pos }
      node := { node with type := json_path_type.JSON_PATH_STR, str := str
                          len := pos - str } }

/-- The body of `case '['` of `json_path_next`, after the bracket is skipped. -/
def json_path_next_bracket (p : json_path_parser_t) (node : json_path_node) : lex_result :=
  if p.pos = p.src_len then { rc := p.pos + 1, parser := p, node := node }
  else
    let c := p.src p.pos
    let r := if c = 34 ∨ c = 39 then json_parse_string p node else json_parse_integer p node
    if r.rc ≠ 0 then r
    else if r.parser.pos = r.parser.src_len ∨ r.parser.src r.parser.pos ≠ 93 then
      { r with rc := r.parser.pos + 1 }
    else { r with parser := { r.parser with pos := r.parser.pos + 1 } }

/-- Get the next node of the path: end of input, `[...]`, or an identifier
after an optional dot. -/
def json_path_next (p : json_path_parser_t) (node : json_path_node) : lex_result :=
  if p.src_len = p.pos then
    { rc := 0, parser := p, node := { node with type := json_path_type.JSON_PATH_END } }
  else
    let c := p.src p.pos
    if c = 91 then json_path_next_bracket { p with pos := p.pos + 1 } node
    else if c = 46 then
      if p.pos + 1 = p.src_len then
        { rc := p.pos + 2, parser := { p with pos := p.pos + 1 }, node := node }
      else json_parse_identifier { p with pos := p.pos + 1 } node
    else json_parse_identifier p node

/-- The calls of `json_path_next` that a loop such as the one of
`lbox_tuple_field_by_path` makes until a call returns an error or
`JSON_PATH_END`: their number, or `none` when the given number of calls does
not get there. -/
def json_path_calls : Nat → json_path_parser_t → json_path_node → Option Nat
  | 0, _, _ => none
  | fuel + 1, p, node =>
    let r := json_path_next p node
    if r.rc ≠ 0 ∨ r.node.type = json_path_type.JSON_PATH_END then some 1
    else (json_path_calls fuel r.parser r.node).map (fun n => n + 1)

/-- A parser at the start of the first `src_len` bytes of a buffer given by
its bytes; the memory after them reads as 0. -/
def parser_of (bytes : List Nat) (src_len : Nat) : json_path_parser_t :=
  { src := fun i => bytes.getD i 0, src_len := src_len, pos := 0 }

/-- A node before any call. -/
def node0 : json_path_node :=
  { type := json_path_type.JSON_PATH_END, str := 0, len := 0, num := 0 }

/-- What a call returns and where it leaves the parser and the node. -/
def lex_result.view (r : lex_result) : Nat × Nat × json_path_node :=
  (r.rc, r.parser.pos, r.node)

/-- Two calls agree: same return value, same node, same position. -/
def same_lex (r1 r2 : lex_result) : Prop :=
  r1.rc = r2.rc ∧ r1.node = r2.node ∧ r1.parser.pos = r2.parser.pos

/-- The characters that may continue an identifier. -/
def is_ident_rest (c : Nat) : Bool := isalpha c || c == 95 || isdigit c

end JsonPath

/-!
# Tuple slicing and transforming (src/box/lua/tuple.c)

Machine integers are `Int` with explicit wrapping: the negation of the least
value of a signed type gives that value back. The arguments taken from the Lua
stack are given after their conversion to the integer type of the variable
that receives them.
-/

namespace Tuple

/-- The value of an `int32_t` computation. -/
def wrap_int32 (x : Int) : Int := (x + 2 ^ 31) % 2 ^ 32 - 2 ^ 31

/-- The value of a conversion to `uint32_t`. -/
def to_uint32 (x : Int) : Int := x % 2 ^ 32

/-- The value of an `int64_t` (`lua_Integer`) computation. -/
def wrap_int64 (x : Int) : Int := (x + 2 ^ 63) % 2 ^ 64 - 2 ^ 63

/-- The least `int32_t`. -/
def INT32_MIN : Int := -2147483648

/-- The least `int64_t`. -/
def INT64_MIN : Int := -9223372036854775808

/-- The errors `lbox_tuple_slice` raises with `luaL_error`. -/
inductive slice_error where
  | bad_arguments
  | start_ge_field_count
  | end_gt_field_count
  | start_must_be_less_than_end
deriving DecidableEq, Repr

/-- The range prepared by `lbox_tuple_slice`, or the error raised. -/
inductive slice_range where
  | error (e : slice_error)
  | range (start end_ : Int)
deriving DecidableEq, Repr

/-- The first part of `lbox_tuple_slice`: prepare the range `start`, `end`
(both `uint32_t`) from the field count and the one or two arguments. -/
def lbox_tuple_slice_range (field_count : Int) (args : List Int) : slice_range :=
  match args with
  | [] => slice_range.error slice_error.bad_arguments
  | _ :: _ :: _ :: _ => slice_range.error slice_error.bad_arguments
  | offset :: rest =>
    let start : Option Int :=
      if offset ≥ 0 ∧ offset < field_count then some (to_uint32 offset)
      else if offset < 0 ∧ wrap_int32 (-offset) ≤ field_count then
        some (to_uint32 (wrap_int32 (offset + field_count)))
      else none
    match start with
    | none => slice_range.error slice_error.start_ge_field_count
    | some start =>
      let end_ : Option Int :=
        match rest with
        | offset2 :: _ =>
          if offset2 > 0 ∧ offset2 ≤ field_count then some (to_uint32 offset2)
          else if offset2 < 0 ∧ wrap_int32 (-offset2) < field_count then
            some (to_uint32 (wrap_int32 (offset2 + field_count)))
          else none
        | [] => some (to_uint32 field_count)
      match end_ with
      | none => slice_range.error slice_error.end_gt_field_count
      | some end_ =>
        if end_ ≤ start then slice_range.error slice_error.start_must_be_less_than_end
        else slice_range.range start end_

/-- What `lbox_tuple_slice_wrapper` leaves: the values pushed, the final
`field_no`, whether its two assertions hold, and its return value. -/
structure slice_wrapper_result where
  pushed : List Nat
  field_no : Int
  assert_end_ge_start : Bool
  assert_field_no_eq_end : Bool
  ret : Int
deriving DecidableEq, Repr

/-- The loop of `lbox_tuple_slice_wrapper`: while there is a field and
`field_no < end`, decode the field and go to the next one. The first argument
bounds the iterations; the number of fields always suffices. -/
def slice_wrapper_loop (fields : List Nat) (end_ : Int) : Nat → Nat → List Nat → List Nat × Nat
  | 0, field_no, pushed => (pushed, field_no)
  | fuel + 1, field_no, pushed =>
    match fields.get? field_no with
    | none => (pushed, field_no)
    | some field =>
      if (field_no : Int) < end_ then
        slice_wrapper_loop fields end_ fuel (field_no + 1) (pushed ++ [field])
      else (pushed, field_no)

/-- The function `lbox_tuple_slice` calls through `luaT_call`: push the fields
from `start` up to `end`. A field is its msgpack value, kept as a number. -/
def lbox_tuple_slice_wrapper (fields : List Nat) (start end_ : Int) : slice_wrapper_result :=
  let res := slice_wrapper_loop fields end_ fields.length start.toNat []
  { pushed := res.1
    field_no := res.2
    assert_end_ge_start := decide (end_ ≥ start)
    assert_field_no_eq_end := decide ((res.2 : Int) = end_)
    ret := wrap_int32 (to_uint32 (end_ - start)) }

/-- What `lbox_tuple_slice` does: raise an error, or call the wrapper on the
range and return `end - start`. -/
inductive slice_result where
  | error (e : slice_error)
  | values (start end_ : Int) (w : slice_wrapper_result) (ret : Int)
deriving DecidableEq, Repr

/-- The function behind `tuple:slice()`: `fields` are the fields of the tuple,
`args` the arguments after the tuple. -/
def lbox_tuple_slice (fields : List Nat) (args : List Int) : slice_result :=
  match lbox_tuple_slice_range (wrap_int32 fields.length) args with
  | slice_range.error e => slice_result.error e
  | slice_range.range start end_ =>
    slice_result.values start end_ (lbox_tuple_slice_wrapper fields start end_)
      (wrap_int32 (to_uint32 (end_ - start)))

/-- The errors `lbox_tuple_transform` raises with `luaL_error`. -/
inductive transform_error where
  | bad_arguments
  | offset_is_out_of_bound
  | len_is_negative
deriving DecidableEq, Repr

/-- An operation of the UPDATE expression built by `lbox_tuple_transform`: a
`#` delete of `len` fields at `offset`, or a `!` insert at `offset` of the
argument at the given index of the Lua stack. -/
inductive update_op where
  | delete (offset len : Int)
  | insert (offset : Int) (arg : Nat)
deriving DecidableEq, Repr

/-- The validated `offset` and `len` of `lbox_tuple_transform`, or the error. -/
inductive transform_range where
  | error (e : transform_error)
  | range (offset len : Int)
deriving DecidableEq, Repr

/-- The validation of `offset` and `len` in `lbox_tuple_transform`. -/
def lbox_tuple_transform_range (field_count offset len : Int) : transform_range :=
  let checked : Option Int :=
    if offset = 0 then none
    else if offset < 0 then
      if wrap_int64 (-offset) > field_count then none
      else some (wrap_int64 (offset + wrap_int64 (field_count + 1)))
    else if offset > field_count then some (wrap_int64 (field_count + 1))
    else some offset
  match checked with
  | none => transform_range.error transform_error.offset_is_out_of_bound
  | some offset1 =>
    if len < 0 then transform_range.error transform_error.len_is_negative
    else
      let room := wrap_int64 (wrap_int64 (field_count + 1) - offset1)
      transform_range.range offset1 (if len > room then room else len)

/-- The assertion `offset + len <= field_count + 1` of `lbox_tuple_transform`,
on the validated values. -/
def lbox_tuple_transform_assert (field_count offset len : Int) : Bool :=
  decide (wrap_int64 (offset + len) ≤ wrap_int64 (field_count + 1))

/-- What `lbox_tuple_transform` does: raise an error, return the tuple itself
when there is no operation, or encode an array header `op_cnt` followed by the
operations and update the tuple with them. -/
inductive transform_result where
  | error (e : transform_error)
  | same_tuple (offset len : Int)
  | update (offset len : Int) (op_cnt : Int) (ops : List update_op)
deriving DecidableEq, Repr

/-- The function behind `tuple:transform()`: `argc` is the number of values on
the Lua stack, the tuple included; the extra arguments are at the indexes
`4 .. argc` and are encoded from the last to the first. -/
def lbox_tuple_transform (field_count : Int) (argc : Nat) (offset len : Int) :
    transform_result :=
  if argc < 3 then transform_result.error transform_error.bad_arguments
  else
    match lbox_tuple_transform_range field_count offset len with
    | transform_range.error e => transform_result.error e
    | transform_range.range offset1 len1 =>
      let op_cnt0 : Int := if offset1 < wrap_int64 (field_count + 1) ∧ len1 > 0 then 1 else 0
      let op_cnt : Int := if argc > 3 then to_uint32 (op_cnt0 + ((argc : Int) - 3)) else op_cnt0
      if op_cnt = 0 then transform_result.same_tuple offset1 len1
      else
        let del : List update_op := if len1 > 0 then [update_op.delete offset1 len1] else []
        let ins : List update_op :=
          (List.range (argc - 3)).map (fun j => update_op.insert offset1 (argc - j))
        transform_result.update offset1 len1 op_cnt (del ++ ins)

end Tuple

/-!
# Column affinity (src/box/sql/build.c)
-/

namespace Sql

/-- The affinities `SQLITE_AFF_*` of `sqliteInt.h`. -/
inductive affinity where
  | SQLITE_AFF_BLOB
  | SQLITE_AFF_TEXT
  | SQLITE_AFF_NUMERIC
  | SQLITE_AFF_INTEGER
  | SQLITE_AFF_REAL
deriving DecidableEq, Repr

/-- Modelled from the spec: the table `sqlite3UpperToLower` is not among the
sources; the search is case-independent for ASCII letters, so the upper case
letters go to lower case and every other byte to itself. -/
def sqlite3UpperToLower (c : Nat) : Nat := if 65 ≤ c ∧ c ≤ 90 then c + 32 else c

/-- Four characters packed as in `('c' << 24) + ('h' << 16) + ('a' << 8) + 'r'`. -/
def chars4 (a b c d : Nat) : Nat := a * 2 ^ 24 + b * 2 ^ 16 + c * 2 ^ 8 + d

/-- Three characters packed as in `('i' << 16) + ('n' << 8) + 't'`. -/
def chars3 (a b c : Nat) : Nat := a * 2 ^ 16 + b * 2 ^ 8 + c

/-- The loop of `sqlite3AffinityType` over the bytes of the name: `h` holds the
last four bytes in lower case (`u32`), `aff` the affinity so far, `zChar` the
rest of the name after a `CHAR` or a `BLOB(`. A zero byte ends the name. -/
def sqlite3AffinityType_loop :
    List Nat → Nat → affinity → Option (List Nat) → affinity × Option (List Nat)
  | [], _, aff, zChar => (aff, zChar)
  | c :: zIn, h, aff, zChar =>
    if c = 0 then (aff, zChar)
    else
      let h1 := (h * 2 ^ 8 + sqlite3UpperToLower (c % 256)) % 2 ^ 32
      if h1 = chars4 99 104 97 114 then
        sqlite3AffinityType_loop zIn h1 affinity.SQLITE_AFF_TEXT (some zIn)
      else if h1 = chars4 99 108 111 98 then
        sqlite3AffinityType_loop zIn h1 affinity.SQLITE_AFF_TEXT zChar
      else if h1 = chars4 116 101 120 116 then
        sqlite3AffinityType_loop zIn h1 affinity.SQLITE_AFF_TEXT zChar
      else if h1 = chars4 98 108 111 98 ∧
          (aff = affinity.SQLITE_AFF_NUMERIC ∨ aff = affinity.SQLITE_AFF_REAL) then
        sqlite3AffinityType_loop zIn h1 affinity.SQLITE_AFF_BLOB
          (if zIn.head? = some 40 then some zIn else zChar)
      else if h1 = chars4 114 101 97 108 ∧ aff = affinity.SQLITE_AFF_NUMERIC then
        sqlite3AffinityType_loop zIn h1 affinity.SQLITE_AFF_REAL zChar
      else if h1 = chars4 102 108 111 97 ∧ aff = affinity.SQLITE_AFF_NUMERIC then
        sqlite3AffinityType_loop zIn h1 affinity.SQLITE_AFF_REAL zChar
      else if h1 = chars4 100 111 117 98 ∧ aff = affinity.SQLITE_AFF_NUMERIC then
        sqlite3AffinityType_loop zIn h1 affinity.SQLITE_AFF_REAL zChar
      else if h1 % 2 ^ 24 = chars3 105 110 116 then (affinity.SQLITE_AFF_INTEGER, zChar)
      else sqlite3AffinityType_loop zIn h1 aff zChar

/-- The size estimate of `sqlite3AffinityType`: 1 by default; for an affinity
below `SQLITE_AFF_NUMERIC`, 5 without `zChar`, else `v / 4 + 1` capped at 255
for the number `v` read at the first digit of `zChar`, if there is one.
`aff_code` gives the character codes of the affinities and `getInt32` the
number that `sqlite3GetInt32` reads; neither is among the sources. -/
def sqlite3AffinityType_estimate (aff_code : affinity → Nat) (getInt32 : List Nat → Nat)
    (aff : affinity) (zChar : Option (List Nat)) : Nat :=
  if aff_code aff < aff_code affinity.SQLITE_AFF_NUMERIC then
    match zChar with
    | none => 5
    | some z =>
      match (z.takeWhile (fun c => c != 0)).dropWhile
          (fun c => !(decide (48 ≤ c) && decide (c ≤ 57))) with
      | [] => 1
      | d :: ds => if getInt32 (d :: ds) / 4 + 1 > 255 then 255 else getInt32 (d :: ds) / 4 + 1
  else 1

/-- Scan the column type name and return the associated affinity, together
with the size estimate stored through `pszEst` when it is not `NULL`. The
build is the one without `SQLITE_OMIT_FLOATING_POINT`. -/
def sqlite3AffinityType (aff_code : affinity → Nat) (getInt32 : List Nat → Nat)
    (zIn : List Nat) (pszEst : Bool) : affinity × Option Nat :=
  let res := sqlite3AffinityType_loop zIn 0 affinity.SQLITE_AFF_NUMERIC none
  (res.1, if pszEst then some (sqlite3AffinityType_estimate aff_code getInt32 res.1 res.2)
    else none)

/-- The value of `h` after the loop has read bytes whose lower-case values
are, the last one first, those of the list. -/
def affinity_hash : List Nat → Nat
  | [] => 0
  | x :: r => (affinity_hash r * 2 ^ 8 + x) % 2 ^ 32

/-- A name in lower case contains `int`. -/
def has_int (l : List Nat) : Prop := [105, 110, 116] <:+: l

/-- A name in lower case contains `char`, `clob` or `text`. -/
def has_text (l : List Nat) : Prop :=
  [99, 104, 97, 114] <:+: l ∨ [99, 108, 111, 98] <:+: l ∨ [116, 101, 120, 116] <:+: l

/-- A name in lower case contains `blob`. -/
def has_blob (l : List Nat) : Prop := [98, 108, 111, 98] <:+: l

/-- A name in lower case contains `real`, `floa` or `doub`. -/
def has_real (l : List Nat) : Prop :=
  [114, 101, 97, 108] <:+: l ∨ [102, 108, 111, 97] <:+: l ∨ [100, 111, 117, 98] <:+: l

instance (l : List Nat) : Decidable (has_int l) := by
  unfold has_int
  infer_instance

instance (l : List Nat) : Decidable (has_text l) := by
  unfold has_text
  infer_instance

instance (l : List Nat) : Decidable (has_blob l) := by
  unfold has_blob
  infer_instance

instance (l : List Nat) : Decidable (has_real l) := by
  unfold has_real
  infer_instance

/-- The table of the documentation of `sqlite3AffinityType` below its first
row, on a name in lower case: `CHAR`, `CLOB` and `TEXT` first, then `BLOB`,
then `REAL`, `FLOA` and `DOUB`, else `SQLITE_AFF_NUMERIC`. -/
def affinity_before_int (l : List Nat) : affinity :=
  if has_text l then affinity.SQLITE_AFF_TEXT
  else if has_blob l then affinity.SQLITE_AFF_BLOB
  else if has_real l then affinity.SQLITE_AFF_REAL
  else affinity.SQLITE_AFF_NUMERIC

/-- The whole table on a name in lower case: `INT` takes priority over the
other rows. -/
def affinity_of_lower (l : List Nat) : affinity :=
  if has_int l then affinity.SQLITE_AFF_INTEGER else affinity_before_int l

/-- The table of the documentation of `sqlite3AffinityType`: the search is
case-independent, so the table is read on the name in lower case. -/
def affinity_table (name : List Nat) : affinity :=
  affinity_of_lower (name.map sqlite3UpperToLower)

/-- The character codes of the affinities, for examples. -/
def example_aff_code : affinity → Nat
  | affinity.SQLITE_AFF_BLOB => 65
  | affinity.SQLITE_AFF_TEXT => 66
  | affinity.SQLITE_AFF_NUMERIC => 67
  | affinity.SQLITE_AFF_INTEGER => 68
  | affinity.SQLITE_AFF_REAL => 69

end Sql

/-! # Properties -/

namespace Relay

/-! ## The scan of `relay_schedule_pending_gc` -/

theorem schedule_loop_eq (a : Int) (q : List relay_gc_msg) (g : Option relay_gc_msg) :
    relay_schedule_pending_gc_loop a q g =
      (q.dropWhile (fun m => decide (m.signature ≤ a)),
        ((q.takeWhile (fun m => decide (m.signature ≤ a))).getLast?).orElse (fun _ => g)) := by
  induction q generalizing g with
  | nil => cases g <;> rfl
  | cons c n ih =>
    by_cases h : c.signature > a
    · have h2 : ¬ c.signature ≤ a := not_le.mpr h
      simp [relay_schedule_pending_gc_loop, h, h2, List.dropWhile, List.takeWhile]
    · have h2 : c.signature ≤ a := not_lt.mp h
      rw [relay_schedule_pending_gc_loop, if_neg h, ih]
      simp only [List.dropWhile, List.takeWhile, h2, decide_True]
      congr 1
      cases hl : (List.takeWhile (fun m => decide (m.signature ≤ a)) n).getLast? with
      | none =>
        have : List.takeWhile (fun m => decide (m.signature ≤ a)) n = [] := by
          simpa using hl
        simp [this]
      | some x =>
        have hne : List.takeWhile (fun m => decide (m.signature ≤ a)) n ≠ [] := by
          intro hc; simp [hc] at hl
        obtain ⟨y, ys, hy⟩ := List.exists_cons_of_ne_nil hne
        rw [hy] at hl
        rw [hy, List.getLast?_cons_cons, hl]
        rfl

theorem takeWhile_le_of_ordered (a : Int) (q : List relay_gc_msg) (h : pending_gc_ordered q) :
    q.takeWhile (fun m => decide (m.signature ≤ a)) =
      q.filter (fun m => decide (m.signature ≤ a)) := by
  induction q with
  | nil => rfl
  | cons c n ih =>
    have hn : pending_gc_ordered n := (List.pairwise_cons.mp h).2
    have hc := (List.pairwise_cons.mp h).1
    by_cases hle : c.signature ≤ a
    · simp [List.takeWhile, List.filter, hle, ih hn]
    · have : n.filter (fun m => decide (m.signature ≤ a)) = [] := by
        rw [List.filter_eq_nil_iff]
        intro m hm
        have := hc m hm
        simp only [decide_eq_true_eq]
        omega
      simp [List.takeWhile, List.filter, hle, this]

theorem dropWhile_le_of_ordered (a : Int) (q : List relay_gc_msg) (h : pending_gc_ordered q) :
    q.dropWhile (fun m => decide (m.signature ≤ a)) =
      q.filter (fun m => decide (a < m.signature)) := by
  induction q with
  | nil => rfl
  | cons c n ih =>
    have hn : pending_gc_ordered n := (List.pairwise_cons.mp h).2
    have hc := (List.pairwise_cons.mp h).1
    by_cases hle : c.signature ≤ a
    · have h2 : ¬ a < c.signature := not_lt.mpr hle
      simp [List.dropWhile, List.filter, hle, h2, ih hn]
    · have h2 : a < c.signature := not_le.mp hle
      have : n.filter (fun m => decide (a < m.signature)) = n := by
        rw [List.filter_eq_self]
        intro m hm
        have := hc m hm
        simp only [decide_eq_true_eq]
        omega
      simp [List.dropWhile, List.filter, hle, h2, this]

theorem schedule_eq (rl : relay) (a : Int) :
    relay_schedule_pending_gc rl a =
      match (rl.pending_gc.takeWhile (fun m => decide (m.signature ≤ a))).getLast? with
      | none =>
        { rl with pending_gc := rl.pending_gc.dropWhile (fun m => decide (m.signature ≤ a)) }
      | some g =>
        cpipe_push_tx
          { rl with pending_gc := rl.pending_gc.dropWhile (fun m => decide (m.signature ≤ a)) }
          (cmsg_ptr.gc_msg g) := by
  unfold relay_schedule_pending_gc
  rw [schedule_loop_eq]
  cases (rl.pending_gc.takeWhile (fun m => decide (m.signature ≤ a))).getLast? <;> rfl

theorem pushed_tx_append (rl rl2 : relay) (l : List cmsg_ptr)
    (h : rl2.tx_pipe = rl.tx_pipe ++ l) : pushed_tx rl rl2 = l := by
  simp [pushed_tx, h]

/-- What a scheduling call pushes and leaves: at most one message `gs`, taken
from the queue, with a signature not above the given one; what is pushed and
what is left form, in this order, a subsequence of the old queue. -/
theorem schedule_pushed (rl : relay) (a : Int) :
    ∃ gs : List relay_gc_msg,
      (relay_schedule_pending_gc rl a).tx_pipe = rl.tx_pipe ++ gs.map cmsg_ptr.gc_msg ∧
      (gs ++ (relay_schedule_pending_gc rl a).pending_gc).Sublist rl.pending_gc ∧
      (∀ g ∈ gs, g.signature ≤ a) ∧
      (relay_schedule_pending_gc rl a).pending_gc <:+ rl.pending_gc := by
  rw [schedule_eq]
  have hsplit := List.takeWhile_append_dropWhile (fun m => decide (m.signature ≤ a)) rl.pending_gc
  have hsuf : rl.pending_gc.dropWhile (fun m => decide (m.signature ≤ a)) <:+ rl.pending_gc :=
    ⟨_, hsplit⟩
  cases hl : (rl.pending_gc.takeWhile (fun m => decide (m.signature ≤ a))).getLast? with
  | none =>
    refine ⟨[], by simp, ?_, by simp, hsuf⟩
    simpa using (List.dropWhile_sublist _)
  | some g =>
    have hmem : g ∈ rl.pending_gc.takeWhile (fun m => decide (m.signature ≤ a)) :=
      List.mem_of_getLast?_eq_some hl
    refine ⟨[g], by simp [cpipe_push_tx], ?_, ?_, hsuf⟩
    · have h1 : [g].Sublist (rl.pending_gc.takeWhile (fun m => decide (m.signature ≤ a))) :=
        List.singleton_sublist.mpr hmem
      have h2 := List.Sublist.append h1
        (List.Sublist.refl (rl.pending_gc.dropWhile (fun m => decide (m.signature ≤ a))))
      rw [hsplit] at h2
      simpa [cpipe_push_tx] using h2
    · intro x hx
      have hx2 : x = g := by simpa using hx
      subst hx2
      have := List.mem_takeWhile_imp hmem
      simpa using this

theorem close_logs_fields (rl : relay) (vs : List vclock) :
    (close_logs rl vs).pending_gc =
        rl.pending_gc ++ vs.map (fun v => gc_msg_at (vclock_sum v)) ∧
      (close_logs rl vs).tx_pipe = rl.tx_pipe ∧
      (close_logs rl vs).replica = rl.replica := by
  induction vs generalizing rl with
  | nil => simp [close_logs]
  | cons v vs ih =>
    have hstep : close_logs rl (v :: vs) =
        close_logs (relay_on_close_log_f { rl with r_vclock := some v } true) vs := rfl
    rw [hstep]
    obtain ⟨h1, h2, h3⟩ := ih (relay_on_close_log_f { rl with r_vclock := some v } true)
    refine ⟨?_, ?_, ?_⟩
    · rw [h1]; simp [relay_on_close_log_f, gc_msg_at]
    · rw [h2]; simp [relay_on_close_log_f]
    · rw [h3]; simp [relay_on_close_log_f]

theorem le_last_of_increasing (vs : List vclock) (last : vclock)
    (hlast : vs.getLast? = some last)
    (hinc : (vs.map vclock_sum).Pairwise (fun x y => x < y)) :
    ∀ v ∈ vs, vclock_sum v ≤ vclock_sum last := by
  obtain ⟨ini, hini⟩ := List.getLast?_eq_some_iff.mp hlast
  subst hini
  intro v hv
  rw [List.map_append, List.pairwise_append] at hinc
  rcases List.mem_append.mp hv with h | h
  · exact le_of_lt (hinc.2.2 _ (List.mem_map_of_mem _ h) _ (by simp))
  · have : v = last := by simpa using h
    rw [this]

/-! ## C1: coalescing of gc messages -/

/-- C1. Starting from an empty `pending_gc`, after one or more log closes that
enqueue strictly increasing signatures (the last one being that of `last`), a
call of `relay_schedule_pending_gc` with a signature not below the last one
pushes exactly one message to the tx pipe, carrying the last signature, and
leaves `pending_gc` empty; delivered by the tx thread, that message makes
exactly one `gc_consumer_advance` call, with the last signature. -/
theorem gc_coalescing (rl : relay) (vs : List vclock) (last : vclock) (a : Int)
    (hq : rl.pending_gc = [])
    (hlast : vs.getLast? = some last)
    (hinc : (vs.map vclock_sum).Pairwise (fun x y => x < y))
    (ha : vclock_sum last ≤ a) :
    (close_logs rl vs).pending_gc = vs.map (fun v => gc_msg_at (vclock_sum v)) ∧
    pushed_tx rl (relay_schedule_pending_gc (close_logs rl vs) a) =
      [cmsg_ptr.gc_msg (gc_msg_at (vclock_sum last))] ∧
    (relay_schedule_pending_gc (close_logs rl vs) a).pending_gc = [] ∧
    (rl.tx_pipe = [] →
      (tx_deliver (relay_schedule_pending_gc (close_logs rl vs) a)).tx_pipe = [] ∧
      replica_gc_advanced (tx_deliver (relay_schedule_pending_gc (close_logs rl vs) a)) =
        (replica_gc_advanced rl).map (fun l => l ++ [vclock_sum last])) := by
  obtain ⟨hp, ht, hr⟩ := close_logs_fields rl vs
  rw [hq, List.nil_append] at hp
  have hall : ∀ m ∈ (close_logs rl vs).pending_gc, decide (m.signature ≤ a) = true := by
    intro m hm
    rw [hp] at hm
    obtain ⟨v, hv, rfl⟩ := List.mem_map.mp hm
    have := le_last_of_increasing vs last hlast hinc v hv
    simp only [gc_msg_at, decide_eq_true_eq]
    omega
  have htake : (close_logs rl vs).pending_gc.takeWhile (fun m => decide (m.signature ≤ a)) =
      (close_logs rl vs).pending_gc := List.takeWhile_eq_self_iff.mpr hall
  have hdrop : (close_logs rl vs).pending_gc.dropWhile (fun m => decide (m.signature ≤ a)) =
      [] := List.dropWhile_eq_nil_iff.mpr hall
  have hget : (close_logs rl vs).pending_gc.getLast? = some (gc_msg_at (vclock_sum last)) := by
    rw [hp, List.getLast?_map, hlast]; rfl
  have hsched : relay_schedule_pending_gc (close_logs rl vs) a =
      cpipe_push_tx { close_logs rl vs with pending_gc := [] }
        (cmsg_ptr.gc_msg (gc_msg_at (vclock_sum last))) := by
    rw [schedule_eq, htake, hdrop, hget]
  refine ⟨hp, ?_, ?_, ?_⟩
  · apply pushed_tx_append
    rw [hsched]; simp [cpipe_push_tx, ht]
  · rw [hsched]; rfl
  · intro hempty
    rw [hsched]
    simp only [cpipe_push_tx, ht, hempty, List.nil_append, tx_deliver, cmsg_deliver, cmsg_hop_f,
      gc_msg_at, cmsg_init, relay_on_close_log_f_route, tx_gc_advance, replica_gc_advanced, hr]
    refine ⟨trivial, ?_⟩
    cases rl.replica with
    | none => rfl
    | some rep =>
      cases hg : rep.gc with
      | none => simp [hg]
      | some gc => simp [hg, gc_consumer_advance]

/-- C1 at a concrete input: three log closes at signatures 8, 9 and 12 followed
by an acknowledgment of 12. -/
theorem gc_coalescing_witness :
    (close_logs (example_relay 0) [⟨[4, 4]⟩, ⟨[5, 4]⟩, ⟨[5, 7]⟩]).pending_gc =
      [gc_msg_at 8, gc_msg_at 9, gc_msg_at 12] ∧
    pushed_tx (example_relay 0)
        (relay_schedule_pending_gc
          (close_logs (example_relay 0) [⟨[4, 4]⟩, ⟨[5, 4]⟩, ⟨[5, 7]⟩]) 12) =
      [cmsg_ptr.gc_msg (gc_msg_at 12)] ∧
    (relay_schedule_pending_gc
        (close_logs (example_relay 0) [⟨[4, 4]⟩, ⟨[5, 4]⟩, ⟨[5, 7]⟩]) 12).pending_gc = [] ∧
    replica_gc_advanced (tx_deliver (relay_schedule_pending_gc
        (close_logs (example_relay 0) [⟨[4, 4]⟩, ⟨[5, 4]⟩, ⟨[5, 7]⟩]) 12)) = some [12] := by
  have h := gc_coalescing (example_relay 0) [⟨[4, 4]⟩, ⟨[5, 4]⟩, ⟨[5, 7]⟩] ⟨[5, 7]⟩ 12
    rfl rfl (by decide) (by decide)
  exact ⟨h.1, h.2.1, h.2.2.1, (h.2.2.2 rfl).2⟩

/-! ## C2: no over-collection -/

/-- C2. For every content of `pending_gc` and every acknowledged signature,
`relay_schedule_pending_gc` only appends to the tx pipe, and every message it
pushes is a gc message taken from the queue whose signature is not above the
acknowledged one; `tx_gc_advance` hands exactly that signature to
`gc_consumer_advance`, so the consumer is never moved beyond the acknowledged
signature of the scheduling call. -/
theorem gc_no_over_collection (rl : relay) (a : Int) :
    rl.tx_pipe <+: (relay_schedule_pending_gc rl a).tx_pipe ∧
    ∀ m ∈ pushed_tx rl (relay_schedule_pending_gc rl a),
      ∃ g : relay_gc_msg, m = cmsg_ptr.gc_msg g ∧ g ∈ rl.pending_gc ∧ g.signature ≤ a ∧
        ∀ (rl2 : relay) (rep : replica) (gc : gc_consumer),
          rl2.replica = some rep → rep.gc = some gc →
            replica_gc_signature (tx_gc_advance rl2 g) = some g.signature ∧
            replica_gc_advanced (tx_gc_advance rl2 g) = some (gc.advanced ++ [g.signature]) := by
  obtain ⟨gs, htx, hsub, hle, _⟩ := schedule_pushed rl a
  refine ⟨⟨_, htx.symm⟩, ?_⟩
  intro m hm
  rw [pushed_tx_append rl _ _ htx] at hm
  obtain ⟨g, hg, rfl⟩ := List.mem_map.mp hm
  refine ⟨g, rfl, ?_, hle g hg, ?_⟩
  · exact hsub.subset (List.mem_append_left _ hg)
  · intro rl2 rep gc hrep hgc
    simp [replica_gc_signature, replica_gc_advanced, tx_gc_advance, hrep, hgc,
      gc_consumer_advance]

/-! ## C7: semantics of the scan -/

/-- C7. When `pending_gc` is ordered by non-decreasing signature,
`relay_schedule_pending_gc` removes exactly the messages with a signature not
above the given one (the queue is those messages followed by what is left),
leaves the others in their original order, pushes to the tx pipe only the last
removed message, which has the highest signature among the removed ones, and
pushes nothing when no message qualifies. -/
theorem gc_scan_semantics (rl : relay) (a : Int) (h : pending_gc_ordered rl.pending_gc) :
    (relay_schedule_pending_gc rl a).pending_gc =
      rl.pending_gc.filter (fun m => decide (a < m.signature)) ∧
    rl.pending_gc = rl.pending_gc.filter (fun m => decide (m.signature ≤ a)) ++
      (relay_schedule_pending_gc rl a).pending_gc ∧
    pushed_tx rl (relay_schedule_pending_gc rl a) =
      ((rl.pending_gc.filter (fun m => decide (m.signature ≤ a))).getLast?.map
        cmsg_ptr.gc_msg).toList ∧
    (∀ g ∈ pushed_tx rl (relay_schedule_pending_gc rl a), ∀ m ∈ rl.pending_gc,
      m.signature ≤ a → ∃ k, g = cmsg_ptr.gc_msg k ∧ m.signature ≤ k.signature) ∧
    ((∀ m ∈ rl.pending_gc, a < m.signature) →
      pushed_tx rl (relay_schedule_pending_gc rl a) = []) := by
  have htake := takeWhile_le_of_ordered a rl.pending_gc h
  have hdrop := dropWhile_le_of_ordered a rl.pending_gc h
  have hsplit := List.takeWhile_append_dropWhile (fun m => decide (m.signature ≤ a)) rl.pending_gc
  have hq : (relay_schedule_pending_gc rl a).pending_gc =
      rl.pending_gc.filter (fun m => decide (a < m.signature)) := by
    rw [schedule_eq, ← hdrop]
    cases (rl.pending_gc.takeWhile (fun m => decide (m.signature ≤ a))).getLast? <;> rfl
  have hpush : pushed_tx rl (relay_schedule_pending_gc rl a) =
      ((rl.pending_gc.filter (fun m => decide (m.signature ≤ a))).getLast?.map
        cmsg_ptr.gc_msg).toList := by
    apply pushed_tx_append
    rw [schedule_eq, ← htake]
    cases (rl.pending_gc.takeWhile (fun m => decide (m.signature ≤ a))).getLast? <;>
      simp [cpipe_push_tx]
  refine ⟨hq, ?_, hpush, ?_, ?_⟩
  · rw [hq, ← htake, ← hdrop]; exact hsplit.symm
  · intro g hg m hm hma
    rw [hpush] at hg
    cases hl : (rl.pending_gc.filter (fun m => decide (m.signature ≤ a))).getLast? with
    | none => simp [hl] at hg
    | some k =>
      simp [hl] at hg
      refine ⟨k, hg, ?_⟩
      obtain ⟨ini, hini⟩ := List.getLast?_eq_some_iff.mp hl
      have hmf : m ∈ rl.pending_gc.filter (fun m => decide (m.signature ≤ a)) :=
        List.mem_filter.mpr ⟨hm, by simpa using hma⟩
      have hord : pending_gc_ordered (rl.pending_gc.filter (fun m => decide (m.signature ≤ a))) :=
        List.Pairwise.sublist (List.filter_sublist _) h
      rw [hini] at hmf hord
      rcases List.mem_append.mp hmf with h1 | h1
      · exact (List.pairwise_append.mp hord).2.2 m h1 k (by simp)
      · have : m = k := by simpa using h1
        rw [this]
  · intro hall
    rw [hpush]
    have : rl.pending_gc.filter (fun m => decide (m.signature ≤ a)) = [] := by
      rw [List.filter_eq_nil_iff]
      intro m hm
      have := hall m hm
      simp only [decide_eq_true_eq]
      omega
    simp [this]

/-- C7 at a concrete input: the queue 8, 9, 12 scanned with signature 10. -/
theorem gc_scan_semantics_witness :
    pending_gc_ordered [gc_msg_at 8, gc_msg_at 9, gc_msg_at 12] ∧
    (relay_schedule_pending_gc
      { example_relay 0 with pending_gc := [gc_msg_at 8, gc_msg_at 9, gc_msg_at 12] }
      10).pending_gc = [gc_msg_at 12] ∧
    pushed_tx { example_relay 0 with pending_gc := [gc_msg_at 8, gc_msg_at 9, gc_msg_at 12] }
      (relay_schedule_pending_gc
        { example_relay 0 with pending_gc := [gc_msg_at 8, gc_msg_at 9, gc_msg_at 12] } 10) =
      [cmsg_ptr.gc_msg (gc_msg_at 9)] := by
  have hord : pending_gc_ordered [gc_msg_at 8, gc_msg_at 9, gc_msg_at 12] := by
    unfold pending_gc_ordered; decide
  have h := gc_scan_semantics
    { example_relay 0 with pending_gc := [gc_msg_at 8, gc_msg_at 9, gc_msg_at 12] } 10 hord
  exact ⟨hord, h.1, h.2.2.1⟩

/-! ## C8, C9: order of the queue and of the deliveries -/

/-- Along a run of scheduler calls the tx pipe only grows, by gc messages `gs`,
and the signatures pushed followed by the signatures still queued form a
subsequence of the signatures queued at the start followed by the recovery
signatures of the log closes of the run. -/
theorem gc_run_sublist (evs : List gc_event) (rl : relay) :
    ∃ gs : List relay_gc_msg,
      (gc_run rl evs).tx_pipe = rl.tx_pipe ++ gs.map cmsg_ptr.gc_msg ∧
      ((gs ++ (gc_run rl evs).pending_gc).map fun m => m.signature).Sublist
        ((rl.pending_gc.map fun m => m.signature) ++ close_signatures evs) := by
  induction evs generalizing rl with
  | nil => exact ⟨[], by simp [gc_run], by simp [gc_run, close_signatures]⟩
  | cons e evs ih =>
    have hstep : gc_run rl (e :: evs) = gc_run (gc_step rl e) evs := rfl
    obtain ⟨gs2, htx2, hsub2⟩ := ih (gc_step rl e)
    rw [hstep]
    cases e with
    | close_log v ok =>
      refine ⟨gs2, ?_, ?_⟩
      · rw [htx2]; cases ok <;> simp [gc_step, relay_on_close_log_f]
      · refine hsub2.trans ?_
        cases ok
        · simp only [gc_step, relay_on_close_log_f, close_signatures]
          exact List.Sublist.append (List.Sublist.refl _) (List.sublist_cons_self _ _)
        · simp [gc_step, relay_on_close_log_f, close_signatures]
    | schedule a =>
      obtain ⟨gs1, htx1, hsub1, _, _⟩ := schedule_pushed rl a
      refine ⟨gs1 ++ gs2, ?_, ?_⟩
      · rw [htx2]; simp [gc_step, htx1]
      · have h1 : ((gs1 ++ (gs2 ++ (gc_run (gc_step rl (gc_event.schedule a)) evs).pending_gc)).map
            fun m => m.signature).Sublist
            ((gs1.map fun m => m.signature) ++
              (((gc_step rl (gc_event.schedule a)).pending_gc.map fun m => m.signature) ++
                close_signatures evs)) := by
          rw [List.map_append]
          exact List.Sublist.append (List.Sublist.refl _) hsub2
        have h2 : ((gs1.map fun m => m.signature) ++
              (((gc_step rl (gc_event.schedule a)).pending_gc.map fun m => m.signature) ++
                close_signatures evs)).Sublist
            ((rl.pending_gc.map fun m => m.signature) ++ close_signatures evs) := by
          rw [← List.append_assoc, ← List.map_append]
          exact List.Sublist.append (List.Sublist.map _ hsub1) (List.Sublist.refl _)
        have h3 := h1.trans h2
        simpa [close_signatures, List.append_assoc] using h3

/-- C8. For every interleaving of log closes (allocation succeeding or not) and
scheduling calls with arbitrary acknowledged signatures, starting from an
empty `pending_gc`: if the recovery signature never decreases from one log
close to the next, the messages pushed to the tx pipe are gc messages whose
signatures, in push order, never decrease. -/
theorem gc_delivery_monotone (rl : relay) (evs : List gc_event)
    (hq : rl.pending_gc = [])
    (hmono : (close_signatures evs).Pairwise (fun x y => x ≤ y)) :
    ∃ gs : List relay_gc_msg,
      pushed_tx rl (gc_run rl evs) = gs.map cmsg_ptr.gc_msg ∧
      (gs.map fun m => m.signature).Pairwise (fun x y => x ≤ y) := by
  obtain ⟨gs, htx, hsub⟩ := gc_run_sublist evs rl
  refine ⟨gs, pushed_tx_append rl _ _ htx, ?_⟩
  rw [hq, List.map_nil, List.nil_append] at hsub
  have h := List.Pairwise.sublist hsub hmono
  rw [List.map_append] at h
  exact (List.pairwise_append.mp h).1

/-- C8 at a concrete input: closes at 8 and 9, an acknowledgment of 8, a close
at 12 whose allocation fails, a close at 12, acknowledgments of 3 and 20. -/
theorem gc_delivery_monotone_witness :
    pushed_tx (example_relay 0)
      (gc_run (example_relay 0)
        [gc_event.close_log ⟨[4, 4]⟩ true, gc_event.close_log ⟨[5, 4]⟩ true,
          gc_event.schedule 8, gc_event.close_log ⟨[5, 7]⟩ false,
          gc_event.close_log ⟨[5, 7]⟩ true, gc_event.schedule 3, gc_event.schedule 20]) =
      [cmsg_ptr.gc_msg (gc_msg_at 8), cmsg_ptr.gc_msg (gc_msg_at 12)] ∧
    ∃ gs : List relay_gc_msg,
      pushed_tx (example_relay 0)
        (gc_run (example_relay 0)
          [gc_event.close_log ⟨[4, 4]⟩ true, gc_event.close_log ⟨[5, 4]⟩ true,
            gc_event.schedule 8, gc_event.close_log ⟨[5, 7]⟩ false,
            gc_event.close_log ⟨[5, 7]⟩ true, gc_event.schedule 3, gc_event.schedule 20]) =
        gs.map cmsg_ptr.gc_msg ∧
      (gs.map fun m => m.signature).Pairwise (fun x y => x ≤ y) :=
  ⟨by decide, gc_delivery_monotone (example_relay 0) _ rfl (by decide)⟩

/-- C9. The queue created by `relay_create` is empty, hence ordered; from a
relay with an empty queue, every run of log closes and scheduling calls in
which the recovery signature never decreases from one log close to the next
reaches a state whose `pending_gc` is ordered by signature from head to tail
(equal signatures may be adjacent); there a log close leaves the queued
messages in place and appends at the tail, and a scheduling call removes a
prefix. -/
theorem pending_gc_stays_ordered (fd : Int) (sync : Nat) (sw : stream_write_f)
    (rl : relay) (evs : List gc_event)
    (hq : rl.pending_gc = (relay_create fd sync sw).pending_gc)
    (hmono : (close_signatures evs).Pairwise (fun x y => x ≤ y)) :
    pending_gc_ordered (relay_create fd sync sw).pending_gc ∧
    pending_gc_ordered (gc_run rl evs).pending_gc ∧
    (∀ (v : vclock) (ok : Bool), (gc_run rl evs).pending_gc <+:
      (gc_step (gc_run rl evs) (gc_event.close_log v ok)).pending_gc) ∧
    (∀ a : Int, (gc_step (gc_run rl evs) (gc_event.schedule a)).pending_gc <:+
      (gc_run rl evs).pending_gc) := by
  refine ⟨by simp [relay_create, pending_gc_ordered], ?_, ?_, ?_⟩
  · obtain ⟨gs, _, hsub⟩ := gc_run_sublist evs rl
    have hq2 : rl.pending_gc = [] := hq
    rw [hq2, List.map_nil, List.nil_append] at hsub
    have h := List.Pairwise.sublist hsub hmono
    rw [List.map_append] at h
    have h2 := (List.pairwise_append.mp h).2.1
    exact List.pairwise_map.mp h2
  · intro v ok
    cases ok
    · simp [gc_step, relay_on_close_log_f]
    · simp [gc_step, relay_on_close_log_f]
  · intro a
    obtain ⟨_, _, _, _, hsuf⟩ := schedule_pushed (gc_run rl evs) a
    exact hsuf

/-- C9 at a concrete input: the run of the C8 example without its last
acknowledgment leaves the queue 9, 12. -/
theorem pending_gc_stays_ordered_witness :
    (gc_run (example_relay 0)
      [gc_event.close_log ⟨[4, 4]⟩ true, gc_event.close_log ⟨[5, 4]⟩ true,
        gc_event.schedule 8, gc_event.close_log ⟨[5, 7]⟩ false,
        gc_event.close_log ⟨[5, 7]⟩ true, gc_event.schedule 3]).pending_gc =
      [gc_msg_at 9, gc_msg_at 12] ∧
    pending_gc_ordered (gc_run (example_relay 0)
      [gc_event.close_log ⟨[4, 4]⟩ true, gc_event.close_log ⟨[5, 4]⟩ true,
        gc_event.schedule 8, gc_event.close_log ⟨[5, 7]⟩ false,
        gc_event.close_log ⟨[5, 7]⟩ true, gc_event.schedule 3]).pending_gc :=
  ⟨by decide, (pending_gc_stays_ordered 5 1 stream_write_f.relay_send_row (example_relay 0)
    _ rfl (by decide)).2.1⟩

/-! ## C5: duplicate subscribe -/

/-- C5. For every replica whose `relay` pointer is set, `relay_subscribe` raises
the duplicate connection `ClientError` and leaves the whole state as it was:
the replica, its gc consumer, the running session, and the counts of gc
consumers registered, relays created and threads started. -/
theorem duplicate_subscribe_rejected (w : subscribe_state) (fd : Int) (sync : Nat)
    (replica_clock : vclock) (replica_version_id : Nat) (o : subscribe_env)
    (h : w.replica_relay ≠ none) :
    relay_subscribe w fd sync replica_clock replica_version_id o =
      (w, some error.ClientError_ER_CFG_duplicate_connection) ∧
    (relay_subscribe w fd sync replica_clock replica_version_id o).1.replica_relay =
      w.replica_relay ∧
    (relay_subscribe w fd sync replica_clock replica_version_id o).1.replica.gc =
      w.replica.gc ∧
    (relay_subscribe w fd sync replica_clock replica_version_id o).1.gc_registered =
      w.gc_registered ∧
    (relay_subscribe w fd sync replica_clock replica_version_id o).1.relays_created =
      w.relays_created ∧
    (relay_subscribe w fd sync replica_clock replica_version_id o).1.cords_started =
      w.cords_started := by
  have hs : w.replica_relay.isSome = true := by
    cases hr : w.replica_relay with
    | none => exact absurd hr h
    | some _ => rfl
  have heq : relay_subscribe w fd sync replica_clock replica_version_id o =
      (w, some error.ClientError_ER_CFG_duplicate_connection) := by
    unfold relay_subscribe
    rw [if_pos hs]
  rw [heq]
  exact ⟨rfl, rfl, rfl, rfl, rfl, rfl⟩

/-- C5 at a concrete input: a first subscribe whose session is still running
(the state inside `relay_subscribe` after `replica_set_relay`), then a second
subscribe for the same replica. -/
theorem duplicate_subscribe_rejected_witness :
    relay_subscribe
      { replica := { id := 2, gc := some ⟨7, []⟩ }, replica_relay := some (example_relay 0)
        gc_registered := [7], relays_created := 1, cords_started := 1 }
      6 2 ⟨[3, 4]⟩ 0
      { gc_register_ok := true, cord_costart_ok := true, session := fun rl => (rl, none) } =
    ({ replica := { id := 2, gc := some ⟨7, []⟩ }, replica_relay := some (example_relay 0)
       gc_registered := [7], relays_created := 1, cords_started := 1 },
      some error.ClientError_ER_CFG_duplicate_connection) :=
  (duplicate_subscribe_rejected
    { replica := { id := 2, gc := some ⟨7, []⟩ }, replica_relay := some (example_relay 0)
      gc_registered := [7], relays_created := 1, cords_started := 1 }
    6 2 ⟨[3, 4]⟩ 0
    { gc_register_ok := true, cord_costart_ok := true, session := fun rl => (rl, none) }
    (by simp)).1

/-! ## C6: loop prevention -/

/-- C6. For every relay with a replica attached and every row, `relay_send_row`
is `relay_send` of the row exactly when the row's `replica_id` differs from the
replica's id, and does nothing otherwise: a row of the subscribing replica
never reaches its connection, and every row of another replica is written
(stamped with the relay's sync) whenever the write succeeds. -/
theorem loop_prevention (rl : relay) (rep : replica) (packet : xrow_header) (now : double)
    (write_ok : Bool) (h : rl.replica = some rep) :
    (relay_send_row rl packet now write_ok = relay_send rl packet now write_ok ↔
      packet.replica_id ≠ rep.id) ∧
    (packet.replica_id = rep.id → relay_send_row rl packet now write_ok = (rl, none)) ∧
    (packet.replica_id ≠ rep.id →
      (relay_send_row rl packet now true).1.io_out =
        rl.io_out ++ [{ packet with sync := rl.sync }]) := by
  have hne : relay_send rl packet now write_ok ≠ (rl, none) := by
    intro hc
    cases write_ok
    · simp [relay_send] at hc
    · have h2 := congrArg (fun x => x.1.io_out.length) hc
      simp [relay_send] at h2
  refine ⟨?_, ?_, ?_⟩
  · constructor
    · intro heq hid
      apply hne
      rw [← heq]
      simp [relay_send_row, h, hid]
    · intro hid
      simp [relay_send_row, h, hid]
  · intro hid
    simp [relay_send_row, h, hid]
  · intro hid
    simp [relay_send_row, h, hid, relay_send]

/-- C6 at a concrete input: replica 2 is subscribed; its own row is dropped and
a row of replica 3 is written. -/
theorem loop_prevention_witness :
    relay_send_row (example_relay 0) ⟨1, 2, 0, 9, 0⟩ 4 true = (example_relay 0, none) ∧
    (relay_send_row (example_relay 0) ⟨1, 3, 0, 9, 0⟩ 4 true).1.io_out = [⟨1, 3, 1, 9, 0⟩] :=
  ⟨(loop_prevention (example_relay 0) { id := 2, gc := some ⟨7, []⟩ } ⟨1, 2, 0, 9, 0⟩ 4 true
      rfl).2.1 rfl,
    (loop_prevention (example_relay 0) { id := 2, gc := some ⟨7, []⟩ } ⟨1, 3, 0, 9, 0⟩ 4 true
      rfl).2.2 (by decide)⟩

/-! ## Frame properties of deliveries -/

theorem cmsg_deliver_cases (rl : relay) (m : cmsg_ptr) :
    (m = cmsg_ptr.status_msg ∧ cmsg_deliver rl m = tx_status_update rl) ∨
    (m = cmsg_ptr.status_msg ∧ cmsg_deliver rl m = relay_status_update rl) ∨
    (∃ g, m = cmsg_ptr.gc_msg g ∧ cmsg_deliver rl m = tx_gc_advance rl g) ∨
    cmsg_deliver rl m = rl := by
  unfold cmsg_deliver
  split
  · exact Or.inl ⟨rfl, rfl⟩
  · exact Or.inr (Or.inl ⟨rfl, rfl⟩)
  · exact Or.inr (Or.inr (Or.inl ⟨_, rfl, rfl⟩))
  · exact Or.inr (Or.inr (Or.inr rfl))

theorem cmsg_deliver_positions (rl : relay) (m : cmsg_ptr) :
    same_positions (cmsg_deliver rl m) rl := by
  rcases cmsg_deliver_cases rl m with ⟨_, h⟩ | ⟨_, h⟩ | ⟨g, _, h⟩ | h <;> rw [h] <;>
    simp [same_positions, tx_status_update, relay_status_update, tx_gc_advance, cpipe_push_relay]

theorem relay_deliver_positions (rl : relay) : same_positions (relay_deliver rl) rl := by
  unfold relay_deliver
  split
  · simp [same_positions]
  · exact cmsg_deliver_positions _ _

theorem iterate_relay_deliver_positions (n : Nat) (rl : relay) :
    same_positions (relay_deliver^[n] rl) rl := by
  induction n generalizing rl with
  | zero => simp [same_positions]
  | succ n ih =>
    rw [Function.iterate_succ_apply]
    obtain ⟨h1, h2, h3⟩ := ih (relay_deliver rl)
    obtain ⟨k1, k2, k3⟩ := relay_deliver_positions rl
    exact ⟨h1.trans k1, h2.trans k2, h3.trans k3⟩

theorem events_positions (e : loop_env) (rl : relay) :
    same_positions (relay_subscribe_f_events e rl) rl := by
  have h := iterate_relay_deliver_positions rl.relay_pipe.length rl
  unfold relay_subscribe_f_events cbus_process
  simp only
  split
  · obtain ⟨h1, h2, h3⟩ := h
    refine ⟨?_, ?_, ?_⟩ <;> simp [relay_send_heartbeat, relay_send] <;> split <;> simp [*]
  · exact h

theorem schedule_status_msg (rl : relay) (a : Int) :
    (relay_schedule_pending_gc rl a).status_msg = rl.status_msg ∧
    (relay_schedule_pending_gc rl a).relay_pipe = rl.relay_pipe ∧
    (relay_schedule_pending_gc rl a).tx_vclock = rl.tx_vclock ∧
    same_positions (relay_schedule_pending_gc rl a) rl ∧
    in_flight_tx (relay_schedule_pending_gc rl a) = in_flight_tx rl := by
  rw [schedule_eq]
  cases (rl.pending_gc.takeWhile (fun m => decide (m.signature ≤ a))).getLast? <;>
    simp [cpipe_push_tx, same_positions, in_flight_tx, List.count_append]

/-! ## C10: backward compatibility -/

/-- C10. In a loop iteration that reports status (after the cbus messages and
the heartbeat check the previous status message is delivered and the
signature to report differs from the last reported one): for a replica older
than 1.7.4 the vector copied into the status message is the recovery position
`r->vclock` and the signature passed to `relay_schedule_pending_gc` is its sum,
whatever `recv_vclock` holds; otherwise they are `recv_vclock` and its sum,
whatever `r->vclock` holds. The first part of the iteration changes neither
the version nor the two vectors. -/
theorem backward_compatibility (vid : Nat → Nat → Nat → Nat) (e : loop_env) (rl : relay)
    (rv : vclock) (hr : rl.r_vclock = some rv)
    (hroute : (relay_subscribe_f_events e rl).status_msg.msg.route = none) :
    (rl.version_id < vid 1 7 4 →
      vclock_sum (relay_subscribe_f_events e rl).status_msg.vclock ≠ vclock_sum rv →
        (relay_subscribe_f_iteration vid e rl).status_msg.vclock = rv ∧
        relay_subscribe_f_iteration vid e rl =
          relay_schedule_pending_gc
            (relay_subscribe_f_push (relay_subscribe_f_events e rl) rv) (vclock_sum rv)) ∧
    (vid 1 7 4 ≤ rl.version_id →
      vclock_sum (relay_subscribe_f_events e rl).status_msg.vclock ≠
          vclock_sum rl.recv_vclock →
        (relay_subscribe_f_iteration vid e rl).status_msg.vclock = rl.recv_vclock ∧
        relay_subscribe_f_iteration vid e rl =
          relay_schedule_pending_gc
            (relay_subscribe_f_push (relay_subscribe_f_events e rl) rl.recv_vclock)
            (vclock_sum rl.recv_vclock)) := by
  obtain ⟨hv, hrv, hrecv⟩ := events_positions e rl
  have hsome : (relay_subscribe_f_events e rl).status_msg.msg.route.isSome = false := by
    rw [hroute]; rfl
  constructor
  · intro hold hne
    have hsv : send_vclock vid (relay_subscribe_f_events e rl) = rv := by
      simp [send_vclock, hv, hrv, hr, hold]
    have hiter : relay_subscribe_f_iteration vid e rl =
        relay_schedule_pending_gc
          (relay_subscribe_f_push (relay_subscribe_f_events e rl) rv) (vclock_sum rv) := by
      unfold relay_subscribe_f_iteration relay_subscribe_f_status
      simp [hsome, hsv, hne]
    refine ⟨?_, hiter⟩
    rw [hiter, (schedule_status_msg _ _).1]
    simp [relay_subscribe_f_push, cpipe_push_tx, vclock_copy]
  · intro hnew hne
    have hsv : send_vclock vid (relay_subscribe_f_events e rl) = rl.recv_vclock := by
      simp [send_vclock, hv, hrecv, Nat.not_lt.mpr hnew]
    have hiter : relay_subscribe_f_iteration vid e rl =
        relay_schedule_pending_gc
          (relay_subscribe_f_push (relay_subscribe_f_events e rl) rl.recv_vclock)
          (vclock_sum rl.recv_vclock) := by
      unfold relay_subscribe_f_iteration relay_subscribe_f_status
      simp [hsome, hsv, hne]
    refine ⟨?_, hiter⟩
    rw [hiter, (schedule_status_msg _ _).1]
    simp [relay_subscribe_f_push, cpipe_push_tx, vclock_copy]

/-- C10 at concrete inputs: the received vector is `[9, 9]`, the recovery
position `[3, 4]`; a 1.7.3 replica gets `[3, 4]` reported and the gc message at
7 scheduled, a 1.7.4 replica `[9, 9]` and the gc message at 18. -/
theorem backward_compatibility_witness :
    ((relay_subscribe_f_iteration example_version_id example_env
        (example_relay_acked (example_version_id 1 7 3))).status_msg.vclock = ⟨[3, 4]⟩ ∧
      pushed_tx (example_relay_acked (example_version_id 1 7 3))
        (relay_subscribe_f_iteration example_version_id example_env
          (example_relay_acked (example_version_id 1 7 3))) =
        [cmsg_ptr.status_msg, cmsg_ptr.gc_msg (gc_msg_at 7)]) ∧
    ((relay_subscribe_f_iteration example_version_id example_env
        (example_relay_acked (example_version_id 1 7 4))).status_msg.vclock = ⟨[9, 9]⟩ ∧
      pushed_tx (example_relay_acked (example_version_id 1 7 4))
        (relay_subscribe_f_iteration example_version_id example_env
          (example_relay_acked (example_version_id 1 7 4))) =
        [cmsg_ptr.status_msg, cmsg_ptr.gc_msg (gc_msg_at 18)]) :=
  ⟨⟨((backward_compatibility example_version_id example_env
        (example_relay_acked (example_version_id 1 7 3)) ⟨[3, 4]⟩ rfl rfl).1
        (by decide) (by decide)).1, by decide⟩,
    ⟨((backward_compatibility example_version_id example_env
        (example_relay_acked (example_version_id 1 7 4)) ⟨[3, 4]⟩ rfl rfl).2
        (by decide) (by decide)).1, by decide⟩⟩

/-! ## C4: a single status message in flight -/

theorem status_inv_congr (a b : relay) (h1 : a.status_msg.msg = b.status_msg.msg)
    (h2 : in_flight_tx a = in_flight_tx b) (h3 : in_flight_relay a = in_flight_relay b)
    (h : status_inv b) : status_inv a := by
  unfold status_inv at *
  rw [h1, h2, h3]
  exact h

theorem status_inv_cmsg_deliver_gc (rl : relay) (g : relay_gc_msg) (h : status_inv rl) :
    status_inv (cmsg_deliver rl (cmsg_ptr.gc_msg g)) := by
  rcases cmsg_deliver_cases rl (cmsg_ptr.gc_msg g) with ⟨hm, _⟩ | ⟨hm, _⟩ | ⟨k, _, hk⟩ | hk
  · cases hm
  · cases hm
  · rw [hk]; exact status_inv_congr _ rl rfl rfl rfl h
  · rw [hk]; exact h

theorem status_inv_tx_deliver (rl : relay) (h : status_inv rl) : status_inv (tx_deliver rl) := by
  unfold tx_deliver
  split
  · exact h
  · rename_i m rest hpipe
    cases m with
    | gc_msg g =>
      apply status_inv_cmsg_deliver_gc
      refine status_inv_congr _ rl rfl ?_ rfl h
      simp [in_flight_tx, hpipe]
    | status_msg =>
      have hcount : in_flight_tx rl = rest.count cmsg_ptr.status_msg + 1 := by
        simp [in_flight_tx, hpipe]
      rcases h with ⟨_, h2, _⟩ | ⟨h1, h2, h3⟩ | ⟨_, h2, _⟩
      · omega
      · have hrest : rest.count cmsg_ptr.status_msg = 0 := by omega
        right; right
        simp [cmsg_deliver, cmsg_hop_f, h1, relay_subscribe_f_route, tx_status_update,
          cpipe_push_relay, cmsg_init, in_flight_tx, in_flight_relay, hrest,
          List.count_append]
        exact h3
      · omega

theorem status_inv_relay_deliver (rl : relay) (h : status_inv rl) :
    status_inv (relay_deliver rl) := by
  unfold relay_deliver
  split
  · exact h
  · rename_i m rest hpipe
    cases m with
    | gc_msg g =>
      apply status_inv_cmsg_deliver_gc
      refine status_inv_congr _ rl rfl rfl ?_ h
      simp [in_flight_relay, hpipe]
    | status_msg =>
      have hcount : in_flight_relay rl = rest.count cmsg_ptr.status_msg + 1 := by
        simp [in_flight_relay, hpipe]
      rcases h with ⟨_, _, h3⟩ | ⟨_, _, h3⟩ | ⟨h1, h2, h3⟩
      · omega
      · omega
      · have hrest : rest.count cmsg_ptr.status_msg = 0 := by omega
        left
        simp [cmsg_deliver, cmsg_hop_f, h1, tx_status_update_route, relay_status_update,
          in_flight_tx, in_flight_relay, hrest]
        exact h2

theorem status_inv_iterate (n : Nat) (rl : relay) (h : status_inv rl) :
    status_inv (relay_deliver^[n] rl) := by
  induction n generalizing rl with
  | zero => exact h
  | succ n ih =>
    rw [Function.iterate_succ_apply]
    exact ih _ (status_inv_relay_deliver rl h)

theorem status_inv_relay_send (rl : relay) (packet : xrow_header) (now : double) (ok : Bool)
    (h : status_inv rl) : status_inv (relay_send rl packet now ok).1 := by
  refine status_inv_congr _ rl ?_ ?_ ?_ h <;> cases ok <;> simp [relay_send, in_flight_tx,
    in_flight_relay]

theorem status_inv_events (e : loop_env) (rl : relay) (h : status_inv rl) :
    status_inv (relay_subscribe_f_events e rl) := by
  have h1 := status_inv_iterate rl.relay_pipe.length rl h
  unfold relay_subscribe_f_events cbus_process
  simp only
  split
  · exact status_inv_relay_send _ _ _ _ h1
  · exact h1

theorem status_inv_status (vid : Nat → Nat → Nat → Nat) (rl : relay) (h : status_inv rl) :
    status_inv (relay_subscribe_f_status vid rl) := by
  unfold relay_subscribe_f_status
  split
  · exact h
  · rename_i hroute
    simp only
    split
    · exact h
    · obtain ⟨k1, k2, _, _, k5⟩ := schedule_status_msg
        (relay_subscribe_f_push rl (send_vclock vid rl)) (vclock_sum (send_vclock vid rl))
      refine status_inv_congr _ (relay_subscribe_f_push rl (send_vclock vid rl))
        (by rw [k1]) k5 (by simp [in_flight_relay, k2]) ?_
      rcases h with ⟨_, h2, h3⟩ | ⟨h1, _, _⟩ | ⟨h1, _, _⟩
      · right; left
        simp [relay_subscribe_f_push, cpipe_push_tx, cmsg_init, in_flight_tx, in_flight_relay,
          List.count_append]
        exact ⟨h2, h3⟩
      · simp [h1] at hroute
      · simp [h1] at hroute

theorem status_inv_step (vid : Nat → Nat → Nat → Nat) (rl : relay) (ev : event)
    (h : status_inv rl) : status_inv (step vid rl ev) := by
  cases ev with
  | loop_iteration e => exact status_inv_status vid _ (status_inv_events e rl h)
  | tx_deliver => exact status_inv_tx_deliver rl h
  | relay_deliver => exact status_inv_relay_deliver rl h
  | reader_recv v => exact status_inv_congr _ rl rfl rfl rfl h
  | recovery_advance v => exact status_inv_congr _ rl rfl rfl rfl h
  | close_log ok =>
    refine status_inv_congr _ rl ?_ ?_ ?_ h <;> cases ok <;>
      simp [step, relay_on_close_log_f, in_flight_tx, in_flight_relay]
  | send_row packet now ok =>
    simp only [step, relay_send_row]
    split
    · exact status_inv_relay_send _ _ _ _ h
    · split
      · exact status_inv_relay_send _ _ _ _ h
      · exact h

theorem status_inv_run (vid : Nat → Nat → Nat → Nat) (evs : List event) (rl : relay)
    (h : status_inv rl) : status_inv (run vid rl evs) := by
  induction evs generalizing rl with
  | nil => exact h
  | cons ev evs ih => exact ih _ (status_inv_step vid rl ev h)

/-- C4. In the state machine whose steps are a loop iteration, a delivery by
the tx thread (`tx_status_update`), a delivery by the relay thread
(`relay_status_update`) and the events of the reader and of recovery, started
from the relay that `relay_subscribe` builds: in every reachable state at most
one copy of the status message is queued in the two pipes together, exactly
one is queued if and only if `status_msg.msg.route` is not `NULL`, and an
iteration that finds the route not `NULL` at its check does nothing after its
first part, so it pushes no status message. -/
theorem single_in_flight_status (vid : Nat → Nat → Nat → Nat) (fd : Int) (sync : Nat)
    (rep : replica) (replica_clock : vclock) (replica_version_id : Nat) (evs : List event) :
    in_flight_tx
        (run vid (relay_subscribe_relay fd sync rep replica_clock replica_version_id) evs) +
      in_flight_relay
        (run vid (relay_subscribe_relay fd sync rep replica_clock replica_version_id) evs) ≤ 1 ∧
    (in_flight_tx
        (run vid (relay_subscribe_relay fd sync rep replica_clock replica_version_id) evs) +
      in_flight_relay
        (run vid (relay_subscribe_relay fd sync rep replica_clock replica_version_id) evs) = 1 ↔
      (run vid (relay_subscribe_relay fd sync rep replica_clock replica_version_id)
        evs).status_msg.msg.route ≠ none) ∧
    (∀ e : loop_env,
      (relay_subscribe_f_events e
        (run vid (relay_subscribe_relay fd sync rep replica_clock replica_version_id)
          evs)).status_msg.msg.route ≠ none →
      relay_subscribe_f_iteration vid e
          (run vid (relay_subscribe_relay fd sync rep replica_clock replica_version_id) evs) =
        relay_subscribe_f_events e
          (run vid (relay_subscribe_relay fd sync rep replica_clock replica_version_id)
            evs)) := by
  have hinit : status_inv (relay_subscribe_relay fd sync rep replica_clock replica_version_id) :=
    Or.inl ⟨rfl, rfl, rfl⟩
  have h := status_inv_run vid evs _ hinit
  refine ⟨?_, ?_, ?_⟩
  · rcases h with ⟨_, h2, h3⟩ | ⟨_, h2, h3⟩ | ⟨_, h2, h3⟩ <;> omega
  · rcases h with ⟨h1, h2, h3⟩ | ⟨h1, h2, h3⟩ | ⟨h1, h2, h3⟩
    · rw [h1, h2, h3]; simp
    · rw [h1, h2, h3]; simp
    · rw [h1, h2, h3]; simp
  · intro e hroute
    unfold relay_subscribe_f_iteration relay_subscribe_f_status
    rw [if_pos]
    exact Option.isSome_iff_ne_none.mpr hroute

/-! ## C3: the known position -/

theorem send_vclock_congr (vid : Nat → Nat → Nat → Nat) (a b : relay)
    (h : same_positions a b) : send_vclock vid a = send_vclock vid b := by
  obtain ⟨h1, h2, h3⟩ := h
  simp [send_vclock, h1, h2, h3]

theorem known_inv_congr (vid : Nat → Nat → Nat → Nat) (lb : Int) (a b : relay)
    (h1 : a.tx_vclock = b.tx_vclock) (h2 : a.status_msg.vclock = b.status_msg.vclock)
    (h3 : same_positions a b) (h4 : in_flight_tx a = in_flight_tx b)
    (h5 : in_flight_relay a = in_flight_relay b) (h : known_inv vid lb b) :
    known_inv vid lb a := by
  unfold known_inv at *
  rw [h1, h2, send_vclock_congr vid a b h3, h4, h5]
  exact h

/-- A delivery keeps the invariant and does not lower the known signature,
provided a status message is only delivered once something was reported. -/
theorem known_inv_cmsg_deliver (vid : Nat → Nat → Nat → Nat) (lb : Int) (rl : relay)
    (m : cmsg_ptr) (h : known_inv vid lb rl)
    (hm : m = cmsg_ptr.status_msg →
      vclock_sum rl.tx_vclock ≤ vclock_sum rl.status_msg.vclock ∧
        vclock_sum rl.status_msg.vclock ≤ vclock_sum (send_vclock vid rl)) :
    known_inv vid lb (cmsg_deliver rl m) ∧
      vclock_sum rl.tx_vclock ≤ vclock_sum (cmsg_deliver rl m).tx_vclock := by
  rcases cmsg_deliver_cases rl m with ⟨hs, hk⟩ | ⟨hs, hk⟩ | ⟨g, _, hk⟩ | hk
  · obtain ⟨k1, k2⟩ := hm hs
    have hpos : same_positions (tx_status_update rl) rl := by
      simp [same_positions, tx_status_update, cpipe_push_relay]
    rw [hk]
    refine ⟨⟨Or.inl ?_, ?_⟩, ?_⟩
    · rw [send_vclock_congr vid _ rl hpos]
      simpa [tx_status_update, cpipe_push_relay, vclock_copy] using k2
    · rw [send_vclock_congr vid _ rl hpos]; exact h.2
    · simpa [tx_status_update, cpipe_push_relay, vclock_copy] using k1
  · rw [hk]
    exact ⟨known_inv_congr vid lb _ rl rfl rfl ⟨rfl, rfl, rfl⟩ rfl rfl h, le_refl _⟩
  · rw [hk]
    exact ⟨known_inv_congr vid lb _ rl rfl rfl ⟨rfl, rfl, rfl⟩ rfl rfl h, le_refl _⟩
  · rw [hk]
    exact ⟨h, le_refl _⟩

theorem known_inv_tx_deliver (vid : Nat → Nat → Nat → Nat) (lb : Int) (rl : relay)
    (h : known_inv vid lb rl) :
    known_inv vid lb (tx_deliver rl) ∧
      vclock_sum rl.tx_vclock ≤ vclock_sum (tx_deliver rl).tx_vclock := by
  unfold tx_deliver
  split
  · exact ⟨h, le_refl _⟩
  · rename_i m rest hpipe
    have hpos : same_positions { rl with tx_pipe := rest } rl := ⟨rfl, rfl, rfl⟩
    have hcnt : in_flight_tx rl =
        rest.count cmsg_ptr.status_msg + (if m = cmsg_ptr.status_msg then 1 else 0) := by
      simp only [in_flight_tx, hpipe, List.count_cons, beq_iff_eq]
    have h0 : known_inv vid lb { rl with tx_pipe := rest } := by
      refine ⟨?_, ?_⟩
      · rcases h.1 with h1 | ⟨h1, h2, h3, h4⟩
        · exact Or.inl h1
        · refine Or.inr ⟨h1, h2, ?_, h4⟩
          simp only [in_flight_tx]
          omega
      · exact h.2
    refine known_inv_cmsg_deliver vid lb _ m h0 ?_
    intro hm
    rcases h.1 with h1 | ⟨_, _, h3, _⟩
    · exact h1
    · rw [if_pos hm] at hcnt; omega

theorem known_inv_relay_deliver (vid : Nat → Nat → Nat → Nat) (lb : Int) (rl : relay)
    (h : known_inv vid lb rl) :
    known_inv vid lb (relay_deliver rl) ∧
      vclock_sum rl.tx_vclock ≤ vclock_sum (relay_deliver rl).tx_vclock := by
  unfold relay_deliver
  split
  · exact ⟨h, le_refl _⟩
  · rename_i m rest hpipe
    have hcnt : in_flight_relay rl =
        rest.count cmsg_ptr.status_msg + (if m = cmsg_ptr.status_msg then 1 else 0) := by
      simp only [in_flight_relay, hpipe, List.count_cons, beq_iff_eq]
    have h0 : known_inv vid lb { rl with relay_pipe := rest } := by
      refine ⟨?_, ?_⟩
      · rcases h.1 with h1 | ⟨h1, h2, h3, h4⟩
        · exact Or.inl h1
        · refine Or.inr ⟨h1, h2, h3, ?_⟩
          simp only [in_flight_relay]
          omega
      · exact h.2
    refine known_inv_cmsg_deliver vid lb _ m h0 ?_
    intro hm
    rcases h.1 with h1 | ⟨_, _, _, h4⟩
    · exact h1
    · rw [if_pos hm] at hcnt; omega

theorem known_inv_iterate (vid : Nat → Nat → Nat → Nat) (lb : Int) (n : Nat) (rl : relay)
    (h : known_inv vid lb rl) :
    known_inv vid lb (relay_deliver^[n] rl) ∧
      vclock_sum rl.tx_vclock ≤ vclock_sum (relay_deliver^[n] rl).tx_vclock := by
  induction n generalizing rl with
  | zero => exact ⟨h, le_refl _⟩
  | succ n ih =>
    rw [Function.iterate_succ_apply]
    obtain ⟨h1, h2⟩ := known_inv_relay_deliver vid lb rl h
    obtain ⟨h3, h4⟩ := ih _ h1
    exact ⟨h3, le_trans h2 h4⟩

theorem known_inv_relay_send (vid : Nat → Nat → Nat → Nat) (lb : Int) (rl : relay)
    (packet : xrow_header) (now : double) (ok : Bool) (h : known_inv vid lb rl) :
    known_inv vid lb (relay_send rl packet now ok).1 ∧
      (relay_send rl packet now ok).1.tx_vclock = rl.tx_vclock := by
  constructor
  · refine known_inv_congr vid lb _ rl ?_ ?_ ?_ ?_ ?_ h <;> cases ok <;>
      simp [relay_send, same_positions, in_flight_tx, in_flight_relay]
  · cases ok <;> simp [relay_send]

theorem known_inv_events (vid : Nat → Nat → Nat → Nat) (lb : Int) (e : loop_env) (rl : relay)
    (h : known_inv vid lb rl) :
    known_inv vid lb (relay_subscribe_f_events e rl) ∧
      vclock_sum rl.tx_vclock ≤ vclock_sum (relay_subscribe_f_events e rl).tx_vclock := by
  obtain ⟨h1, h2⟩ := known_inv_iterate vid lb rl.relay_pipe.length rl h
  unfold relay_subscribe_f_events cbus_process
  simp only
  split
  · obtain ⟨k1, k2⟩ := known_inv_relay_send vid lb _
      (xrow_encode_timestamp e.instance_id e.ev_now) e.send_now e.write_ok h1
    refine ⟨k1, ?_⟩
    unfold relay_send_heartbeat
    rw [k2]; exact h2
  · exact ⟨h1, h2⟩

theorem known_inv_status (vid : Nat → Nat → Nat → Nat) (lb : Int) (rl : relay)
    (h : known_inv vid lb rl) :
    known_inv vid lb (relay_subscribe_f_status vid rl) ∧
      (relay_subscribe_f_status vid rl).tx_vclock = rl.tx_vclock := by
  unfold relay_subscribe_f_status
  split
  · exact ⟨h, rfl⟩
  · simp only
    split
    · exact ⟨h, rfl⟩
    · rename_i hne
      have hne2 : vclock_sum rl.status_msg.vclock ≠ vclock_sum (send_vclock vid rl) := by
        simpa using hne
      obtain ⟨k1, _, k3, k4, _⟩ := schedule_status_msg
        (relay_subscribe_f_push rl (send_vclock vid rl)) (vclock_sum (send_vclock vid rl))
      have hpos : same_positions (relay_subscribe_f_push rl (send_vclock vid rl)) rl :=
        ⟨rfl, rfl, rfl⟩
      have hsv := (send_vclock_congr vid _ _ k4).trans (send_vclock_congr vid _ _ hpos)
      refine ⟨⟨Or.inl ?_, ?_⟩, ?_⟩
      · rw [k1, k3, hsv]
        simp only [relay_subscribe_f_push, cpipe_push_tx, vclock_copy]
        refine ⟨?_, le_refl _⟩
        rcases h.1 with ⟨h1, h2⟩ | ⟨h1, h2, _, _⟩
        · exact le_trans h1 h2
        · rcases h.2 with h3 | h3
          · rw [h2]; exact h3
          · rw [h1, h3] at hne2; exact absurd rfl hne2
      · rw [hsv]; exact h.2
      · rw [k3]; rfl

theorem known_inv_step (vid : Nat → Nat → Nat → Nat) (lb : Int) (rl : relay) (ev : event)
    (h : known_inv vid lb rl) (henv : env_ok lb rl ev = true) :
    known_inv vid lb (step vid rl ev) ∧
      vclock_sum rl.tx_vclock ≤ vclock_sum (step vid rl ev).tx_vclock := by
  cases ev with
  | loop_iteration e =>
    obtain ⟨h1, h2⟩ := known_inv_events vid lb e rl h
    obtain ⟨h3, h4⟩ := known_inv_status vid lb _ h1
    refine ⟨h3, ?_⟩
    simp only [step, relay_subscribe_f_iteration]
    rw [h4]; exact h2
  | tx_deliver => exact known_inv_tx_deliver vid lb rl h
  | relay_deliver => exact known_inv_relay_deliver vid lb rl h
  | reader_recv v =>
    simp only [env_ok, decide_eq_true_eq] at henv
    refine ⟨?_, le_refl _⟩
    by_cases hold : rl.version_id < vid 1 7 4
    · have hsv : send_vclock vid (step vid rl (event.reader_recv v)) = send_vclock vid rl := by
        simp [step, send_vclock, hold]
      unfold known_inv
      rw [hsv]
      exact h
    · have hsv : send_vclock vid (step vid rl (event.reader_recv v)) = v := by
        simp [step, send_vclock, hold]
      have hsv0 : send_vclock vid rl = rl.recv_vclock := by simp [send_vclock, hold]
      unfold known_inv
      rw [hsv]
      refine ⟨?_, Or.inl henv.2⟩
      rcases h.1 with ⟨h1, h2⟩ | h1
      · rw [hsv0] at h2
        exact Or.inl ⟨h1, le_trans h2 henv.1⟩
      · exact Or.inr h1
  | recovery_advance v =>
    simp only [env_ok, decide_eq_true_eq] at henv
    refine ⟨?_, le_refl _⟩
    by_cases hold : rl.version_id < vid 1 7 4
    · have hsv : send_vclock vid (step vid rl (event.recovery_advance v)) = v := by
        simp [step, send_vclock, hold]
      have hsv0 : send_vclock vid rl = rl.r_vclock.getD vclock_create := by
        simp [send_vclock, hold]
      unfold known_inv
      rw [hsv]
      refine ⟨?_, Or.inl henv.2⟩
      rcases h.1 with ⟨h1, h2⟩ | h1
      · rw [hsv0] at h2
        exact Or.inl ⟨h1, le_trans h2 henv.1⟩
      · exact Or.inr h1
    · have hsv : send_vclock vid (step vid rl (event.recovery_advance v)) =
          send_vclock vid rl := by
        simp [step, send_vclock, hold]
      unfold known_inv
      rw [hsv]
      exact h
  | close_log ok =>
    refine ⟨?_, ?_⟩
    · refine known_inv_congr vid lb _ rl ?_ ?_ ?_ ?_ ?_ h <;> cases ok <;>
        simp [step, relay_on_close_log_f, same_positions, in_flight_tx, in_flight_relay]
    · cases ok <;> simp [step, relay_on_close_log_f]
  | send_row packet now ok =>
    simp only [step, relay_send_row]
    split
    · obtain ⟨k1, k2⟩ := known_inv_relay_send vid lb rl packet now ok h
      exact ⟨k1, by rw [k2]⟩
    · split
      · obtain ⟨k1, k2⟩ := known_inv_relay_send vid lb rl packet now ok h
        exact ⟨k1, by rw [k2]⟩
      · exact ⟨h, le_refl _⟩

theorem known_inv_run (vid : Nat → Nat → Nat → Nat) (lb : Int) (evs : List event) (rl : relay)
    (h : known_inv vid lb rl) (henv : env_monotone vid lb rl evs = true) :
    known_inv vid lb (run vid rl evs) := by
  induction evs generalizing rl with
  | nil => exact h
  | cons ev evs ih =>
    simp only [env_monotone, Bool.and_eq_true] at henv
    exact ih _ (known_inv_step vid lb rl ev h henv.1).1 henv.2

theorem env_monotone_append (vid : Nat → Nat → Nat → Nat) (lb : Int) (evs : List event)
    (ev : event) (rl : relay) (h : env_monotone vid lb rl (evs ++ [ev]) = true) :
    env_monotone vid lb rl evs = true ∧ env_ok lb (run vid rl evs) ev = true := by
  induction evs generalizing rl with
  | nil =>
    simp only [List.nil_append, env_monotone, Bool.and_eq_true] at h
    exact ⟨rfl, h.1⟩
  | cons e evs ih =>
    simp only [List.cons_append, env_monotone, Bool.and_eq_true] at h
    obtain ⟨k1, k2⟩ := ih _ h.2
    exact ⟨by simp only [env_monotone, Bool.and_eq_true]; exact ⟨h.1, k1⟩, k2⟩

/-- C3 as stated fails. A 1.7.5 replica subscribes at `[3, 4]`, acknowledges
`[3, 5]` (reported: the known signature becomes 8) and then `[3, 4]`: the next
iteration reports it, since the signatures differ, and `tx_status_update`
lowers the known signature from 8 to 7. -/
theorem known_position_can_decrease :
    vclock_sum (run example_version_id example_relay_175 example_run_decreasing).tx_vclock = 8 ∧
    vclock_sum (step example_version_id
      (run example_version_id example_relay_175 example_run_decreasing)
      event.tx_deliver).tx_vclock = 7 := by
  decide

/-- C3, amended. Started from the relay that `relay_subscribe` builds, in every
run in which each acknowledged vector written to `recv_vclock` and each new
recovery position has a signature neither below the one it replaces nor below
that of `replica_clock`, the signature of `relay->tx.vclock` after any event,
in particular after each `tx_status_update`, is not below its value before
it, for every interleaving of loop iterations, deliveries and environment
events. -/
theorem known_position_monotone (vid : Nat → Nat → Nat → Nat) (fd : Int) (sync : Nat)
    (rep : replica) (replica_clock : vclock) (replica_version_id : Nat) (evs : List event)
    (ev : event)
    (henv : env_monotone vid (vclock_sum replica_clock)
      (relay_subscribe_relay fd sync rep replica_clock replica_version_id)
      (evs ++ [ev]) = true) :
    vclock_sum
        (run vid (relay_subscribe_relay fd sync rep replica_clock replica_version_id)
          evs).tx_vclock ≤
      vclock_sum (step vid
        (run vid (relay_subscribe_relay fd sync rep replica_clock replica_version_id) evs)
        ev).tx_vclock := by
  have hzero : vclock_sum vclock_create = 0 := by decide
  have hinit : known_inv vid (vclock_sum replica_clock)
      (relay_subscribe_relay fd sync rep replica_clock replica_version_id) := by
    refine ⟨Or.inr ⟨hzero, rfl, rfl, rfl⟩, ?_⟩
    by_cases hold : replica_version_id < vid 1 7 4
    · left
      simp [send_vclock, relay_subscribe_relay, relay_create, hold]
    · right
      simp [send_vclock, relay_subscribe_relay, relay_create, hold, hzero]
  obtain ⟨h1, h2⟩ := env_monotone_append vid _ evs ev _ henv
  exact (known_inv_step vid _ _ ev (known_inv_run vid _ evs _ hinit h1) h2).2

/-- C3 amended, at a concrete input: the acknowledgments `[3, 5]` and `[4, 6]`
are reported in turn, and the second `tx_status_update` raises the known
signature from 8 to 10. -/
theorem known_position_monotone_witness :
    vclock_sum (run example_version_id example_relay_175 example_run_growing).tx_vclock = 8 ∧
    vclock_sum (step example_version_id
      (run example_version_id example_relay_175 example_run_growing)
      event.tx_deliver).tx_vclock = 10 ∧
    vclock_sum (run example_version_id example_relay_175 example_run_growing).tx_vclock ≤
      vclock_sum (step example_version_id
        (run example_version_id example_relay_175 example_run_growing)
        event.tx_deliver).tx_vclock :=
  ⟨by decide, by decide,
    known_position_monotone example_version_id 5 1 { id := 2, gc := some ⟨7, []⟩ } ⟨[3, 4]⟩
      (example_version_id 1 7 5) example_run_growing event.tx_deliver (by decide)⟩

/-! ## C14: when a status message is sent -/

theorem status_pushes (vid : Nat → Nat → Nat → Nat) (rl : relay)
    (hroute : rl.status_msg.msg.route = none)
    (hne : vclock_sum rl.status_msg.vclock ≠ vclock_sum (send_vclock vid rl)) :
    relay_subscribe_f_status vid rl =
      relay_schedule_pending_gc (relay_subscribe_f_push rl (send_vclock vid rl))
        (vclock_sum (send_vclock vid rl)) := by
  unfold relay_subscribe_f_status
  simp [hroute, hne]

theorem status_skips (vid : Nat → Nat → Nat → Nat) (rl : relay)
    (h : ¬ (rl.status_msg.msg.route = none ∧
      vclock_sum rl.status_msg.vclock ≠ vclock_sum (send_vclock vid rl))) :
    relay_subscribe_f_status vid rl = rl := by
  unfold relay_subscribe_f_status
  cases hr : rl.status_msg.msg.route with
  | some _ => simp
  | none =>
    have : vclock_sum rl.status_msg.vclock = vclock_sum (send_vclock vid rl) := by
      by_contra hc
      exact h ⟨hr, hc⟩
    simp [this]

theorem status_pushed_tx (vid : Nat → Nat → Nat → Nat) (rl : relay)
    (hroute : rl.status_msg.msg.route = none)
    (hne : vclock_sum rl.status_msg.vclock ≠ vclock_sum (send_vclock vid rl)) :
    ∃ gs : List relay_gc_msg,
      pushed_tx rl (relay_subscribe_f_status vid rl) =
        cmsg_ptr.status_msg :: gs.map cmsg_ptr.gc_msg := by
  obtain ⟨gs, htx, _⟩ := schedule_pushed (relay_subscribe_f_push rl (send_vclock vid rl))
    (vclock_sum (send_vclock vid rl))
  refine ⟨gs, ?_⟩
  apply pushed_tx_append
  rw [status_pushes vid rl hroute hne, htx]
  simp [relay_subscribe_f_push, cpipe_push_tx]

/-- C14. In each loop iteration, with the route and the vectors taken at the
check that follows the cbus messages and the heartbeat: the status message is
pushed to the tx pipe if and only if its route is `NULL` and the signature of
its vector differs from that of `send_vclock`; when it is pushed, exactly one
copy is, its vector becomes `send_vclock` and its route is set; when it is not
pushed the rest of the iteration changes nothing at all. -/
theorem status_send_condition (vid : Nat → Nat → Nat → Nat) (e : loop_env) (rl : relay) :
    (cmsg_ptr.status_msg ∈
        pushed_tx (relay_subscribe_f_events e rl) (relay_subscribe_f_iteration vid e rl) ↔
      ((relay_subscribe_f_events e rl).status_msg.msg.route = none ∧
        vclock_sum (relay_subscribe_f_events e rl).status_msg.vclock ≠
          vclock_sum (send_vclock vid (relay_subscribe_f_events e rl)))) ∧
    (((relay_subscribe_f_events e rl).status_msg.msg.route = none ∧
        vclock_sum (relay_subscribe_f_events e rl).status_msg.vclock ≠
          vclock_sum (send_vclock vid (relay_subscribe_f_events e rl))) →
      (relay_subscribe_f_iteration vid e rl).status_msg.vclock =
          send_vclock vid (relay_subscribe_f_events e rl) ∧
        (relay_subscribe_f_iteration vid e rl).status_msg.msg.route ≠ none ∧
        (pushed_tx (relay_subscribe_f_events e rl)
          (relay_subscribe_f_iteration vid e rl)).count cmsg_ptr.status_msg = 1) ∧
    (¬ ((relay_subscribe_f_events e rl).status_msg.msg.route = none ∧
        vclock_sum (relay_subscribe_f_events e rl).status_msg.vclock ≠
          vclock_sum (send_vclock vid (relay_subscribe_f_events e rl))) →
      relay_subscribe_f_iteration vid e rl = relay_subscribe_f_events e rl) := by
  have hpos : ((relay_subscribe_f_events e rl).status_msg.msg.route = none ∧
        vclock_sum (relay_subscribe_f_events e rl).status_msg.vclock ≠
          vclock_sum (send_vclock vid (relay_subscribe_f_events e rl))) →
      (relay_subscribe_f_iteration vid e rl).status_msg.vclock =
          send_vclock vid (relay_subscribe_f_events e rl) ∧
        (relay_subscribe_f_iteration vid e rl).status_msg.msg.route ≠ none ∧
        (pushed_tx (relay_subscribe_f_events e rl)
          (relay_subscribe_f_iteration vid e rl)).count cmsg_ptr.status_msg = 1 := by
    intro ⟨hroute, hne⟩
    obtain ⟨gs, hgs⟩ := status_pushed_tx vid _ hroute hne
    unfold relay_subscribe_f_iteration
    refine ⟨?_, ?_, ?_⟩
    · rw [status_pushes vid _ hroute hne, (schedule_status_msg _ _).1]
      simp [relay_subscribe_f_push, cpipe_push_tx, vclock_copy]
    · rw [status_pushes vid _ hroute hne, (schedule_status_msg _ _).1]
      simp [relay_subscribe_f_push, cpipe_push_tx, cmsg_init]
    · rw [hgs]
      simp [List.count_cons, List.count_eq_zero]
  have hneg : ¬ ((relay_subscribe_f_events e rl).status_msg.msg.route = none ∧
        vclock_sum (relay_subscribe_f_events e rl).status_msg.vclock ≠
          vclock_sum (send_vclock vid (relay_subscribe_f_events e rl))) →
      relay_subscribe_f_iteration vid e rl = relay_subscribe_f_events e rl := by
    intro h
    unfold relay_subscribe_f_iteration
    exact status_skips vid _ h
  refine ⟨⟨?_, ?_⟩, hpos, hneg⟩
  · intro hmem
    by_contra hc
    rw [hneg hc] at hmem
    simp [pushed_tx] at hmem
  · intro hc
    have h3 := (hpos hc).2.2
    exact List.count_pos_iff.mp (by omega)

/-! ## Frame properties: diagnostics and flags -/

theorem same_flags_trans {a b c : relay} (h1 : same_flags a b) (h2 : same_flags b c) :
    same_flags a c :=
  ⟨h1.1.trans h2.1, h1.2.1.trans h2.2.1, h1.2.2.trans h2.2.2⟩

theorem cmsg_deliver_flags (rl : relay) (m : cmsg_ptr) : same_flags (cmsg_deliver rl m) rl := by
  rcases cmsg_deliver_cases rl m with ⟨_, h⟩ | ⟨_, h⟩ | ⟨g, _, h⟩ | h <;> rw [h] <;>
    simp [same_flags, tx_status_update, relay_status_update, tx_gc_advance, cpipe_push_relay]

theorem relay_deliver_flags (rl : relay) : same_flags (relay_deliver rl) rl := by
  unfold relay_deliver
  split
  · simp [same_flags]
  · exact cmsg_deliver_flags _ _

theorem iterate_relay_deliver_flags (n : Nat) (rl : relay) :
    same_flags (relay_deliver^[n] rl) rl := by
  induction n generalizing rl with
  | zero => simp [same_flags]
  | succ n ih =>
    rw [Function.iterate_succ_apply]
    exact same_flags_trans (ih (relay_deliver rl)) (relay_deliver_flags rl)

theorem cbus_process_flags (rl : relay) : same_flags (cbus_process rl) rl :=
  iterate_relay_deliver_flags _ rl

theorem relay_send_flags (rl : relay) (packet : xrow_header) (now : double) (ok : Bool) :
    same_flags (relay_send rl packet now ok).1 rl := by
  cases ok <;> simp [same_flags, relay_send]

theorem events_flags (e : loop_env) (rl : relay) :
    same_flags (relay_subscribe_f_events e rl) rl := by
  unfold relay_subscribe_f_events
  simp only
  split
  · exact same_flags_trans (relay_send_flags _ _ _ _) (cbus_process_flags rl)
  · exact cbus_process_flags rl

theorem schedule_flags (rl : relay) (a : Int) :
    same_flags (relay_schedule_pending_gc rl a) rl := by
  rw [schedule_eq]
  cases (rl.pending_gc.takeWhile (fun m => decide (m.signature ≤ a))).getLast? <;>
    simp [cpipe_push_tx, same_flags]

theorem status_flags (vid : Nat → Nat → Nat → Nat) (rl : relay) :
    same_flags (relay_subscribe_f_status vid rl) rl := by
  by_cases h : rl.status_msg.msg.route = none ∧
      vclock_sum rl.status_msg.vclock ≠ vclock_sum (send_vclock vid rl)
  · rw [status_pushes vid rl h.1 h.2]
    exact same_flags_trans (schedule_flags _ _) ⟨rfl, rfl, rfl⟩
  · rw [status_skips vid rl h]
    exact ⟨rfl, rfl, rfl⟩

theorem iteration_flags (vid : Nat → Nat → Nat → Nat) (e : loop_env) (rl : relay) :
    same_flags (relay_subscribe_f_iteration vid e rl) rl :=
  same_flags_trans (status_flags vid _) (events_flags e rl)

theorem loop_cancelled (vid : Nat → Nat → Nat → Nat) (rotate : Nat) (rl : relay)
    (rounds : List loop_round) (h : rl.cancelled = true) :
    relay_subscribe_f_loop vid rotate rl rounds = (rl, 0) := by
  cases rounds with
  | nil => rfl
  | cons r rs => simp [relay_subscribe_f_loop, h]

theorem loop_quiet (vid : Nat → Nat → Nat → Nat) (rotate : Nat) (rounds : List loop_round)
    (rl : relay) (hw : ∀ r ∈ rounds, r.wait = []) (hc : rl.cancelled = false) :
    (relay_subscribe_f_loop vid rotate rl rounds).2 = rounds.length ∧
      same_flags (relay_subscribe_f_loop vid rotate rl rounds).1 rl := by
  induction rounds generalizing rl with
  | nil => exact ⟨rfl, rfl, rfl, rfl⟩
  | cons r rs ih =>
    have hr : r.wait = [] := hw r (List.mem_cons_self _ _)
    have hfl := iteration_flags vid r.env rl
    have hc2 : (relay_subscribe_f_iteration vid r.env rl).cancelled = false := by
      rw [hfl.2.1]; exact hc
    obtain ⟨h1, h2⟩ := ih (relay_subscribe_f_iteration vid r.env rl)
      (fun x hx => hw x (List.mem_cons_of_mem _ hx)) hc2
    simp only [relay_subscribe_f_loop, hc, hr, List.foldl_nil, Bool.false_eq_true, if_false,
      List.length_cons]
    exact ⟨by rw [h1], same_flags_trans h2 hfl⟩

/-! ## C17: heartbeat on deadline -/

/-- The messages of the cbus do not change the sync of the relay. -/
theorem cbus_process_sync (rl : relay) : (cbus_process rl).sync = rl.sync := by
  have : ∀ (n : Nat) (x : relay), (relay_deliver^[n] x).sync = x.sync := by
    intro n
    induction n with
    | zero => intro x; rfl
    | succ n ih =>
      intro x
      rw [Function.iterate_succ_apply, ih]
      unfold relay_deliver
      split
      · rfl
      · rename_i m rest _
        rcases cmsg_deliver_cases { x with relay_pipe := rest } m with
          ⟨_, h⟩ | ⟨_, h⟩ | ⟨g, _, h⟩ | h <;> rw [h] <;>
          simp [tx_status_update, relay_status_update, tx_gc_advance, cpipe_push_relay]
  exact this _ rl

/-- C17. The timeout of an iteration is the `dparam` of the error injection
when there is one and `dparam != 0`, and `replication_timeout` otherwise. After
the cbus messages are handled, the iteration calls `relay_send_heartbeat`
exactly when `ev_monotonic_now - relay->last_row_tm > timeout`, the subtraction
and the comparison being those of `double` (with a successful write the
connection gets exactly the heartbeat row in that case and nothing otherwise).
An iteration never changes `relay->diag` nor the cancellation flag, so that
with nothing else happening the loop runs every round, however late the
heartbeats are and whether or not their writes succeed. -/
theorem heartbeat_on_deadline (vid : Nat → Nat → Nat → Nat) (e : loop_env) (rl : relay) :
    (∀ d : double, e.inj_dparam = some d → double.ne_zero d = true → loop_timeout e = d) ∧
    ((e.inj_dparam = none ∨ ∃ d, e.inj_dparam = some d ∧ double.ne_zero d = false) →
      loop_timeout e = e.replication_timeout) ∧
    (double.gt (double.sub e.now (cbus_process rl).last_row_tm) (loop_timeout e) = true →
      relay_subscribe_f_events e rl =
        relay_send_heartbeat (cbus_process rl) e.instance_id e.ev_now e.send_now e.write_ok) ∧
    (double.gt (double.sub e.now (cbus_process rl).last_row_tm) (loop_timeout e) = false →
      relay_subscribe_f_events e rl = cbus_process rl) ∧
    (e.write_ok = true →
      ((relay_subscribe_f_events e rl).io_out =
          (cbus_process rl).io_out ++
            [{ xrow_encode_timestamp e.instance_id e.ev_now with sync := rl.sync }] ↔
        double.gt (double.sub e.now (cbus_process rl).last_row_tm) (loop_timeout e) = true)) ∧
    (relay_subscribe_f_iteration vid e rl).diag = rl.diag ∧
    (relay_subscribe_f_iteration vid e rl).cancelled = rl.cancelled ∧
    (∀ (rotate : Nat) (rounds : List loop_round), (∀ r ∈ rounds, r.wait = []) →
      rl.cancelled = false →
        (relay_subscribe_f_loop vid rotate rl rounds).2 = rounds.length ∧
        (relay_subscribe_f_loop vid rotate rl rounds).1.diag = rl.diag) := by
  have hsync := cbus_process_sync rl
  refine ⟨?_, ?_, ?_, ?_, ?_, (iteration_flags vid e rl).1, (iteration_flags vid e rl).2.1, ?_⟩
  · intro d hd hne
    simp [loop_timeout, hd, hne]
  · intro h
    rcases h with h | ⟨d, h, hz⟩
    · simp [loop_timeout, h]
    · simp [loop_timeout, h, hz]
  · intro h
    unfold relay_subscribe_f_events
    simp only
    rw [if_pos h]
  · intro h
    unfold relay_subscribe_f_events
    simp only
    rw [h]
    rfl
  · intro hok
    unfold relay_subscribe_f_events
    simp only
    by_cases h : double.gt (double.sub e.now (cbus_process rl).last_row_tm) (loop_timeout e) =
        true
    · rw [if_pos h]
      simp [relay_send_heartbeat, relay_send, hok, h, hsync]
    · rw [if_neg h]
      simp [h]
  · intro rotate rounds hw hc
    obtain ⟨h1, h2⟩ := loop_quiet vid rotate rounds rl hw hc
    exact ⟨h1, h2.1⟩

/-- The heartbeat test at values where `double` arithmetic shows. With the
clock at `2^53`, the last row sent at `-1` and a timeout of `2^53`, the
difference rounds to `2^53`, which is not above the timeout: no heartbeat is
sent, although `2^53 + 1 > 2^53`. With a timeout that is a NaN, from the
configuration or from the error injection (a NaN `dparam` is `!= 0`), no
heartbeat is ever due. An infinite clock minus an infinite `last_row_tm` is a
NaN, and no heartbeat is due either. A `dparam` of `-0.0` is not `!= 0` and
leaves `replication_timeout` in force. -/
theorem heartbeat_test_in_double_arithmetic :
    double.sub (double.finite false (2 ^ 53) 0) (double.finite true 1 0) =
      double.finite false (2 ^ 52) 1 ∧
    relay_subscribe_f_events
      { replication_timeout := double.finite false (2 ^ 53) 0, inj_dparam := none
        now := double.finite false (2 ^ 53) 0, ev_now := 0, send_now := 0, instance_id := 1
        write_ok := true }
      { example_relay 0 with last_row_tm := double.finite true 1 0 } =
      { example_relay 0 with last_row_tm := double.finite true 1 0 } ∧
    (relay_subscribe_f_events
      { replication_timeout := double.finite false (2 ^ 53 - 2) 0, inj_dparam := none
        now := double.finite false (2 ^ 53) 0, ev_now := 0, send_now := 0, instance_id := 1
        write_ok := true }
      { example_relay 0 with last_row_tm := double.finite true 1 0 }).io_out =
      [⟨0, 1, 1, 0, 0⟩] ∧
    relay_subscribe_f_events
      { replication_timeout := double.nan, inj_dparam := none, now := 1000, ev_now := 0
        send_now := 0, instance_id := 1, write_ok := true } (example_relay 0) =
      example_relay 0 ∧
    loop_timeout
      { replication_timeout := 10, inj_dparam := some double.nan, now := 1000, ev_now := 0
        send_now := 0, instance_id := 1, write_ok := true } = double.nan ∧
    loop_timeout
      { replication_timeout := 10, inj_dparam := some (double.finite true 0 0), now := 1000
        ev_now := 0, send_now := 0, instance_id := 1, write_ok := true } = 10 ∧
    relay_subscribe_f_events
      { replication_timeout := 10, inj_dparam := none, now := double.infinite false
        ev_now := 0, send_now := 0, instance_id := 1, write_ok := true }
      { example_relay 0 with last_row_tm := double.infinite false } =
      { example_relay 0 with last_row_tm := double.infinite false } := by
  decide

/-! ## C11: send failures -/

/-- C11 fails in the code for heartbeats. The heartbeat of the first iteration
is due and its write fails: the `catch` of `relay_send_heartbeat` only logs the
exception, so `relay->diag` stays empty and the fiber is not cancelled, and the
loop runs its second iteration, whose heartbeat reaches the connection. The
two other `catch` blocks of the session, in `relay_process_wal_event` (here on
a failed row write) and in `relay_reader_f` (here on a read timeout), store
the error in the empty `relay->diag` and cancel the relay fiber. -/
theorem heartbeat_failure_not_fatal :
    (relay_send_heartbeat (example_relay 0) 1 50 50 false).diag = none ∧
    (relay_send_heartbeat (example_relay 0) 1 50 50 false).cancelled = false ∧
    (relay_subscribe_f_loop example_version_id 2 (example_relay 0)
      [⟨[], example_env_late⟩, ⟨[], example_env_late_ok⟩]).2 = 2 ∧
    (relay_subscribe_f_loop example_version_id 2 (example_relay 0)
      [⟨[], example_env_late⟩, ⟨[], example_env_late_ok⟩]).1.io_out = [⟨0, 1, 1, 0, 70⟩] ∧
    (relay_process_wal_event (example_relay 0) 1 2
      (fun _ => [recovery_action.row ⟨[3, 5]⟩ ⟨1, 3, 0, 9, 0⟩ 4 false])).diag =
      some error.SocketError ∧
    (relay_process_wal_event (example_relay 0) 1 2
      (fun _ => [recovery_action.row ⟨[3, 5]⟩ ⟨1, 3, 0, 9, 0⟩ 4 false])).cancelled = true ∧
    (relay_reader_f (example_relay 0) false
      [read_result.read_raise error.TimedOut false]).relay.diag = some error.TimedOut ∧
    (relay_reader_f (example_relay 0) false
      [read_result.read_raise error.TimedOut false]).relay.cancelled = true := by
  decide

/-- The row half of the claim on send failures. A failed write of a data row
propagates out of `relay_send`, `relay_send_row` and the tailing of the WAL;
whenever the tailing ends with an exception `relay_process_wal_event` leaves
an error in `relay->diag` and cancels the relay fiber, after which the loop
runs no further iteration. -/
theorem row_send_failure_propagates (vid : Nat → Nat → Nat → Nat) (rotate events : Nat) (rl : relay)
    (v : vclock) (packet : xrow_header) (now : double) (rest : List recovery_action)
    (hexit : rl.exiting = false) (hsw : rl.stream_write = stream_write_f.relay_send_row)
    (hrow : ∀ rep, rl.replica = some rep → packet.replica_id ≠ rep.id) :
    (relay_send rl packet now false).2 = some error.SocketError ∧
    (relay_send_row rl packet now false).2 = some error.SocketError ∧
    (recover_remaining_wals rl (recovery_action.row v packet now false :: rest)).2 =
      some error.SocketError ∧
    (∀ (wal : Bool → List recovery_action) (e : error),
      (recover_remaining_wals rl (wal ((events &&& rotate) != 0))).2 = some e →
        (relay_process_wal_event rl events rotate wal).diag.isSome = true ∧
        (relay_process_wal_event rl events rotate wal).cancelled = true ∧
        ∀ rounds : List loop_round,
          relay_subscribe_f_loop vid rotate (relay_process_wal_event rl events rotate wal)
            rounds = (relay_process_wal_event rl events rotate wal, 0)) := by
  have hsend : (relay_send rl packet now false).2 = some error.SocketError := by
    simp [relay_send]
  have hrowsend : ∀ x : relay, x.replica = rl.replica →
      (relay_send_row x packet now false).2 = some error.SocketError := by
    intro x hx
    unfold relay_send_row
    cases hr : x.replica with
    | none => simp [relay_send]
    | some rep =>
      have := hrow rep (by rw [← hx, hr])
      simp [this, relay_send]
  refine ⟨hsend, hrowsend rl rfl, ?_, ?_⟩
  · have h := hrowsend
      { rl with r_vclock := some v, stream_write := stream_write_f.relay_send_row } rfl
    simp only [recover_remaining_wals, xstream_write, hsw]
    split
    · rename_i rl1 e heq
      rw [heq] at h
      exact h
    · rename_i rl1 heq
      rw [heq] at h
      cases h
  · intro wal e he
    have hev : relay_process_wal_event rl events rotate wal =
        { (recover_remaining_wals rl (wal ((events &&& rotate) != 0))).1 with
          diag := some e, cancelled := true } := by
      unfold relay_process_wal_event
      rw [hexit]
      simp only [Bool.false_eq_true, if_false]
      split
      · rename_i rl1 heq
        rw [heq] at he
        cases he
      · rename_i rl1 e1 heq
        rw [heq] at he
        cases he
        simp [heq]
    refine ⟨by rw [hev]; rfl, by rw [hev], ?_⟩
    intro rounds
    exact loop_cancelled vid rotate _ rounds (by rw [hev])

/-- The row half at a concrete input: while replica 2 is subscribed the write
of a row of replica 3 fails. -/
theorem row_send_failure_propagates_example :
    (relay_process_wal_event (example_relay 0) 1 2
      (fun _ => [recovery_action.row ⟨[3, 5]⟩ ⟨1, 3, 0, 9, 0⟩ 4 false])).diag.isSome =
      true ∧
    (relay_process_wal_event (example_relay 0) 1 2
      (fun _ => [recovery_action.row ⟨[3, 5]⟩ ⟨1, 3, 0, 9, 0⟩ 4 false])).cancelled = true ∧
    (relay_subscribe_f_loop example_version_id 2
      (relay_process_wal_event (example_relay 0) 1 2
        (fun _ => [recovery_action.row ⟨[3, 5]⟩ ⟨1, 3, 0, 9, 0⟩ 4 false]))
      [⟨[], example_env_late_ok⟩]).2 = 0 := by
  have h := (row_send_failure_propagates example_version_id 2 1 (example_relay 0) ⟨[3, 5]⟩
    ⟨1, 3, 0, 9, 0⟩ 4 [] rfl rfl (by decide)).2.2.2
    (fun _ => [recovery_action.row ⟨[3, 5]⟩ ⟨1, 3, 0, 9, 0⟩ 4 false]) error.SocketError
    (by decide)
  exact ⟨h.1, h.2.1, by rw [h.2.2]⟩

/-! ## C12: the diagnostics slot -/

/-- C12 fails on the WAL path. The reader times out first and stores its error
in the empty `relay->diag`; a second reader error would be dropped, but when
WAL tailing then fails on a row write, `relay_process_wal_event` replaces the
stored error, and the error re-raised at exit is the later one. -/
theorem wal_error_replaces_diag :
    (relay_reader_f (example_relay 0) false
      [read_result.read_raise error.TimedOut false]).relay.diag = some error.TimedOut ∧
    (relay_reader_f
      (relay_reader_f (example_relay 0) false
        [read_result.read_raise error.TimedOut false]).relay false
      [read_result.read_raise error.SocketError false]).relay.diag = some error.TimedOut ∧
    (relay_process_wal_event
      (relay_reader_f (example_relay 0) false
        [read_result.read_raise error.TimedOut false]).relay 1 2
      (fun _ => [recovery_action.row ⟨[3, 5]⟩ ⟨1, 3, 0, 9, 0⟩ 4 false])).diag =
      some error.SocketError ∧
    (relay_subscribe_f_exit
      (relay_process_wal_event
        (relay_reader_f (example_relay 0) false
          [read_result.read_raise error.TimedOut false]).relay 1 2
        (fun _ => [recovery_action.row ⟨[3, 5]⟩ ⟨1, 3, 0, 9, 0⟩ 4 false]))
      true [] none).map (fun res => (res.fiber_diag, res.ret)) =
      some (some error.SocketError, -1) := by
  decide

/-! ## C13: the reader on cancellation -/

theorem relay_reader_f_packets (vs : List vclock) (rl : relay) (tail : List read_result) :
    relay_reader_f rl false (vs.map (fun v => read_result.packet v false) ++ tail) =
      relay_reader_f { rl with recv_vclock := vs.getLast?.getD rl.recv_vclock } false tail := by
  induction vs generalizing rl with
  | nil => rfl
  | cons v vs ih =>
    have hstep : relay_reader_f rl false
        (read_result.packet v false :: (vs.map (fun v => read_result.packet v false) ++ tail)) =
        relay_reader_f { rl with recv_vclock := v } false
          (vs.map (fun v => read_result.packet v false) ++ tail) := rfl
    rw [List.map_cons, List.cons_append, hstep, ih]
    cases vs with
    | nil => simp
    | cons w ws =>
      obtain ⟨x, hx⟩ : ∃ x, (w :: ws).getLast? = some x := by
        cases h : (w :: ws).getLast? with
        | none => simp at h
        | some x => exact ⟨x, rfl⟩
      rw [List.getLast?_cons_cons, hx]
      simp

/-- C13 as stated fails for an empty `relay->diag`: the cancelled reader stores
the cancellation error there and cancels the relay fiber. -/
theorem reader_cancel_fills_empty_diag :
    (example_relay 0).diag = none ∧ (example_relay 0).cancelled = false ∧
    (relay_reader_f (example_relay 0) false
      [read_result.read_raise error.FiberIsCancelled true]).ret = some 0 ∧
    (relay_reader_f (example_relay 0) false
      [read_result.read_raise error.FiberIsCancelled true]).relay.diag =
      some error.FiberIsCancelled ∧
    (relay_reader_f (example_relay 0) false
      [read_result.read_raise error.FiberIsCancelled true]).relay.cancelled = true := by
  decide

/-- C13, amended. When the reader fiber is cancelled while it waits for a
packet, after any number of acknowledgments, `relay_reader_f` returns 0 and
logs nothing. If `relay->diag` already holds an error it is left unchanged and
the relay fiber is not cancelled: the relay is as the last acknowledgment left
it. If `relay->diag` is empty the cancellation error is moved into it and the
relay fiber is cancelled. A cancellation seen by the loop condition ends the
function with 0 and no change at all. -/
theorem reader_cancelled_exit (rl : relay) (vs : List vclock) :
    (relay_reader_f rl false (vs.map (fun v => read_result.packet v false) ++
      [read_result.read_raise error.FiberIsCancelled true])).ret = some 0 ∧
    (relay_reader_f rl false (vs.map (fun v => read_result.packet v false) ++
      [read_result.read_raise error.FiberIsCancelled true])).logged = [] ∧
    (rl.diag ≠ none →
      (relay_reader_f rl false (vs.map (fun v => read_result.packet v false) ++
        [read_result.read_raise error.FiberIsCancelled true])).relay =
        { rl with recv_vclock := vs.getLast?.getD rl.recv_vclock }) ∧
    (rl.diag = none →
      (relay_reader_f rl false (vs.map (fun v => read_result.packet v false) ++
        [read_result.read_raise error.FiberIsCancelled true])).relay =
        { rl with recv_vclock := vs.getLast?.getD rl.recv_vclock
                  diag := some error.FiberIsCancelled, cancelled := true }) ∧
    (∀ reads : List read_result,
      relay_reader_f rl true reads = { relay := rl, ret := some 0, logged := [] }) := by
  rw [relay_reader_f_packets]
  refine ⟨?_, ?_, ?_, ?_, ?_⟩
  · simp only [relay_reader_f, relay_reader_f_catch]
    split <;> rfl
  · simp only [relay_reader_f, relay_reader_f_catch]
    split <;> rfl
  · intro h
    have : rl.diag.isNone = false := by
      cases hd : rl.diag with
      | none => exact absurd hd h
      | some _ => rfl
    simp [relay_reader_f, relay_reader_f_catch, this]
  · intro h
    simp [relay_reader_f, relay_reader_f_catch, h]
  · intro reads
    cases reads <;> rfl

/-! ## C16: gc feedback -/

theorem gc_scan_semantics_aux (rl : relay) (a : Int) (h : pending_gc_ordered rl.pending_gc) :
    (relay_schedule_pending_gc rl a).pending_gc =
      rl.pending_gc.filter (fun m => decide (a < m.signature)) := by
  rw [schedule_eq, ← dropWhile_le_of_ordered a rl.pending_gc h]
  cases (rl.pending_gc.takeWhile (fun m => decide (m.signature ≤ a))).getLast? <;> rfl

theorem events_pending_gc (e : loop_env) (rl : relay) :
    (relay_subscribe_f_events e rl).pending_gc = rl.pending_gc := by
  have hit : ∀ (n : Nat) (x : relay), (relay_deliver^[n] x).pending_gc = x.pending_gc := by
    intro n
    induction n with
    | zero => intro x; rfl
    | succ n ih =>
      intro x
      rw [Function.iterate_succ_apply, ih]
      unfold relay_deliver
      split
      · rfl
      · rename_i m rest _
        rcases cmsg_deliver_cases { x with relay_pipe := rest } m with
          ⟨_, h⟩ | ⟨_, h⟩ | ⟨g, _, h⟩ | h <;> rw [h] <;>
          simp [tx_status_update, relay_status_update, tx_gc_advance, cpipe_push_relay]
  unfold relay_subscribe_f_events cbus_process
  simp only
  split
  · rw [← hit rl.relay_pipe.length rl]
    cases e.write_ok <;> simp [relay_send_heartbeat, relay_send]
  · exact hit _ rl

/-- C16 as stated fails. The first status message is still on its way to the
tx thread when a log is closed at signature 9 and the replica acknowledges
`[4, 6]`: the acknowledged signature, 10, is beyond the last reported one, 8,
but the next iteration finds the route set and skips
`relay_schedule_pending_gc`, so the gc message at 9 stays queued. -/
theorem gc_feedback_skipped_in_flight :
    vclock_sum (send_vclock example_version_id
      (run example_version_id example_relay_175 example_run_in_flight)) = 10 ∧
    vclock_sum (run example_version_id example_relay_175
      example_run_in_flight).status_msg.vclock = 8 ∧
    (run example_version_id example_relay_175 example_run_in_flight).pending_gc =
      [gc_msg_at 9] ∧
    (step example_version_id (run example_version_id example_relay_175 example_run_in_flight)
      (event.loop_iteration example_env)).pending_gc = [gc_msg_at 9] ∧
    pushed_tx (run example_version_id example_relay_175 example_run_in_flight)
      (step example_version_id (run example_version_id example_relay_175 example_run_in_flight)
        (event.loop_iteration example_env)) = [] := by
  decide

/-- C16, amended. In every loop iteration whose check finds no status message
in flight (route `NULL`) and the acknowledged signature different from the
last reported one, in particular beyond it, `relay_schedule_pending_gc` is
invoked with that signature; with `pending_gc` ordered by signature, every
queued message with a signature not above it is removed in that iteration. The
first part of the iteration does not touch the queue. An iteration that finds
the route set skips the call. -/
theorem gc_feedback_when_idle (vid : Nat → Nat → Nat → Nat) (e : loop_env) (rl : relay)
    (hroute : (relay_subscribe_f_events e rl).status_msg.msg.route = none)
    (hne : vclock_sum (relay_subscribe_f_events e rl).status_msg.vclock ≠
      vclock_sum (send_vclock vid (relay_subscribe_f_events e rl)))
    (hord : pending_gc_ordered rl.pending_gc) :
    relay_subscribe_f_iteration vid e rl =
      relay_schedule_pending_gc
        (relay_subscribe_f_push (relay_subscribe_f_events e rl)
          (send_vclock vid (relay_subscribe_f_events e rl)))
        (vclock_sum (send_vclock vid (relay_subscribe_f_events e rl))) ∧
    (relay_subscribe_f_events e rl).pending_gc = rl.pending_gc ∧
    (relay_subscribe_f_iteration vid e rl).pending_gc =
      rl.pending_gc.filter (fun m =>
        decide (vclock_sum (send_vclock vid (relay_subscribe_f_events e rl)) < m.signature)) ∧
    (∀ m ∈ (relay_subscribe_f_iteration vid e rl).pending_gc,
      vclock_sum (send_vclock vid (relay_subscribe_f_events e rl)) < m.signature) ∧
    (∀ rl2 : relay, rl2.status_msg.msg.route ≠ none → relay_subscribe_f_status vid rl2 = rl2) := by
  have hiter : relay_subscribe_f_iteration vid e rl =
      relay_schedule_pending_gc
        (relay_subscribe_f_push (relay_subscribe_f_events e rl)
          (send_vclock vid (relay_subscribe_f_events e rl)))
        (vclock_sum (send_vclock vid (relay_subscribe_f_events e rl))) := by
    unfold relay_subscribe_f_iteration
    exact status_pushes vid _ hroute hne
  have hq : (relay_subscribe_f_push (relay_subscribe_f_events e rl)
      (send_vclock vid (relay_subscribe_f_events e rl))).pending_gc = rl.pending_gc := by
    rw [← events_pending_gc e rl]; rfl
  have hfilter : (relay_subscribe_f_iteration vid e rl).pending_gc =
      rl.pending_gc.filter (fun m =>
        decide (vclock_sum (send_vclock vid (relay_subscribe_f_events e rl)) < m.signature)) := by
    rw [hiter, (gc_scan_semantics_aux _ _ (by rw [hq]; exact hord)), hq]
  refine ⟨hiter, events_pending_gc e rl, hfilter, ?_, ?_⟩
  · intro m hm
    rw [hfilter] at hm
    simpa using (List.mem_filter.mp hm).2
  · intro rl2 h2
    exact status_skips vid rl2 (fun hc => h2 hc.1)

/-- C16 amended, at a concrete input: a 1.7.4 replica has acknowledged
`[9, 9]`, nothing is in flight, and gc messages at 7 and 18 are queued; the
iteration removes both and schedules the one at 18. -/
theorem gc_feedback_when_idle_witness :
    (relay_subscribe_f_iteration example_version_id example_env
      (example_relay_acked (example_version_id 1 7 4))).pending_gc = [] ∧
    pushed_tx (example_relay_acked (example_version_id 1 7 4))
      (relay_subscribe_f_iteration example_version_id example_env
        (example_relay_acked (example_version_id 1 7 4))) =
      [cmsg_ptr.status_msg, cmsg_ptr.gc_msg (gc_msg_at 18)] :=
  ⟨(gc_feedback_when_idle example_version_id example_env
      (example_relay_acked (example_version_id 1 7 4)) rfl (by decide)
      (by unfold pending_gc_ordered; decide)).2.2.1, by decide⟩

/-! ## C18: the exiting flag -/

/-- C18. For every relay with `exiting` set, every event mask and whatever the
WAL tailer would do, `relay_process_wal_event` returns without calling it and
leaves the relay as it is: no row is sent, the fiber is not cancelled, and
`relay->diag`, `last_row_tm` and `pending_gc` are unchanged. -/
theorem exiting_suppresses_streaming (rl : relay) (events rotate : Nat)
    (wal : Bool → List recovery_action) (h : rl.exiting = true) :
    relay_process_wal_event rl events rotate wal = rl ∧
    (relay_process_wal_event rl events rotate wal).io_out = rl.io_out ∧
    (relay_process_wal_event rl events rotate wal).cancelled = rl.cancelled ∧
    (relay_process_wal_event rl events rotate wal).diag = rl.diag ∧
    (relay_process_wal_event rl events rotate wal).last_row_tm = rl.last_row_tm ∧
    (relay_process_wal_event rl events rotate wal).pending_gc = rl.pending_gc := by
  have heq : relay_process_wal_event rl events rotate wal = rl := by
    unfold relay_process_wal_event
    rw [if_pos h]
  rw [heq]
  exact ⟨rfl, rfl, rfl, rfl, rfl, rfl⟩

/-- C18 at a concrete input: with `exiting` set, a notification whose tailing
would write a row, close a log and fail leaves the relay untouched, while the
same notification before `exiting` is set writes the row. -/
theorem exiting_suppresses_streaming_witness :
    relay_process_wal_event { example_relay 0 with exiting := true } 3 2
      (fun _ => [recovery_action.row ⟨[3, 5]⟩ ⟨1, 3, 0, 9, 0⟩ 4 true,
        recovery_action.close_log true, recovery_action.fail error.XlogError]) =
      { example_relay 0 with exiting := true } ∧
    (relay_process_wal_event (example_relay 0) 3 2
      (fun _ => [recovery_action.row ⟨[3, 5]⟩ ⟨1, 3, 0, 9, 0⟩ 4 true,
        recovery_action.close_log true, recovery_action.fail error.XlogError])).io_out =
      [⟨1, 3, 1, 9, 0⟩] :=
  ⟨(exiting_suppresses_streaming { example_relay 0 with exiting := true } 3 2
      (fun _ => [recovery_action.row ⟨[3, 5]⟩ ⟨1, 3, 0, 9, 0⟩ 4 true,
        recovery_action.close_log true, recovery_action.fail error.XlogError]) rfl).1,
    by decide⟩

/-! ## C19: allocation failure of a gc message -/

/-- C19. When the allocation in `relay_on_close_log_f` fails the function
returns with the relay unchanged: `pending_gc` is as before and nothing is
pushed, and the WAL tailer that ran the trigger goes on. When it succeeds
exactly one message, carrying the signature of `relay->r->vclock`, is appended
at the tail of `pending_gc`, the messages already queued are unchanged and
nothing else changes. -/
theorem gc_alloc_failure_nonfatal (rl : relay) (v : vclock) (h : rl.r_vclock = some v) :
    relay_on_close_log_f rl false = rl ∧
    (∀ rest : List recovery_action,
      recover_remaining_wals rl (recovery_action.close_log false :: rest) =
        recover_remaining_wals rl rest) ∧
    relay_on_close_log_f rl true =
      { rl with pending_gc := rl.pending_gc ++ [gc_msg_at (vclock_sum v)] } ∧
    (relay_on_close_log_f rl true).pending_gc =
      rl.pending_gc ++ [gc_msg_at (vclock_sum v)] ∧
    (relay_on_close_log_f rl true).tx_pipe = rl.tx_pipe := by
  refine ⟨rfl, fun _ => rfl, ?_, ?_, rfl⟩ <;>
    simp [relay_on_close_log_f, gc_msg_at, h]

/-- C19 at a concrete input: the relay of the examples, whose recovery is at
`[3, 4]`, with one message queued. -/
theorem gc_alloc_failure_nonfatal_witness :
    relay_on_close_log_f { example_relay 0 with pending_gc := [gc_msg_at 5] } false =
      { example_relay 0 with pending_gc := [gc_msg_at 5] } ∧
    (relay_on_close_log_f { example_relay 0 with pending_gc := [gc_msg_at 5] } true).pending_gc =
      [gc_msg_at 5, gc_msg_at 7] :=
  ⟨(gc_alloc_failure_nonfatal { example_relay 0 with pending_gc := [gc_msg_at 5] } ⟨[3, 4]⟩
      rfl).1,
    (gc_alloc_failure_nonfatal { example_relay 0 with pending_gc := [gc_msg_at 5] } ⟨[3, 4]⟩
      rfl).2.2.2.1⟩

/-! ## C20: the pending diagnostic at exit -/

theorem reader_keeps_diag (reads : List read_result) (rl : relay) (c : Bool) (e : error)
    (h : rl.diag = some e) : (relay_reader_f rl c reads).relay.diag = some e := by
  induction reads generalizing rl c with
  | nil => cases c <;> simpa [relay_reader_f] using h
  | cons r rest ih =>
    cases c with
    | true => simpa [relay_reader_f] using h
    | false =>
      cases r with
      | packet v c2 =>
        simp only [relay_reader_f]
        exact ih _ c2 h
      | read_raise e2 c2 =>
        simp only [relay_reader_f, relay_reader_f_catch, h, Option.isNone_some,
          Bool.false_eq_true, if_false]
        split <;> exact h
      | decode_raise d e2 c2 =>
        simp only [relay_reader_f, relay_reader_f_catch, h, Option.isNone_some,
          Bool.false_eq_true, if_false]
        split <;> rfl

theorem join_keeps_diag (rl joined : relay) (reader_dead : Bool) (reads : List read_result)
    (e : error) (hjoin : relay_subscribe_f_join rl reader_dead reads = some joined)
    (h : rl.diag = some e) : joined.diag = some e := by
  unfold relay_subscribe_f_join at hjoin
  cases reader_dead with
  | true =>
    simp only [if_true] at hjoin
    cases hjoin
    exact h
  | false =>
    simp only [Bool.false_eq_true, if_false] at hjoin
    split at hjoin
    · cases hjoin
      exact reader_keeps_diag reads rl false e h
    · cases hjoin

/-- C20. Whenever the reader can be joined (`joined` is the relay it leaves),
`relay_subscribe_f` returns. If `relay->diag` holds an error when the loop
exits, that error is moved into the fiber's diagnostics area, replacing what
was there, and the return value is -1; `relay_subscribe`, whose thread ends
this way, then clears `replica->relay` and raises that error. The return value
is 0 exactly when both `relay->diag`, as the joined reader leaves it, and the
fiber's diagnostics area are empty, and -1 otherwise. -/
theorem diag_reraised_at_exit (rl joined : relay) (reader_dead : Bool)
    (reads : List read_result) (fiber_diag : Option error)
    (hjoin : relay_subscribe_f_join rl reader_dead reads = some joined) :
    ∃ res : exit_result,
      relay_subscribe_f_exit rl reader_dead reads fiber_diag = some res ∧
      res.relay.exiting = true ∧
      (∀ e : error, rl.diag = some e →
        res.fiber_diag = some e ∧ res.ret = -1 ∧ res.relay.diag = none ∧
        ∀ (w : subscribe_state) (fd : Int) (sync : Nat) (replica_clock : vclock)
          (replica_version_id : Nat) (o : subscribe_env),
          w.replica_relay = none → (w.replica.gc ≠ none ∨ o.gc_register_ok = true) →
          o.cord_costart_ok = true → (∀ x : relay, o.session x = cord_cojoin res) →
            (relay_subscribe w fd sync replica_clock replica_version_id o).2 = some e ∧
            (relay_subscribe w fd sync replica_clock replica_version_id o).1.replica_relay =
              none) ∧
      (res.ret = 0 ↔ joined.diag = none ∧ fiber_diag = none) ∧
      (res.ret = 0 ∨ res.ret = -1) := by
  have hflags := cbus_process_flags { joined with exiting := true }
  have hd : (cbus_process { joined with exiting := true }).diag = joined.diag := hflags.1
  have hx : (cbus_process { joined with exiting := true }).exiting = true := hflags.2.2
  have hexit : ∃ res : exit_result,
      relay_subscribe_f_exit rl reader_dead reads fiber_diag = some res ∧
      res.relay = { cbus_process { joined with exiting := true } with diag := none } ∧
      res.fiber_diag = (match joined.diag with
        | some e => some e
        | none => fiber_diag) ∧
      res.ret = if res.fiber_diag.isNone then 0 else -1 := by
    unfold relay_subscribe_f_exit
    rw [hjoin]
    refine ⟨_, rfl, rfl, ?_, rfl⟩
    simp only [hd]
  obtain ⟨res, hres, hrel, hfd, hret⟩ := hexit
  refine ⟨res, hres, by rw [hrel]; exact hx, ?_, ?_, ?_⟩
  · intro e he
    have hj := join_keeps_diag rl joined reader_dead reads e hjoin he
    have hfd2 : res.fiber_diag = some e := by rw [hfd, hj]
    have hret2 : res.ret = -1 := by rw [hret, hfd2]; rfl
    refine ⟨hfd2, hret2, by rw [hrel], ?_⟩
    intro w fd sync replica_clock replica_version_id o hw hgc hco hses
    have hcj : ∀ x : relay, (o.session x).2 = some e := by
      intro x
      rw [hses x]
      simp [cord_cojoin, hfd2, hret2]
    have hnone : w.replica_relay.isSome = false := by rw [hw]; rfl
    unfold relay_subscribe
    simp only [hnone, Bool.false_eq_true, if_false, hco, if_true]
    cases hg : w.replica.gc with
    | some gc => exact ⟨hcj _, rfl⟩
    | none =>
      rcases hgc with hgc | hgc
      · exact absurd hg hgc
      · simp only [hgc, if_true]
        exact ⟨hcj _, trivial⟩
  · rw [hret, hfd]
    cases hj : joined.diag with
    | some e => simp
    | none =>
      cases fiber_diag with
      | none => simp
      | some e => simp
  · rw [hret, hfd]
    cases hj : joined.diag with
    | some e => right; rfl
    | none =>
      cases fiber_diag with
      | none => left; rfl
      | some e => right; rfl

/-- C20 at a concrete input: the write of a row failed, so the loop exits with
a socket error in `relay->diag`; the reader is then cancelled and joined, and
the error is re-raised through `relay_subscribe`. -/
theorem diag_reraised_at_exit_witness :
    (relay_subscribe_f_exit
      (relay_process_wal_event (example_relay 0) 1 2
        (fun _ => [recovery_action.row ⟨[3, 5]⟩ ⟨1, 3, 0, 9, 0⟩ 4 false]))
      false [read_result.read_raise error.FiberIsCancelled true] none).map
        (fun res => (res.fiber_diag, res.ret, res.relay.diag, res.relay.exiting)) =
      some (some error.SocketError, -1, none, true) ∧
    ∃ res : exit_result,
      relay_subscribe_f_exit
        (relay_process_wal_event (example_relay 0) 1 2
          (fun _ => [recovery_action.row ⟨[3, 5]⟩ ⟨1, 3, 0, 9, 0⟩ 4 false]))
        false [read_result.read_raise error.FiberIsCancelled true] none = some res ∧
      res.relay.exiting = true :=
  ⟨by decide,
    (diag_reraised_at_exit
      (relay_process_wal_event (example_relay 0) 1 2
        (fun _ => [recovery_action.row ⟨[3, 5]⟩ ⟨1, 3, 0, 9, 0⟩ 4 false]))
      (relay_reader_f
        (relay_process_wal_event (example_relay 0) 1 2
          (fun _ => [recovery_action.row ⟨[3, 5]⟩ ⟨1, 3, 0, 9, 0⟩ 4 false]))
        false [read_result.read_raise error.FiberIsCancelled true]).relay
      false [read_result.read_raise error.FiberIsCancelled true] none rfl).imp
      (fun _ h => ⟨h.1, h.2.1⟩)⟩

/-! ## C15: the status round trip -/

theorem same_status_trans {a b c : relay} (h1 : same_status a b) (h2 : same_status b c) :
    same_status a c :=
  ⟨h1.1.trans h2.1, h1.2.1.trans h2.2.1, h1.2.2.1.trans h2.2.2.1, h1.2.2.2.trans h2.2.2.2⟩

theorem cmsg_deliver_gc_same (rl : relay) (g : relay_gc_msg) :
    same_status (cmsg_deliver rl (cmsg_ptr.gc_msg g)) rl := by
  rcases cmsg_deliver_cases rl (cmsg_ptr.gc_msg g) with ⟨hm, _⟩ | ⟨hm, _⟩ | ⟨k, _, hk⟩ | hk
  · cases hm
  · cases hm
  · rw [hk]; exact ⟨rfl, rfl, rfl, rfl⟩
  · rw [hk]; exact ⟨rfl, rfl, rfl, rfl⟩

theorem relay_deliver_same (rl : relay) (h : in_flight_relay rl = 0) :
    same_status (relay_deliver rl) rl := by
  unfold relay_deliver
  split
  · exact ⟨rfl, rfl, rfl, rfl⟩
  · rename_i m rest hpipe
    cases m with
    | status_msg => simp [in_flight_relay, hpipe] at h
    | gc_msg g =>
      refine same_status_trans (cmsg_deliver_gc_same _ g) ⟨rfl, rfl, rfl, ?_⟩
      simp [in_flight_relay, hpipe]

theorem tx_deliver_same (rl : relay) (h : in_flight_tx rl = 0) :
    same_status (tx_deliver rl) rl := by
  unfold tx_deliver
  split
  · exact ⟨rfl, rfl, rfl, rfl⟩
  · rename_i m rest hpipe
    cases m with
    | status_msg => simp [in_flight_tx, hpipe] at h
    | gc_msg g =>
      refine same_status_trans (cmsg_deliver_gc_same _ g) ⟨rfl, rfl, ?_, rfl⟩
      simp [in_flight_tx, hpipe]

theorem iterate_relay_deliver_same (n : Nat) (rl : relay) (h : in_flight_relay rl = 0) :
    same_status (relay_deliver^[n] rl) rl := by
  induction n generalizing rl with
  | zero => exact ⟨rfl, rfl, rfl, rfl⟩
  | succ n ih =>
    rw [Function.iterate_succ_apply]
    have h1 := relay_deliver_same rl h
    exact same_status_trans (ih _ (by rw [h1.2.2.2]; exact h)) h1

theorem relay_send_same (rl : relay) (packet : xrow_header) (now : double) (ok : Bool) :
    same_status (relay_send rl packet now ok).1 rl := by
  cases ok <;> simp [same_status, relay_send, in_flight_tx, in_flight_relay]

theorem events_same (e : loop_env) (rl : relay) (h : in_flight_relay rl = 0) :
    same_status (relay_subscribe_f_events e rl) rl := by
  have h1 := iterate_relay_deliver_same rl.relay_pipe.length rl h
  unfold relay_subscribe_f_events cbus_process
  simp only
  split
  · exact same_status_trans (relay_send_same _ _ _ _) h1
  · exact h1

theorem status_tx_vclock (vid : Nat → Nat → Nat → Nat) (rl : relay) :
    (relay_subscribe_f_status vid rl).tx_vclock = rl.tx_vclock := by
  by_cases h : rl.status_msg.msg.route = none ∧
      vclock_sum rl.status_msg.vclock ≠ vclock_sum (send_vclock vid rl)
  · rw [status_pushes vid rl h.1 h.2, (schedule_status_msg _ _).2.2.1]
    rfl
  · rw [status_skips vid rl h]

/-- While the status message is not in the tx pipe, a delivery by the relay
thread leaves the known vector alone. -/
theorem relay_deliver_tx_vclock (rl : relay) (h : status_inv rl) (h0 : in_flight_tx rl = 0) :
    (relay_deliver rl).tx_vclock = rl.tx_vclock ∧ in_flight_tx (relay_deliver rl) = 0 := by
  unfold relay_deliver
  split
  · exact ⟨rfl, h0⟩
  · rename_i m rest hpipe
    cases m with
    | gc_msg g =>
      have hs := cmsg_deliver_gc_same { rl with relay_pipe := rest } g
      exact ⟨hs.2.1, by rw [hs.2.2.1]; exact h0⟩
    | status_msg =>
      have hcount : in_flight_relay rl = rest.count cmsg_ptr.status_msg + 1 := by
        simp [in_flight_relay, hpipe]
      rcases h with ⟨_, _, h3⟩ | ⟨_, h2, _⟩ | ⟨h1, _, _⟩
      · omega
      · omega
      · simp [cmsg_deliver, cmsg_hop_f, h1, tx_status_update_route, relay_status_update,
          in_flight_tx]
        exact h0

theorem iterate_relay_deliver_tx_vclock (n : Nat) (rl : relay) (h : status_inv rl)
    (h0 : in_flight_tx rl = 0) : (relay_deliver^[n] rl).tx_vclock = rl.tx_vclock := by
  induction n generalizing rl with
  | zero => rfl
  | succ n ih =>
    rw [Function.iterate_succ_apply]
    obtain ⟨h1, h2⟩ := relay_deliver_tx_vclock rl h h0
    rw [ih _ (status_inv_relay_deliver rl h) h2, h1]

/-- While the status message is not in the tx pipe no step writes the known
vector. -/
theorem step_tx_vclock_idle (vid : Nat → Nat → Nat → Nat) (s : relay) (ev : event)
    (h : status_inv s) (h0 : in_flight_tx s = 0) : (step vid s ev).tx_vclock = s.tx_vclock := by
  cases ev with
  | loop_iteration e =>
    simp only [step, relay_subscribe_f_iteration]
    rw [status_tx_vclock]
    have h1 := iterate_relay_deliver_tx_vclock s.relay_pipe.length s h h0
    unfold relay_subscribe_f_events cbus_process
    simp only
    split
    · rw [← h1]
      cases e.write_ok <;> simp [relay_send_heartbeat, relay_send]
    · exact h1
  | tx_deliver => exact (tx_deliver_same s h0).2.1
  | relay_deliver => exact (relay_deliver_tx_vclock s h h0).1
  | reader_recv v => rfl
  | recovery_advance v => rfl
  | close_log ok => cases ok <;> simp [step, relay_on_close_log_f]
  | send_row packet now ok =>
    simp only [step, relay_send_row]
    split
    · exact (relay_send_same _ _ _ _).2.1
    · split
      · exact (relay_send_same _ _ _ _).2.1
      · rfl

/-- While the status message is in the tx pipe, a step either leaves it and the
known vector alone, or it is the delivery that runs `tx_status_update`. -/
theorem step_to_tx (vid : Nat → Nat → Nat → Nat) (s : relay) (ev : event)
    (h : status_to_tx s) :
    same_status (step vid s ev) s ∨
    (status_to_relay (step vid s ev) ∧
      (step vid s ev).tx_vclock = s.status_msg.vclock ∧
      (step vid s ev).status_msg.vclock = s.status_msg.vclock) := by
  obtain ⟨h1, h2, h3⟩ := h
  cases ev with
  | loop_iteration e =>
    left
    have hev := events_same e s h3
    simp only [step, relay_subscribe_f_iteration]
    rw [status_skips vid _ (by rw [hev.1, h1]; simp)]
    exact hev
  | tx_deliver =>
    simp only [step]
    unfold tx_deliver
    split
    · rename_i hpipe
      simp [in_flight_tx, hpipe] at h2
    · rename_i m rest hpipe
      cases m with
      | gc_msg g =>
        left
        refine same_status_trans (cmsg_deliver_gc_same _ g) ⟨rfl, rfl, ?_, rfl⟩
        simp [in_flight_tx, hpipe]
      | status_msg =>
        right
        have hrest : rest.count cmsg_ptr.status_msg = 0 := by
          simp [in_flight_tx, hpipe] at h2
          exact h2
        simp [status_to_relay, cmsg_deliver, cmsg_hop_f, h1, relay_subscribe_f_route,
          tx_status_update, cpipe_push_relay, cmsg_init, in_flight_tx, in_flight_relay, hrest,
          List.count_append, vclock_copy]
        exact h3
  | relay_deliver => left; exact relay_deliver_same s h3
  | reader_recv v => left; exact ⟨rfl, rfl, rfl, rfl⟩
  | recovery_advance v => left; exact ⟨rfl, rfl, rfl, rfl⟩
  | close_log ok =>
    left
    cases ok <;> simp [step, relay_on_close_log_f, same_status, in_flight_tx, in_flight_relay]
  | send_row packet now ok =>
    left
    simp only [step, relay_send_row]
    split
    · exact relay_send_same _ _ _ _
    · split
      · exact relay_send_same _ _ _ _
      · exact ⟨rfl, rfl, rfl, rfl⟩

/-- C15. For every status message the loop pushes (from a state of the session
in which the message is at rest): the push leaves `tx.vclock` alone and puts
the message, carrying `send_vclock`, in the tx pipe; its delivery there runs
`tx_status_update`, which sets `tx.vclock` to the carried vector; its delivery
back runs `relay_status_update`, after which `tx.vclock` still equals that
vector and the route is `NULL`. Under any interleaving with other steps,
while the message is in the tx pipe a step either leaves the message and
`tx.vclock` alone or is that delivery, and while it is not in the tx pipe no
step writes `tx.vclock`: it is written exactly once per round trip. -/
theorem status_round_trip (vid : Nat → Nat → Nat → Nat) (rl : relay) (hinv : status_inv rl)
    (hroute : rl.status_msg.msg.route = none)
    (hne : vclock_sum rl.status_msg.vclock ≠ vclock_sum (send_vclock vid rl)) :
    status_to_tx (relay_subscribe_f_status vid rl) ∧
    (relay_subscribe_f_status vid rl).status_msg.vclock = send_vclock vid rl ∧
    (relay_subscribe_f_status vid rl).tx_vclock = rl.tx_vclock ∧
    cmsg_deliver (relay_subscribe_f_status vid rl) cmsg_ptr.status_msg =
      tx_status_update (relay_subscribe_f_status vid rl) ∧
    (tx_status_update (relay_subscribe_f_status vid rl)).tx_vclock = send_vclock vid rl ∧
    cmsg_deliver (tx_status_update (relay_subscribe_f_status vid rl)) cmsg_ptr.status_msg =
      relay_status_update (tx_status_update (relay_subscribe_f_status vid rl)) ∧
    (relay_status_update (tx_status_update (relay_subscribe_f_status vid rl))).tx_vclock =
      send_vclock vid rl ∧
    (relay_status_update
      (tx_status_update (relay_subscribe_f_status vid rl))).status_msg.msg.route = none ∧
    (∀ (s : relay) (ev : event), status_to_tx s →
      same_status (step vid s ev) s ∨
      (status_to_relay (step vid s ev) ∧
        (step vid s ev).tx_vclock = s.status_msg.vclock ∧
        (step vid s ev).status_msg.vclock = s.status_msg.vclock)) ∧
    (∀ (s : relay) (ev : event), status_inv s → in_flight_tx s = 0 →
      (step vid s ev).tx_vclock = s.tx_vclock) := by
  obtain ⟨k1, k2, _, _, k5⟩ := schedule_status_msg
    (relay_subscribe_f_push rl (send_vclock vid rl)) (vclock_sum (send_vclock vid rl))
  have hst : (relay_subscribe_f_status vid rl).status_msg =
      { msg := cmsg_init rl.status_msg.msg relay_subscribe_f_route
        vclock := send_vclock vid rl } := by
    rw [status_pushes vid rl hroute hne, k1]
    rfl
  have hcounts : in_flight_tx rl = 0 ∧ in_flight_relay rl = 0 := by
    rcases hinv with ⟨_, h2, h3⟩ | ⟨h1, _, _⟩ | ⟨h1, _, _⟩
    · exact ⟨h2, h3⟩
    · rw [h1] at hroute; cases hroute
    · rw [h1] at hroute; cases hroute
  have htx : status_to_tx (relay_subscribe_f_status vid rl) := by
    refine ⟨by rw [hst]; rfl, ?_, ?_⟩
    · rw [status_pushes vid rl hroute hne, k5]
      have := hcounts.1
      simp only [in_flight_tx] at this
      simp [in_flight_tx, relay_subscribe_f_push, cpipe_push_tx, List.count_append, this]
    · rw [status_pushes vid rl hroute hne]
      simp only [in_flight_relay, k2]
      exact hcounts.2
  have hdel1 : cmsg_deliver (relay_subscribe_f_status vid rl) cmsg_ptr.status_msg =
      tx_status_update (relay_subscribe_f_status vid rl) := by
    simp [cmsg_deliver, cmsg_hop_f, hst, cmsg_init, relay_subscribe_f_route]
  have hdel2 : cmsg_deliver (tx_status_update (relay_subscribe_f_status vid rl))
      cmsg_ptr.status_msg =
      relay_status_update (tx_status_update (relay_subscribe_f_status vid rl)) := by
    simp [cmsg_deliver, cmsg_hop_f, tx_status_update, cpipe_push_relay, cmsg_init,
      tx_status_update_route]
  refine ⟨htx, by rw [hst], status_tx_vclock vid rl, hdel1, ?_, hdel2, ?_, ?_, ?_, ?_⟩
  · simp [tx_status_update, cpipe_push_relay, vclock_copy, hst]
  · simp [relay_status_update, tx_status_update, cpipe_push_relay, vclock_copy, hst]
  · simp [relay_status_update]
  · intro s ev hs
    exact step_to_tx vid s ev hs
  · intro s ev hs h0
    exact step_tx_vclock_idle vid s ev hs h0

/-- C15 at a concrete input: a 1.7.4 replica has acknowledged `[9, 9]`; the
message is pushed with that vector, the known vector is `[3, 4]` until
`tx_status_update` runs and `[9, 9]` from then on, and the route ends `NULL`. -/
theorem status_round_trip_witness :
    (relay_subscribe_f_status example_version_id
      (example_relay_acked (example_version_id 1 7 4))).tx_vclock = ⟨[3, 4]⟩ ∧
    (tx_status_update (relay_subscribe_f_status example_version_id
      (example_relay_acked (example_version_id 1 7 4)))).tx_vclock = ⟨[9, 9]⟩ ∧
    (relay_status_update (tx_status_update (relay_subscribe_f_status example_version_id
      (example_relay_acked (example_version_id 1 7 4))))).tx_vclock = ⟨[9, 9]⟩ ∧
    (relay_status_update (tx_status_update (relay_subscribe_f_status example_version_id
      (example_relay_acked (example_version_id 1 7 4))))).status_msg.msg.route = none := by
  have h := status_round_trip example_version_id
    (example_relay_acked (example_version_id 1 7 4)) (Or.inl ⟨rfl, rfl, rfl⟩) rfl (by decide)
  exact ⟨h.2.2.1, h.2.2.2.2.1, h.2.2.2.2.2.2.1, h.2.2.2.2.2.2.2.1⟩

end Relay

/-! # Properties of the JSON path lexer -/

namespace JsonPath

/-- Where a scan stops: not before its start, with every byte passed over
satisfying the test, and either at the end of the buffer or at a byte that
fails the test. A scan that starts at or after the end does not move. -/
theorem scan_spec (test : Nat → Bool) (src : Nat → Nat) (endp : Nat) (fuel pos : Nat)
    (hfuel : endp - pos ≤ fuel) :
    pos ≤ scan test src endp fuel pos ∧
    (pos ≤ endp → scan test src endp fuel pos ≤ endp) ∧
    (endp ≤ pos → scan test src endp fuel pos = pos) ∧
    (∀ i, pos ≤ i → i < scan test src endp fuel pos → test (src i) = true) ∧
    (scan test src endp fuel pos < endp → test (src (scan test src endp fuel pos)) = false) := by
  induction fuel generalizing pos with
  | zero =>
    have hge : endp ≤ pos := by omega
    have h0 : scan test src endp 0 pos = pos := rfl
    rw [h0]
    refine ⟨le_refl _, fun h => h, fun _ => rfl, ?_, ?_⟩
    · intro i h1 h2; omega
    · intro h; omega
  | succ fuel ih =>
    simp only [scan]
    by_cases hc : pos < endp ∧ test (src pos) = true
    · rw [if_pos hc]
      obtain ⟨h1, h2, h3, h4, h5⟩ := ih (pos + 1) (by omega)
      refine ⟨by omega, fun _ => h2 (by omega), fun h => by omega, ?_, h5⟩
      intro i hi1 hi2
      by_cases hi : i = pos
      · rw [hi]; exact hc.2
      · exact h4 i (by omega) hi2
    · rw [if_neg hc]
      refine ⟨le_refl _, fun h => h, fun _ => rfl, ?_, ?_⟩
      · intro i h1 h2; omega
      · intro h
        cases ht : test (src pos) with
        | false => rfl
        | true => exact absurd ⟨h, ht⟩ hc

/-- A scan over `k` bytes that pass the test, followed by the end of the buffer
or by a byte that fails it, stops right after them. -/
theorem scan_run (test : Nat → Bool) (src : Nat → Nat) (endp : Nat) (k : Nat) (fuel pos : Nat)
    (hfuel : endp - pos ≤ fuel) (hin : pos + k ≤ endp)
    (hrun : ∀ i, i < k → test (src (pos + i)) = true)
    (hstop : pos + k = endp ∨ test (src (pos + k)) = false) :
    scan test src endp fuel pos = pos + k := by
  obtain ⟨h1, h2, _, h4, h5⟩ := scan_spec test src endp fuel pos hfuel
  have hle := h2 (by omega)
  by_contra hne
  rcases Nat.lt_or_gt_of_ne hne with hlt | hgt
  · have hf := h5 (by omega)
    have := hrun (scan test src endp fuel pos - pos) (by omega)
    rw [show pos + (scan test src endp fuel pos - pos) = scan test src endp fuel pos by omega]
      at this
    rw [this] at hf
    cases hf
  · rcases hstop with hs | hs
    · omega
    · have := h4 (pos + k) (by omega) hgt
      rw [this] at hs
      cases hs

/-- One more digit multiplies the value by ten and adds the digit, modulo `2 ^ 64`. -/
theorem strntoull_succ (src : Nat → Nat) (start n : Nat) :
    strntoull src start (n + 1) =
      (strntoull src start n * 10 + src (start + n) + 2 ^ 64 - 48) % 2 ^ 64 := by
  unfold strntoull
  rw [List.range_succ, List.foldl_append, List.foldl_cons, List.foldl_nil]

/-- The digits of a run one longer, least significant first. -/
theorem ofDigits_range_succ (f : Nat → Nat) (n : Nat) :
    Nat.ofDigits 10 (((List.range (n + 1)).map f).reverse) =
      f n + 10 * Nat.ofDigits 10 (((List.range n).map f).reverse) := by
  rw [List.range_succ, List.map_append, List.reverse_append]
  simp [Nat.ofDigits_cons]

/-- The decimal value of the `len` digits at offset `start`. -/
theorem strntoull_eq (src : Nat → Nat) (start len : Nat)
    (hd : ∀ i, i < len → isdigit (src (start + i)) = true) :
    strntoull src start len =
      Nat.ofDigits 10 (((List.range len).map fun i => src (start + i) - 48).reverse) %
        2 ^ 64 := by
  induction len with
  | zero => rfl
  | succ n ih =>
    have hdn : isdigit (src (start + n)) = true := hd n (by omega)
    simp only [isdigit, Bool.and_eq_true, decide_eq_true_eq] at hdn
    rw [strntoull_succ, ofDigits_range_succ, ih (fun i hi => hd i (by omega))]
    have h64 : (2 : Nat) ^ 64 = 18446744073709551616 := by norm_num
    rw [h64]
    omega

theorem integer_run (p : json_path_parser_t) (node : json_path_node) (k : Nat) (hk : 1 ≤ k)
    (hin : p.pos + k ≤ p.src_len)
    (hrun : ∀ i, i < k → isdigit (p.src (p.pos + i)) = true)
    (hstop : p.pos + k = p.src_len ∨ isdigit (p.src (p.pos + k)) = false) :
    json_parse_integer p node =
      { rc := 0, parser := { p with pos := p.pos + k }
        node := { node with type := json_path_type.JSON_PATH_NUM
                            num := strntoull p.src p.pos k } } := by
  have hscan := scan_run isdigit p.src p.src_len k (p.src_len - p.pos) p.pos (le_refl _) hin
    hrun hstop
  unfold json_parse_integer
  simp only [hscan]
  have h1 : p.pos + k - p.pos = k := by omega
  have h2 : k ≠ 0 := by omega
  simp [h1, h2]

theorem integer_none (p : json_path_parser_t) (node : json_path_node) (hin : p.pos < p.src_len)
    (hnd : isdigit (p.src p.pos) = false) :
    json_parse_integer p node = { rc := p.pos + 1, parser := p, node := node } := by
  have hscan := scan_run isdigit p.src p.src_len 0 (p.src_len - p.pos) p.pos (le_refl _)
    (by omega) (fun i hi => by omega) (Or.inr hnd)
  unfold json_parse_integer
  simp only [hscan]
  simp

theorem digit_not_quote (c : Nat) (h : isdigit c = true) : ¬ (c = 34 ∨ c = 39) := by
  simp only [isdigit, Bool.and_eq_true, decide_eq_true_eq] at h
  omega

/-! ## C21: bracketed index -/

/-- C21. For a parser at `[` inside the path: when `k ≥ 1` decimal digits and
then `]` follow, all within `src_len`, `json_path_next` returns 0, the node is
a `JSON_PATH_NUM` whose `num` is the decimal value of the digits modulo
`2^64`, and the parser is right after `]`. When the input ends after `[` the
return value is `src_len + 1`; when `[` is followed by a character that is
neither a digit nor a quote it is the 1-based position of that character;
when the digits are followed by the end of the input it is `src_len + 1`, and
when they are followed by a character other than `]` it is the 1-based
position of that character. -/
theorem bracketed_index (p : json_path_parser_t) (node : json_path_node)
    (hb : p.src p.pos = 91) (hin : p.pos < p.src_len) :
    (∀ k, 1 ≤ k → (∀ i, i < k → isdigit (p.src (p.pos + 1 + i)) = true) →
      p.pos + 1 + k < p.src_len → p.src (p.pos + 1 + k) = 93 →
        (json_path_next p node).rc = 0 ∧
        (json_path_next p node).node.type = json_path_type.JSON_PATH_NUM ∧
        (json_path_next p node).node.num =
          Nat.ofDigits 10 (((List.range k).map fun i => p.src (p.pos + 1 + i) - 48).reverse) %
            2 ^ 64 ∧
        (json_path_next p node).parser.pos = p.pos + k + 2) ∧
    (p.pos + 1 = p.src_len → (json_path_next p node).rc = p.src_len + 1) ∧
    (p.pos + 1 < p.src_len → isdigit (p.src (p.pos + 1)) = false →
      p.src (p.pos + 1) ≠ 34 → p.src (p.pos + 1) ≠ 39 →
        (json_path_next p node).rc = p.pos + 2) ∧
    (∀ k, 1 ≤ k → (∀ i, i < k → isdigit (p.src (p.pos + 1 + i)) = true) →
      (p.pos + 1 + k = p.src_len → (json_path_next p node).rc = p.src_len + 1) ∧
      (p.pos + 1 + k < p.src_len → isdigit (p.src (p.pos + 1 + k)) = false →
        p.src (p.pos + 1 + k) ≠ 93 → (json_path_next p node).rc = p.pos + k + 2)) := by
  have hne : ¬ p.src_len = p.pos := by omega
  have hnext : json_path_next p node =
      json_path_next_bracket { p with pos := p.pos + 1 } node := by
    unfold json_path_next
    rw [if_neg hne]
    simp only [hb, if_true]
  have hdig : ∀ k, 1 ≤ k → (∀ i, i < k → isdigit (p.src (p.pos + 1 + i)) = true) →
      p.pos + 1 + k ≤ p.src_len →
      (p.pos + 1 + k = p.src_len ∨ isdigit (p.src (p.pos + 1 + k)) = false) →
      json_path_next_bracket { p with pos := p.pos + 1 } node =
        (let r : lex_result :=
          { rc := 0, parser := { p with pos := p.pos + 1 + k }
            node := { node with type := json_path_type.JSON_PATH_NUM
                                num := strntoull p.src (p.pos + 1) k } }
        if r.parser.pos = r.parser.src_len ∨ r.parser.src r.parser.pos ≠ 93 then
          { r with rc := r.parser.pos + 1 }
        else { r with parser := { r.parser with pos := r.parser.pos + 1 } }) := by
    intro k hk hrun hle hstop
    have hq := digit_not_quote _ (by simpa using hrun 0 (by omega))
    have hint := integer_run { p with pos := p.pos + 1 } node k hk hle hrun hstop
    unfold json_path_next_bracket
    have hne2 : ¬ (p.pos + 1 = p.src_len) := by omega
    simp only [hne2, if_false, hq, hint]
    simp
  refine ⟨?_, ?_, ?_, ?_⟩
  · intro k hk hrun hlt hclose
    have hnd : isdigit (p.src (p.pos + 1 + k)) = false := by rw [hclose]; rfl
    rw [hnext, hdig k hk hrun (by omega) (Or.inr hnd)]
    have hne3 : ¬ (p.pos + 1 + k = p.src_len) := by omega
    simp only [hne3, hclose, ne_eq, not_true_eq_false, or_self, if_false]
    refine ⟨trivial, trivial, ?_, ?_⟩
    · exact strntoull_eq p.src (p.pos + 1) k hrun
    · omega
  · intro hend
    rw [hnext]
    unfold json_path_next_bracket
    simp [hend]
  · intro hlt hnd h34 h39
    rw [hnext]
    unfold json_path_next_bracket
    have hne2 : ¬ (p.pos + 1 = p.src_len) := by omega
    have hint := integer_none { p with pos := p.pos + 1 } node hlt hnd
    simp [hne2, h34, h39, hint]
  · intro k hk hrun
    constructor
    · intro hend
      rw [hnext, hdig k hk hrun (by omega) (Or.inl hend)]
      simp [hend]
    · intro hlt hnd hclose
      rw [hnext, hdig k hk hrun (by omega) (Or.inr hnd)]
      simp [hclose]
      omega

/-- C21 at concrete inputs: `[123]` gives index 123, `[18446744073709551617]`
wraps to 1, `[12x` fails at position 4 and `[12` at position 4 = `src_len + 1`. -/
theorem bracketed_index_witness :
    (json_path_next (parser_of [91, 49, 50, 51, 93] 5) node0).view =
      (0, 5, { type := json_path_type.JSON_PATH_NUM, str := 0, len := 0, num := 123 }) ∧
    (json_path_next (parser_of [91, 49, 50, 51, 93] 5) node0).rc = 0 ∧
    (json_path_next (parser_of [91, 49, 50, 51, 93] 5) node0).parser.pos = 0 + 3 + 2 ∧
    (json_path_next (parser_of [91, 49, 56, 52, 52, 54, 55, 52, 52, 48, 55, 51, 55, 48, 57, 53,
      53, 49, 54, 49, 55, 93] 22) node0).node.num = 1 ∧
    (json_path_next (parser_of [91, 49, 50, 120] 4) node0).rc = 4 ∧
    (json_path_next (parser_of [91, 49, 50] 3) node0).rc = 4 := by
  have h := (bracketed_index (parser_of [91, 49, 50, 51, 93] 5) node0 rfl (by decide)).1 3
    (by decide) (by decide) (by decide) rfl
  exact ⟨by decide, h.1, h.2.2.2, by decide, by decide, by decide⟩

/-! ## C23: identifiers -/

/-- What `json_parse_identifier` does at a position inside the path. -/
theorem identifier_spec (p : json_path_parser_t) (node : json_path_node)
    (hin : p.pos < p.src_len) :
    ((json_parse_identifier p node).rc = 0 ↔
      (isalpha (p.src p.pos) = true ∨ p.src p.pos = 95)) ∧
    ((isalpha (p.src p.pos) = true ∨ p.src p.pos = 95) →
      (json_parse_identifier p node).node.type = json_path_type.JSON_PATH_STR ∧
      (json_parse_identifier p node).node.str = p.pos ∧
      1 ≤ (json_parse_identifier p node).node.len ∧
      (json_parse_identifier p node).parser.pos =
        p.pos + (json_parse_identifier p node).node.len ∧
      (json_parse_identifier p node).parser.pos ≤ p.src_len ∧
      isdigit (p.src p.pos) = false ∧
      (∀ i, p.pos ≤ i → i < (json_parse_identifier p node).parser.pos →
        is_ident_rest (p.src i) = true) ∧
      ((json_parse_identifier p node).parser.pos = p.src_len ∨
        is_ident_rest (p.src (json_parse_identifier p node).parser.pos) = false)) ∧
    (¬ (isalpha (p.src p.pos) = true ∨ p.src p.pos = 95) →
      (json_parse_identifier p node).rc = p.pos + 1) := by
  obtain ⟨h1, h2, _, h4, h5⟩ := scan_spec is_ident_rest p.src p.src_len
    (p.src_len - (p.pos + 1)) (p.pos + 1) (le_refl _)
  have h2 := h2 (by omega)
  by_cases hc : isalpha (p.src p.pos) = true ∨ p.src p.pos = 95
  · have hcond : (!isalpha (p.src p.pos) && p.src p.pos != 95) = false := by
      rcases hc with hc | hc
      · simp [hc]
      · simp [hc]
    have heq : json_parse_identifier p node =
        { rc := 0
          parser :=
            { p with
              pos := scan is_ident_rest p.src p.src_len (p.src_len - (p.pos + 1)) (p.pos + 1) }
          node :=
            { node with
              type := json_path_type.JSON_PATH_STR
              str := p.pos
              len := scan is_ident_rest p.src p.src_len (p.src_len - (p.pos + 1)) (p.pos + 1) -
                      p.pos } } := by
      unfold json_parse_identifier
      simp only [hcond]
      rfl
    rw [heq]
    refine ⟨⟨fun _ => hc, fun _ => rfl⟩, fun _ => ⟨rfl, rfl, ?_, ?_, h2, ?_, ?_, ?_⟩,
      fun hn => absurd hc hn⟩
    · simp only []; omega
    · simp only []; omega
    · rcases hc with hc | hc
      · simp only [isalpha, Bool.or_eq_true, Bool.and_eq_true, decide_eq_true_eq] at hc
        simp only [isdigit, Bool.and_eq_false_iff, decide_eq_false_iff_not]
        omega
      · rw [hc]; rfl
    · intro i hi1 hi2
      by_cases hi : i = p.pos
      · rw [hi]
        rcases hc with hc | hc
        · simp [is_ident_rest, hc]
        · simp [is_ident_rest, hc]
      · exact h4 i (by omega) hi2
    · by_cases hend : scan is_ident_rest p.src p.src_len (p.src_len - (p.pos + 1))
          (p.pos + 1) = p.src_len
      · exact Or.inl hend
      · exact Or.inr (h5 (by omega))
  · have hcond : (!isalpha (p.src p.pos) && p.src p.pos != 95) = true := by
      have ha : isalpha (p.src p.pos) = false := by
        cases h : isalpha (p.src p.pos) with
        | false => rfl
        | true => exact absurd (Or.inl h) hc
      have hu : p.src p.pos ≠ 95 := fun h => hc (Or.inr h)
      simp [ha, hu]
    have heq : json_parse_identifier p node =
        { rc := p.pos + 1, parser := p, node := node } := by
      unfold json_parse_identifier
      simp only [hcond, if_true]
    rw [heq]
    refine ⟨⟨fun h => ?_, fun h => absurd h hc⟩, fun h => absurd h hc, fun _ => rfl⟩
    simp at h

/-- C23. At an identifier position `q` (the current position when it holds
neither `[` nor `.`, or the position after a `.`) `json_path_next` succeeds if
and only if `q` is inside the path and its character is a letter or `_`. On
success the node is a `JSON_PATH_STR` that starts at `q`, has at least one
character, no digit first, and is the maximal run of letters, digits and
underscores from `q`; the parser stops right after that run. Otherwise the
return value is the 1-based position `q + 1`. -/
theorem identifier_token (p : json_path_parser_t) (node : json_path_node) (q : Nat)
    (hin : p.pos < p.src_len)
    (hq : (q = p.pos ∧ p.src p.pos ≠ 91 ∧ p.src p.pos ≠ 46) ∨
      (q = p.pos + 1 ∧ p.src p.pos = 46)) :
    ((json_path_next p node).rc = 0 ↔
      (q < p.src_len ∧ (isalpha (p.src q) = true ∨ p.src q = 95))) ∧
    ((q < p.src_len ∧ (isalpha (p.src q) = true ∨ p.src q = 95)) →
      (json_path_next p node).node.type = json_path_type.JSON_PATH_STR ∧
      (json_path_next p node).node.str = q ∧
      1 ≤ (json_path_next p node).node.len ∧
      (json_path_next p node).parser.pos = q + (json_path_next p node).node.len ∧
      (json_path_next p node).parser.pos ≤ p.src_len ∧
      isdigit (p.src q) = false ∧
      (∀ i, q ≤ i → i < (json_path_next p node).parser.pos →
        is_ident_rest (p.src i) = true) ∧
      ((json_path_next p node).parser.pos = p.src_len ∨
        is_ident_rest (p.src (json_path_next p node).parser.pos) = false)) ∧
    (¬ (q < p.src_len ∧ (isalpha (p.src q) = true ∨ p.src q = 95)) →
      (json_path_next p node).rc = q + 1) := by
  have hne : ¬ p.src_len = p.pos := by omega
  rcases hq with ⟨hq, h91, h46⟩ | ⟨hq, h46⟩
  · have hnext : json_path_next p node = json_parse_identifier p node := by
      unfold json_path_next
      rw [if_neg hne]
      simp only [h91, h46, if_false]
    obtain ⟨k1, k2, k3⟩ := identifier_spec p node hin
    subst hq
    rw [hnext]
    exact ⟨⟨fun h => ⟨hin, k1.mp h⟩, fun h => k1.mpr h.2⟩, fun h => k2 h.2,
      fun h => k3 (fun hc => h ⟨hin, hc⟩)⟩
  · by_cases hend : p.pos + 1 = p.src_len
    · have hnext : json_path_next p node =
          { rc := p.pos + 2, parser := { p with pos := p.pos + 1 }, node := node } := by
        unfold json_path_next
        rw [if_neg hne]
        simp [h46, hend]
      have hnot : ¬ (q < p.src_len ∧ (isalpha (p.src q) = true ∨ p.src q = 95)) := by
        intro h; omega
      rw [hnext]
      refine ⟨⟨fun h => ?_, fun h => absurd h hnot⟩, fun h => absurd h hnot, fun _ => ?_⟩
      · simp at h
      · simp only []; omega
    · have hnext : json_path_next p node =
          json_parse_identifier { p with pos := p.pos + 1 } node := by
        unfold json_path_next
        rw [if_neg hne]
        simp [h46, hend]
      have hin2 : p.pos + 1 < p.src_len := by omega
      obtain ⟨k1, k2, k3⟩ := identifier_spec { p with pos := p.pos + 1 } node hin2
      subst hq
      rw [hnext]
      exact ⟨⟨fun h => ⟨hin2, k1.mp h⟩, fun h => k1.mpr h.2⟩, fun h => k2 h.2,
        fun h => k3 (fun hc => h ⟨hin2, hc⟩)⟩

/-- C23 at concrete inputs: in `.ab_1.c` the first node is `ab_1`; `9a` fails
at position 1 and `.9` at position 2. -/
theorem identifier_token_witness :
    (json_path_next (parser_of [46, 97, 98, 95, 49, 46, 99] 7) node0).view =
      (0, 5, { type := json_path_type.JSON_PATH_STR, str := 1, len := 4, num := 0 }) ∧
    (json_path_next (parser_of [57, 97] 2) node0).rc = 1 ∧
    (json_path_next (parser_of [46, 57] 2) node0).rc = 2 :=
  ⟨by decide,
    (identifier_token (parser_of [57, 97] 2) node0 0 (by decide)
      (Or.inl ⟨rfl, by decide, by decide⟩)).2.2 (by decide),
    (identifier_token (parser_of [46, 57] 2) node0 1 (by decide)
      (Or.inr ⟨rfl, rfl⟩)).2.2 (by decide)⟩

/-! ## C22, C26, C27: the read at the end of the buffer -/

/-- The success case of a quoted key: `[`, a quote, a non-empty run without
that quote, the same quote and `]`, all within `src_len`. -/
theorem quoted_key_ok (p : json_path_parser_t) (node : json_path_node) (quote k : Nat)
    (hb : p.src p.pos = 91) (hquote : quote = 34 ∨ quote = 39)
    (hopen : p.src (p.pos + 1) = quote) (hk : 1 ≤ k)
    (hrun : ∀ i, i < k → p.src (p.pos + 2 + i) ≠ quote)
    (hclose : p.src (p.pos + 2 + k) = quote) (hbr : p.src (p.pos + 3 + k) = 93)
    (hlen : p.pos + 3 + k < p.src_len) :
    (json_path_next p node).rc = 0 ∧
    (json_path_next p node).node.type = json_path_type.JSON_PATH_STR ∧
    (json_path_next p node).node.str = p.pos + 2 ∧
    (json_path_next p node).node.len = k ∧
    (json_path_next p node).parser.pos = p.pos + k + 4 := by
  have hne : ¬ p.src_len = p.pos := by omega
  have hscan := scan_run (fun c => c != quote) p.src p.src_len k (p.src_len - (p.pos + 2))
    (p.pos + 2) (le_refl _) (by omega) (fun i hi => by simpa using hrun i hi)
    (Or.inr (by simp [hclose]))
  have hstr : json_parse_string { p with pos := p.pos + 1 } node =
      { rc := 0, parser := { p with pos := p.pos + 2 + k + 1 }
        node := { node with type := json_path_type.JSON_PATH_STR, str := p.pos + 2
                            len := k } } := by
    unfold json_parse_string
    simp only [hopen, hscan]
    have h1 : p.pos + 2 + k - (p.pos + 1 + 1) = k := by omega
    have h2 : k ≠ 0 := by omega
    simp [hclose, h1, h2]
  have hq : p.src (p.pos + 1) = 34 ∨ p.src (p.pos + 1) = 39 := by rw [hopen]; exact hquote
  have hnext : json_path_next p node =
      { rc := 0, parser := { p with pos := p.pos + 2 + k + 1 + 1 }
        node := { node with type := json_path_type.JSON_PATH_STR, str := p.pos + 2
                            len := k } } := by
    unfold json_path_next
    rw [if_neg hne]
    simp only [hb, if_true]
    unfold json_path_next_bracket
    have hne2 : ¬ (p.pos + 1 = p.src_len) := by omega
    have hne3 : ¬ (p.pos + 2 + k + 1 = p.src_len) := by omega
    have hbr2 : p.src (p.pos + 2 + k + 1) = 93 := by
      rw [show p.pos + 2 + k + 1 = p.pos + 3 + k by omega]; exact hbr
    simp [hne2, hq, hstr, hne3, hbr2]
  rw [hnext]
  exact ⟨rfl, rfl, rfl, rfl, by simp only []; omega⟩

/-- When the byte at `src_len` is not a quote, `json_parse_string` stays inside
the buffer and a success moves the parser forward. -/
theorem string_within (p : json_path_parser_t) (node : json_path_node)
    (hpos : p.pos < p.src_len) (hq : p.src p.pos = 34 ∨ p.src p.pos = 39)
    (h34 : p.src p.src_len ≠ 34) (h39 : p.src p.src_len ≠ 39) :
    (json_parse_string p node).parser.src = p.src ∧
    (json_parse_string p node).parser.src_len = p.src_len ∧
    (json_parse_string p node).parser.pos ≤ p.src_len ∧
    ((json_parse_string p node).rc ≠ 0 → (json_parse_string p node).parser.pos = p.pos) ∧
    ((json_parse_string p node).rc = 0 →
      p.pos < (json_parse_string p node).parser.pos ∧
      (json_parse_string p node).node.type ≠ json_path_type.JSON_PATH_END) := by
  obtain ⟨a1, a2, -, -, -⟩ := scan_spec (fun c => c != p.src p.pos) p.src p.src_len
    (p.src_len - (p.pos + 1)) (p.pos + 1) (le_refl _)
  unfold json_parse_string
  simp only []
  generalize scan (fun c => c != p.src p.pos) p.src p.src_len
    (p.src_len - (p.pos + 1)) (p.pos + 1) = S at *
  have hle := a2 (by omega)
  by_cases hc : p.src S ≠ p.src p.pos ∨ S - (p.pos + 1) = 0
  · rw [if_pos hc]
    exact ⟨rfl, rfl, by simp only []; omega, fun _ => rfl, fun h => by simp at h⟩
  · rw [if_neg hc]
    have hS : S ≠ p.src_len := by
      intro heq
      have h : p.src S = p.src p.pos := by
        by_contra hne
        exact hc (Or.inl hne)
      rw [heq] at h
      rcases hq with hq | hq
      · exact h34 (h.trans hq)
      · exact h39 (h.trans hq)
    refine ⟨rfl, rfl, ?_, fun h => ?_, fun _ => ⟨?_, ?_⟩⟩
    · simp only []; omega
    · simp at h
    · simp only []; omega
    · simp

/-- A call of `json_parse_integer` stays inside the buffer and a success moves the
parser forward. -/
theorem integer_within (p : json_path_parser_t) (node : json_path_node)
    (hpos : p.pos < p.src_len) :
    (json_parse_integer p node).parser.src = p.src ∧
    (json_parse_integer p node).parser.src_len = p.src_len ∧
    (json_parse_integer p node).parser.pos ≤ p.src_len ∧
    ((json_parse_integer p node).rc ≠ 0 → (json_parse_integer p node).parser.pos = p.pos) ∧
    ((json_parse_integer p node).rc = 0 →
      p.pos < (json_parse_integer p node).parser.pos ∧
      (json_parse_integer p node).node.type ≠ json_path_type.JSON_PATH_END) := by
  obtain ⟨a1, a2, -, -, -⟩ := scan_spec isdigit p.src p.src_len
    (p.src_len - p.pos) p.pos (le_refl _)
  unfold json_parse_integer
  simp only []
  generalize scan isdigit p.src p.src_len (p.src_len - p.pos) p.pos = S at *
  have hle := a2 (by omega)
  by_cases hc : S - p.pos = 0
  · rw [if_pos hc]
    exact ⟨rfl, rfl, by simp only []; omega, fun _ => rfl, fun h => by simp at h⟩
  · rw [if_neg hc]
    refine ⟨rfl, rfl, ?_, fun h => ?_, fun _ => ⟨?_, ?_⟩⟩
    · simp only []; omega
    · simp at h
    · simp only []; omega
    · simp

/-- A call of `json_parse_identifier` stays inside the buffer and a success moves
the parser forward. -/
theorem identifier_within (p : json_path_parser_t) (node : json_path_node)
    (hpos : p.pos < p.src_len) :
    (json_parse_identifier p node).parser.src = p.src ∧
    (json_parse_identifier p node).parser.src_len = p.src_len ∧
    (json_parse_identifier p node).parser.pos ≤ p.src_len ∧
    ((json_parse_identifier p node).rc = 0 →
      p.pos < (json_parse_identifier p node).parser.pos ∧
      (json_parse_identifier p node).node.type ≠ json_path_type.JSON_PATH_END) := by
  obtain ⟨a1, a2, -, -, -⟩ := scan_spec (fun c => isalpha c || c == 95 || isdigit c) p.src
    p.src_len (p.src_len - (p.pos + 1)) (p.pos + 1) (le_refl _)
  unfold json_parse_identifier
  simp only []
  generalize scan (fun c => isalpha c || c == 95 || isdigit c) p.src
    p.src_len (p.src_len - (p.pos + 1)) (p.pos + 1) = S at *
  have hle := a2 (by omega)
  split
  · exact ⟨rfl, rfl, by simp only []; omega, fun h => by simp at h⟩
  · refine ⟨rfl, rfl, ?_, fun _ => ⟨?_, ?_⟩⟩
    · simp only []; omega
    · simp only []; omega
    · simp

/-- The closing `]` is looked for inside the buffer. -/
theorem bracket_close_within (p : json_path_parser_t) (r : lex_result)
    (h1 : r.parser.src = p.src) (h2 : r.parser.src_len = p.src_len)
    (h3 : r.parser.pos ≤ p.src_len)
    (h5 : r.rc = 0 → p.pos < r.parser.pos ∧ r.node.type ≠ json_path_type.JSON_PATH_END) :
    (if r.rc ≠ 0 then r
      else if r.parser.pos = r.parser.src_len ∨ r.parser.src r.parser.pos ≠ 93 then
        { r with rc := r.parser.pos + 1 }
      else { r with parser := { r.parser with pos := r.parser.pos + 1 } }).parser.src = p.src ∧
    (if r.rc ≠ 0 then r
      else if r.parser.pos = r.parser.src_len ∨ r.parser.src r.parser.pos ≠ 93 then
        { r with rc := r.parser.pos + 1 }
      else { r with parser := { r.parser with pos := r.parser.pos + 1 } }).parser.src_len =
        p.src_len ∧
    (if r.rc ≠ 0 then r
      else if r.parser.pos = r.parser.src_len ∨ r.parser.src r.parser.pos ≠ 93 then
        { r with rc := r.parser.pos + 1 }
      else { r with parser := { r.parser with pos := r.parser.pos + 1 } }).parser.pos ≤
        p.src_len ∧
    ((if r.rc ≠ 0 then r
      else if r.parser.pos = r.parser.src_len ∨ r.parser.src r.parser.pos ≠ 93 then
        { r with rc := r.parser.pos + 1 }
      else { r with parser := { r.parser with pos := r.parser.pos + 1 } }).rc = 0 →
      p.pos < (if r.rc ≠ 0 then r
        else if r.parser.pos = r.parser.src_len ∨ r.parser.src r.parser.pos ≠ 93 then
          { r with rc := r.parser.pos + 1 }
        else { r with parser := { r.parser with pos := r.parser.pos + 1 } }).parser.pos ∧
      (if r.rc ≠ 0 then r
        else if r.parser.pos = r.parser.src_len ∨ r.parser.src r.parser.pos ≠ 93 then
          { r with rc := r.parser.pos + 1 }
        else { r with parser := { r.parser with pos := r.parser.pos + 1 } }).node.type ≠
          json_path_type.JSON_PATH_END) := by
  by_cases hrc : r.rc ≠ 0
  · simp only [if_pos hrc]
    exact ⟨h1, h2, h3, fun h => absurd h hrc⟩
  · simp only [if_neg hrc]
    have hrc0 : r.rc = 0 := by omega
    obtain ⟨k1, k2⟩ := h5 hrc0
    by_cases hc : r.parser.pos = r.parser.src_len ∨ r.parser.src r.parser.pos ≠ 93
    · simp only [if_pos hc]
      refine ⟨h1, h2, h3, fun h => ?_⟩
      simp at h
    · simp only [if_neg hc]
      refine ⟨h1, h2, ?_, fun _ => ⟨?_, k2⟩⟩
      · have : r.parser.pos ≠ r.parser.src_len := fun h => hc (Or.inl h)
        omega
      · omega

/-- When the byte at `src_len` is not a quote, the lexing of `[...]` stays
inside the buffer and a success moves the parser forward. -/
theorem bracket_within (p : json_path_parser_t) (node : json_path_node)
    (hpos : p.pos ≤ p.src_len) (h34 : p.src p.src_len ≠ 34) (h39 : p.src p.src_len ≠ 39) :
    (json_path_next_bracket p node).parser.src = p.src ∧
    (json_path_next_bracket p node).parser.src_len = p.src_len ∧
    (json_path_next_bracket p node).parser.pos ≤ p.src_len ∧
    ((json_path_next_bracket p node).rc = 0 →
      p.pos < (json_path_next_bracket p node).parser.pos ∧
      (json_path_next_bracket p node).node.type ≠ json_path_type.JSON_PATH_END) := by
  unfold json_path_next_bracket
  by_cases hend : p.pos = p.src_len
  · rw [if_pos hend]
    refine ⟨rfl, rfl, hpos, fun h => ?_⟩
    simp at h
  · rw [if_neg hend]
    have hlt : p.pos < p.src_len := by omega
    simp only []
    by_cases hq : p.src p.pos = 34 ∨ p.src p.pos = 39
    · simp only [if_pos hq]
      obtain ⟨s1, s2, s3, -, s5⟩ := string_within p node hlt hq h34 h39
      exact bracket_close_within p _ s1 s2 s3 s5
    · simp only [if_neg hq]
      obtain ⟨s1, s2, s3, -, s5⟩ := integer_within p node hlt
      exact bracket_close_within p _ s1 s2 s3 s5

/-- When the byte at `src_len` is not a quote, a call of `json_path_next` from a
position inside the path leaves the buffer and its length as they are and the
position inside the path; a call that returns 0 with a node other than
`JSON_PATH_END` moves the position forward, and at the end of the path the
call returns 0 with `JSON_PATH_END` and does not move. -/
theorem next_within (p : json_path_parser_t) (node : json_path_node)
    (hpos : p.pos ≤ p.src_len) (h34 : p.src p.src_len ≠ 34) (h39 : p.src p.src_len ≠ 39) :
    (json_path_next p node).parser.src = p.src ∧
    (json_path_next p node).parser.src_len = p.src_len ∧
    (json_path_next p node).parser.pos ≤ p.src_len ∧
    ((json_path_next p node).rc = 0 →
      (json_path_next p node).node.type ≠ json_path_type.JSON_PATH_END →
      p.pos < (json_path_next p node).parser.pos) ∧
    (p.pos = p.src_len →
      (json_path_next p node).rc = 0 ∧
      (json_path_next p node).node.type = json_path_type.JSON_PATH_END ∧
      (json_path_next p node).parser.pos = p.pos) := by
  unfold json_path_next
  by_cases hend : p.src_len = p.pos
  · rw [if_pos hend]
    refine ⟨rfl, rfl, hpos, fun _ hty => ?_, fun _ => ⟨rfl, rfl, rfl⟩⟩
    simp at hty
  · rw [if_neg hend]
    have hlt : p.pos < p.src_len := by omega
    simp only []
    by_cases hb : p.src p.pos = 91
    · simp only [if_pos hb]
      obtain ⟨s1, s2, s3, s4⟩ := bracket_within { p with pos := p.pos + 1 } node
        (by simp only []; omega) h34 h39
      refine ⟨s1, s2, s3, fun h0 _ => ?_, fun h => absurd h.symm hend⟩
      have := (s4 h0).1
      simp only [] at this
      omega
    · simp only [if_neg hb]
      by_cases hd : p.src p.pos = 46
      · simp only [if_pos hd]
        by_cases he : p.pos + 1 = p.src_len
        · simp only [if_pos he]
          refine ⟨trivial, trivial, ?_, fun h0 _ => ?_, fun h => absurd h.symm hend⟩
          · omega
          · simp at h0
        · simp only [if_neg he]
          obtain ⟨s1, s2, s3, s4⟩ := identifier_within { p with pos := p.pos + 1 } node
            (by simp only []; omega)
          refine ⟨s1, s2, s3, fun h0 _ => ?_, fun h => absurd h.symm hend⟩
          have := (s4 h0).1
          simp only [] at this
          omega
      · simp only [if_neg hd]
        obtain ⟨s1, s2, s3, s4⟩ := identifier_within p node hlt
        exact ⟨s1, s2, s3, fun h0 _ => (s4 h0).1, fun h => absurd h.symm hend⟩

/-- When the byte at `src_len` is not a quote, iterating `json_path_next` from a
position inside the path reaches `JSON_PATH_END` or an error within as many
calls as there are bytes left, plus one. -/
theorem calls_bounded (fuel : Nat) :
    ∀ (p : json_path_parser_t) (node : json_path_node), p.pos ≤ p.src_len →
      p.src p.src_len ≠ 34 → p.src p.src_len ≠ 39 → p.src_len - p.pos + 1 ≤ fuel →
      ∃ k, json_path_calls fuel p node = some k ∧ k ≤ p.src_len - p.pos + 1 := by
  induction fuel with
  | zero =>
    intro p node _ _ _ h
    omega
  | succ fuel ih =>
    intro p node hpos h34 h39 hfuel
    rw [json_path_calls]
    by_cases hstop : (json_path_next p node).rc ≠ 0 ∨
        (json_path_next p node).node.type = json_path_type.JSON_PATH_END
    · rw [if_pos hstop]
      exact ⟨1, rfl, by omega⟩
    · rw [if_neg hstop]
      obtain ⟨s1, s2, s3, s4, -⟩ := next_within p node hpos h34 h39
      have hrc : (json_path_next p node).rc = 0 := by
        by_contra h
        exact hstop (Or.inl h)
      have hty : (json_path_next p node).node.type ≠ json_path_type.JSON_PATH_END :=
        fun h => hstop (Or.inr h)
      have hadv := s4 hrc hty
      obtain ⟨k, hk, hkle⟩ := ih (json_path_next p node).parser (json_path_next p node).node
        (by rw [s2]; exact s3) (by rw [s1, s2]; exact h34) (by rw [s1, s2]; exact h39)
        (by rw [s2]; omega)
      rw [s2] at hkle
      exact ⟨k + 1, by rw [hk]; rfl, by omega⟩

/-- A scan reads only bytes before the end of the buffer. -/
theorem scan_congr (test : Nat → Bool) (src1 src2 : Nat → Nat) (endp : Nat)
    (h : ∀ i, i < endp → src1 i = src2 i) :
    ∀ (fuel pos : Nat), scan test src1 endp fuel pos = scan test src2 endp fuel pos := by
  intro fuel
  induction fuel with
  | zero => intro pos; rfl
  | succ fuel ih =>
    intro pos
    rw [scan, scan]
    by_cases hlt : pos < endp
    · rw [h pos hlt, ih (pos + 1)]
    · rw [if_neg (fun hc => hlt hc.1), if_neg (fun hc => hlt hc.1)]

/-- The value of a run of digits depends on the bytes of the run only. -/
theorem strntoull_congr (src1 src2 : Nat → Nat) (start len endp : Nat)
    (h : ∀ i, i < endp → src1 i = src2 i) (hin : start + len ≤ endp) :
    strntoull src1 start len = strntoull src2 start len := by
  unfold strntoull
  apply List.foldl_ext
  intro value i hi
  rw [h (start + i) (by have := List.mem_range.mp hi; omega)]

/-- When neither buffer has a quote at `src_len`, `json_parse_string` gives the
same result on two buffers that agree before `src_len`. -/
theorem string_congr (p : json_path_parser_t) (node : json_path_node) (src2 : Nat → Nat)
    (hagree : ∀ i, i < p.src_len → p.src i = src2 i)
    (hpos : p.pos < p.src_len) (hq : p.src p.pos = 34 ∨ p.src p.pos = 39)
    (h34 : p.src p.src_len ≠ 34) (h39 : p.src p.src_len ≠ 39)
    (k34 : src2 p.src_len ≠ 34) (k39 : src2 p.src_len ≠ 39) :
    same_lex (json_parse_string p node) (json_parse_string { p with src := src2 } node) := by
  obtain ⟨a1, a2, -, -, -⟩ := scan_spec (fun c => c != p.src p.pos) p.src p.src_len
    (p.src_len - (p.pos + 1)) (p.pos + 1) (le_refl _)
  have hscan := scan_congr (fun c => c != p.src p.pos) p.src src2 p.src_len hagree
    (p.src_len - (p.pos + 1)) (p.pos + 1)
  unfold json_parse_string same_lex
  simp only []
  rw [← hagree p.pos hpos, ← hscan]
  generalize scan (fun c => c != p.src p.pos) p.src p.src_len
    (p.src_len - (p.pos + 1)) (p.pos + 1) = S at *
  have hle := a2 (by omega)
  by_cases hS : S < p.src_len
  · rw [← hagree S hS]
    by_cases hc : p.src S ≠ p.src p.pos ∨ S - (p.pos + 1) = 0
    · simp only [if_pos hc, and_self]
    · simp only [if_neg hc, and_self]
  · have hSe : S = p.src_len := by omega
    have c1 : p.src S ≠ p.src p.pos ∨ S - (p.pos + 1) = 0 := by
      left
      rw [hSe]
      rcases hq with hq | hq
      · rw [hq]; exact h34
      · rw [hq]; exact h39
    have c2 : src2 S ≠ p.src p.pos ∨ S - (p.pos + 1) = 0 := by
      left
      rw [hSe]
      rcases hq with hq | hq
      · rw [hq]; exact k34
      · rw [hq]; exact k39
    simp only [if_pos c1, if_pos c2, and_self]

/-- A call of `json_parse_integer` gives the same result on two buffers that
agree before `src_len`. -/
theorem integer_congr (p : json_path_parser_t) (node : json_path_node) (src2 : Nat → Nat)
    (hagree : ∀ i, i < p.src_len → p.src i = src2 i) (hpos : p.pos < p.src_len) :
    same_lex (json_parse_integer p node) (json_parse_integer { p with src := src2 } node) := by
  obtain ⟨a1, a2, -, -, -⟩ := scan_spec isdigit p.src p.src_len
    (p.src_len - p.pos) p.pos (le_refl _)
  have hscan := scan_congr isdigit p.src src2 p.src_len hagree (p.src_len - p.pos) p.pos
  unfold json_parse_integer same_lex
  simp only []
  rw [← hscan]
  generalize scan isdigit p.src p.src_len (p.src_len - p.pos) p.pos = S at *
  have hle := a2 (by omega)
  rw [strntoull_congr p.src src2 p.pos (S - p.pos) p.src_len hagree (by omega)]
  by_cases hc : S - p.pos = 0
  · simp only [if_pos hc, and_self]
  · simp only [if_neg hc, and_self]

/-- A call of `json_parse_identifier` gives the same result on two buffers that
agree before `src_len`. -/
theorem identifier_congr (p : json_path_parser_t) (node : json_path_node) (src2 : Nat → Nat)
    (hagree : ∀ i, i < p.src_len → p.src i = src2 i) (hpos : p.pos < p.src_len) :
    same_lex (json_parse_identifier p node)
      (json_parse_identifier { p with src := src2 } node) := by
  have hscan := scan_congr (fun c => isalpha c || c == 95 || isdigit c) p.src src2 p.src_len
    hagree (p.src_len - (p.pos + 1)) (p.pos + 1)
  unfold json_parse_identifier same_lex
  simp only []
  rw [← hagree p.pos hpos, ← hscan]
  by_cases hc : (!isalpha (p.src p.pos) && p.src p.pos != 95) = true
  · simp only [if_pos hc, and_self]
  · simp only [if_neg hc, and_self]

/-- The check of the closing `]` gives the same result on two buffers that
agree before `src_len`. -/
theorem bracket_close_congr (r1 r2 : lex_result) (src1 src2 : Nat → Nat) (n : Nat)
    (hsame : same_lex r1 r2) (hs1 : r1.parser.src = src1) (hs2 : r2.parser.src = src2)
    (hl1 : r1.parser.src_len = n) (hl2 : r2.parser.src_len = n) (hle : r1.parser.pos ≤ n)
    (hagree : ∀ i, i < n → src1 i = src2 i) :
    same_lex
      (if r1.rc ≠ 0 then r1
        else if r1.parser.pos = r1.parser.src_len ∨ r1.parser.src r1.parser.pos ≠ 93 then
          { r1 with rc := r1.parser.pos + 1 }
        else { r1 with parser := { r1.parser with pos := r1.parser.pos + 1 } })
      (if r2.rc ≠ 0 then r2
        else if r2.parser.pos = r2.parser.src_len ∨ r2.parser.src r2.parser.pos ≠ 93 then
          { r2 with rc := r2.parser.pos + 1 }
        else { r2 with parser := { r2.parser with pos := r2.parser.pos + 1 } }) := by
  obtain ⟨e1, e2, e3⟩ := hsame
  unfold same_lex
  rw [hl1, hl2, hs1, hs2, ← e1, ← e3]
  by_cases hrc : r1.rc ≠ 0
  · simp only [if_pos hrc]
    refine ⟨?_, ?_, ?_⟩ <;> first | rfl | trivial
  · simp only [if_neg hrc]
    by_cases hn : r1.parser.pos = n
    · simp only [hn, true_or, if_true]
      refine ⟨?_, ?_, ?_⟩ <;> first | rfl | trivial | omega
    · have hlt : r1.parser.pos < n := by omega
      rw [← hagree _ hlt]
      by_cases hc : r1.parser.pos = n ∨ src1 r1.parser.pos ≠ 93
      · simp only [if_pos hc]
        refine ⟨?_, ?_, ?_⟩ <;> first | rfl | trivial
      · simp only [if_neg hc]
        refine ⟨?_, ?_, ?_⟩ <;> first | rfl | trivial

/-- When neither buffer has a quote at `src_len`, the lexing of `[...]` gives
the same result on two buffers that agree before `src_len`. -/
theorem bracket_congr (p : json_path_parser_t) (node : json_path_node) (src2 : Nat → Nat)
    (hagree : ∀ i, i < p.src_len → p.src i = src2 i) (hpos : p.pos ≤ p.src_len)
    (h34 : p.src p.src_len ≠ 34) (h39 : p.src p.src_len ≠ 39)
    (k34 : src2 p.src_len ≠ 34) (k39 : src2 p.src_len ≠ 39) :
    same_lex (json_path_next_bracket p node)
      (json_path_next_bracket { p with src := src2 } node) := by
  unfold json_path_next_bracket
  by_cases hend : p.pos = p.src_len
  · simp only [if_pos hend]
    exact ⟨rfl, rfl, rfl⟩
  · simp only [if_neg hend]
    have hlt : p.pos < p.src_len := by omega
    have hcur : src2 p.pos = p.src p.pos := (hagree p.pos hlt).symm
    simp only [hcur]
    by_cases hq : p.src p.pos = 34 ∨ p.src p.pos = 39
    · simp only [if_pos hq]
      obtain ⟨s1, s2, s3, -, -⟩ := string_within p node hlt hq h34 h39
      obtain ⟨t1, t2, -, -, -⟩ := string_within { p with src := src2 } node hlt
        (by simp only [hcur]; exact hq) k34 k39
      exact bracket_close_congr _ _ p.src src2 p.src_len
        (string_congr p node src2 hagree hlt hq h34 h39 k34 k39) s1 t1 s2 t2 s3 hagree
    · simp only [if_neg hq]
      obtain ⟨s1, s2, s3, -, -⟩ := integer_within p node hlt
      obtain ⟨t1, t2, -, -, -⟩ := integer_within { p with src := src2 } node hlt
      exact bracket_close_congr _ _ p.src src2 p.src_len
        (integer_congr p node src2 hagree hlt) s1 t1 s2 t2 s3 hagree

/-- When neither buffer has a quote at `src_len`, a call of `json_path_next` from
a position inside the path gives the same return value, node and position on
two buffers that agree on their first `src_len` bytes. -/
theorem next_congr (p : json_path_parser_t) (node : json_path_node) (src2 : Nat → Nat)
    (hagree : ∀ i, i < p.src_len → p.src i = src2 i) (hpos : p.pos ≤ p.src_len)
    (h34 : p.src p.src_len ≠ 34) (h39 : p.src p.src_len ≠ 39)
    (k34 : src2 p.src_len ≠ 34) (k39 : src2 p.src_len ≠ 39) :
    same_lex (json_path_next p node) (json_path_next { p with src := src2 } node) := by
  unfold json_path_next
  by_cases hend : p.src_len = p.pos
  · simp only [if_pos hend]
    exact ⟨rfl, rfl, rfl⟩
  · simp only [if_neg hend]
    have hlt : p.pos < p.src_len := by omega
    have hcur : src2 p.pos = p.src p.pos := (hagree p.pos hlt).symm
    simp only [hcur]
    by_cases hb : p.src p.pos = 91
    · simp only [if_pos hb]
      exact bracket_congr { p with pos := p.pos + 1 } node src2 hagree
        (by simp only []; omega) h34 h39 k34 k39
    · simp only [if_neg hb]
      by_cases hd : p.src p.pos = 46
      · simp only [if_pos hd]
        by_cases he : p.pos + 1 = p.src_len
        · simp only [if_pos he]
          exact ⟨rfl, rfl, rfl⟩
        · simp only [if_neg he]
          exact identifier_congr { p with pos := p.pos + 1 } node src2 hagree
            (by simp only []; omega)
      · simp only [if_neg hd]
        exact identifier_congr p node src2 hagree hlt


/-- C22 fails when the byte at `src_len` is the quote. The path is the 4 bytes
`['ab`, which has no closing quote; the memory goes on with a quote and `]`.
`json_parse_string` reads the byte at `src_len`, takes it for the closing
quote, and `json_path_next` returns 0 with the key `ab` and the parser at
offset 6. With the whole of `['ab']` as the path the same key is returned, and
an empty quoted string is an error. -/
theorem unterminated_string_accepted :
    (json_path_next (parser_of [91, 39, 97, 98, 39, 93] 4) node0).view =
      (0, 6, { type := json_path_type.JSON_PATH_STR, str := 2, len := 2, num := 0 }) ∧
    (json_path_next (parser_of [91, 39, 97, 98, 39, 93] 6) node0).view =
      (0, 6, { type := json_path_type.JSON_PATH_STR, str := 2, len := 2, num := 0 }) ∧
    (json_path_next (parser_of [91, 39, 39, 93] 4) node0).rc = 3 := by
  decide

/-- C26 fails on the same read. Two buffers agree on the 4 bytes `['ab` of the
path and differ after them: on the one that goes on with a quote and `]` the
call returns 0 and leaves the parser at offset 6, beyond `src_len`; on the one
that goes on with zeros it returns the error position 5. -/
theorem result_depends_on_byte_after_buffer :
    (∀ i, i < 4 →
      (parser_of [91, 39, 97, 98, 39, 93] 4).src i = (parser_of [91, 39, 97, 98] 4).src i) ∧
    (json_path_next (parser_of [91, 39, 97, 98, 39, 93] 4) node0).rc = 0 ∧
    (json_path_next (parser_of [91, 39, 97, 98] 4) node0).rc = 5 ∧
    (json_path_next (parser_of [91, 39, 97, 98, 39, 93] 4) node0).parser.pos = 6 ∧
    (parser_of [91, 39, 97, 98, 39, 93] 4).src_len = 4 := by
  decide

/-- C27 fails on the same read. The path is the 3 bytes `['a` and the memory
goes on with `'].b.c.d`: the first call returns the key `a` and leaves the
parser at offset 5, beyond the end of the path, and the next three calls
return `b`, `c` and `d`, so that 4 calls reach neither `JSON_PATH_END` nor an
error. With all 11 bytes as the path the fifth call returns `JSON_PATH_END`. -/
theorem lexing_runs_past_end :
    json_path_calls 4 (parser_of [91, 39, 97, 39, 93, 46, 98, 46, 99, 46, 100] 3) node0 =
      none ∧
    (json_path_next (parser_of [91, 39, 97, 39, 93, 46, 98, 46, 99, 46, 100] 3) node0).view =
      (0, 5, { type := json_path_type.JSON_PATH_STR, str := 2, len := 1, num := 0 }) ∧
    json_path_calls 12 (parser_of [91, 39, 97, 39, 93, 46, 98, 46, 99, 46, 100] 11) node0 =
      some 5 := by
  decide

end JsonPath

/-! # Properties of the column affinity -/

namespace Sql

/-- Four packed characters as a number. -/
theorem chars4_eq (a b c d : Nat) :
    chars4 a b c d = a * 16777216 + b * 65536 + c * 256 + d := by
  unfold chars4
  norm_num

/-- Three packed characters as a number. -/
theorem chars3_eq (a b c : Nat) : chars3 a b c = a * 65536 + b * 256 + c := by
  unfold chars3
  norm_num

/-- One more byte shifts `h` by eight bits and adds the byte, in 32 bits. -/
theorem affinity_hash_cons (x : Nat) (r : List Nat) :
    affinity_hash (x :: r) = (affinity_hash r * 256 + x) % 4294967296 := by
  rw [affinity_hash]
  norm_num

/-- Before any byte `h` is 0. -/
theorem affinity_hash_nil : affinity_hash [] = 0 := by
  rw [affinity_hash]

/-- The value of `h` is that of four given characters exactly when they are
the last four bytes read. -/
theorem hash_eq_chars4_iff (r : List Nat) (hr : ∀ x ∈ r, x < 256) (a b c d : Nat)
    (ha : 1 ≤ a) (ha2 : a < 256) (hb : b < 256) (hc : c < 256) (hd : d < 256) :
    affinity_hash r = chars4 a b c d ↔ [d, c, b, a] <+: r := by
  rw [chars4_eq]
  rcases r with _ | ⟨w, _ | ⟨z, _ | ⟨y, _ | ⟨x, r⟩⟩⟩⟩
  · simp only [affinity_hash_nil, List.prefix_nil]
    constructor
    · intro h; omega
    · intro h; cases h
  · have hw := hr w (by simp)
    simp only [affinity_hash_cons, affinity_hash_nil, List.cons_prefix_cons, List.prefix_nil]
    constructor
    · intro h; omega
    · intro h; cases h.2
  · have hw := hr w (by simp)
    have hz := hr z (by simp)
    simp only [affinity_hash_cons, affinity_hash_nil, List.cons_prefix_cons, List.prefix_nil]
    constructor
    · intro h; omega
    · intro h; cases h.2.2
  · have hw := hr w (by simp)
    have hz := hr z (by simp)
    have hy := hr y (by simp)
    simp only [affinity_hash_cons, affinity_hash_nil, List.cons_prefix_cons, List.prefix_nil]
    constructor
    · intro h; omega
    · intro h; cases h.2.2.2
  · have hw := hr w (by simp)
    have hz := hr z (by simp)
    have hy := hr y (by simp)
    have hx := hr x (by simp)
    simp only [affinity_hash_cons, List.cons_prefix_cons, List.nil_prefix, and_true]
    constructor
    · intro h; omega
    · intro h; omega

/-- The low 24 bits of `h` are those of three given characters exactly when
they are the last three bytes read. -/
theorem hash_eq_chars3_iff (r : List Nat) (hr : ∀ x ∈ r, x < 256) (a b c : Nat)
    (ha : 1 ≤ a) (ha2 : a < 256) (hb : b < 256) (hc : c < 256) :
    affinity_hash r % 2 ^ 24 = chars3 a b c ↔ [c, b, a] <+: r := by
  rw [chars3_eq]
  have h24 : (2 : Nat) ^ 24 = 16777216 := by norm_num
  rw [h24]
  rcases r with _ | ⟨w, _ | ⟨z, _ | ⟨y, r⟩⟩⟩
  · simp only [affinity_hash_nil, List.prefix_nil]
    constructor
    · intro h; omega
    · intro h; cases h
  · have hw := hr w (by simp)
    simp only [affinity_hash_cons, affinity_hash_nil, List.cons_prefix_cons, List.prefix_nil]
    constructor
    · intro h; omega
    · intro h; cases h.2
  · have hw := hr w (by simp)
    have hz := hr z (by simp)
    simp only [affinity_hash_cons, affinity_hash_nil, List.cons_prefix_cons, List.prefix_nil]
    constructor
    · intro h; omega
    · intro h; cases h.2.2
  · have hw := hr w (by simp)
    have hz := hr z (by simp)
    have hy := hr y (by simp)
    simp only [affinity_hash_cons, List.cons_prefix_cons, List.nil_prefix, and_true]
    constructor
    · intro h; omega
    · intro h; omega

/-- A pattern occurs in the bytes read so far exactly when it ends at the last
byte or occurred before it. -/
theorem infix_reverse_cons (pat prev r : List Nat) (x : Nat) (hp : pat.reverse = prev) :
    pat <:+: (x :: r).reverse ↔ prev <+: x :: r ∨ pat <:+: r.reverse := by
  rw [← hp, ← List.reverse_infix, List.reverse_reverse, List.infix_cons_iff,
    ← @List.reverse_infix _ pat r.reverse, List.reverse_reverse]

/-- The affinity below the first row of the table, row by row. -/
theorem before_int_eq_iff (l : List Nat) (aff : affinity) :
    aff = affinity_before_int l ↔
      (has_text l ∧ aff = affinity.SQLITE_AFF_TEXT) ∨
      (¬ has_text l ∧ has_blob l ∧ aff = affinity.SQLITE_AFF_BLOB) ∨
      (¬ has_text l ∧ ¬ has_blob l ∧ has_real l ∧ aff = affinity.SQLITE_AFF_REAL) ∨
      (¬ has_text l ∧ ¬ has_blob l ∧ ¬ has_real l ∧ aff = affinity.SQLITE_AFF_NUMERIC) := by
  unfold affinity_before_int
  by_cases hT : has_text l
  · rw [if_pos hT]; tauto
  · rw [if_neg hT]
    by_cases hB : has_blob l
    · rw [if_pos hB]; tauto
    · rw [if_neg hB]
      by_cases hR : has_real l
      · rw [if_pos hR]; tauto
      · rw [if_neg hR]; tauto

/-- What one more byte does to the rows of the table, in terms of `h`. -/
theorem has_step (r : List Nat) (x : Nat) (hr : ∀ y ∈ x :: r, y < 256) :
    (has_int (x :: r).reverse ↔
      affinity_hash (x :: r) % 2 ^ 24 = chars3 105 110 116 ∨ has_int r.reverse) ∧
    (has_text (x :: r).reverse ↔
      (affinity_hash (x :: r) = chars4 99 104 97 114 ∨
        affinity_hash (x :: r) = chars4 99 108 111 98 ∨
        affinity_hash (x :: r) = chars4 116 101 120 116) ∨ has_text r.reverse) ∧
    (has_blob (x :: r).reverse ↔
      affinity_hash (x :: r) = chars4 98 108 111 98 ∨ has_blob r.reverse) ∧
    (has_real (x :: r).reverse ↔
      (affinity_hash (x :: r) = chars4 114 101 97 108 ∨
        affinity_hash (x :: r) = chars4 102 108 111 97 ∨
        affinity_hash (x :: r) = chars4 100 111 117 98) ∨ has_real r.reverse) := by
  have F0 := hash_eq_chars3_iff (x :: r) hr 105 110 116 (by norm_num) (by norm_num)
    (by norm_num) (by norm_num)
  have F1 := hash_eq_chars4_iff (x :: r) hr 99 104 97 114 (by norm_num) (by norm_num)
    (by norm_num) (by norm_num) (by norm_num)
  have F2 := hash_eq_chars4_iff (x :: r) hr 99 108 111 98 (by norm_num) (by norm_num)
    (by norm_num) (by norm_num) (by norm_num)
  have F3 := hash_eq_chars4_iff (x :: r) hr 116 101 120 116 (by norm_num) (by norm_num)
    (by norm_num) (by norm_num) (by norm_num)
  have F4 := hash_eq_chars4_iff (x :: r) hr 98 108 111 98 (by norm_num) (by norm_num)
    (by norm_num) (by norm_num) (by norm_num)
  have F5 := hash_eq_chars4_iff (x :: r) hr 114 101 97 108 (by norm_num) (by norm_num)
    (by norm_num) (by norm_num) (by norm_num)
  have F6 := hash_eq_chars4_iff (x :: r) hr 102 108 111 97 (by norm_num) (by norm_num)
    (by norm_num) (by norm_num) (by norm_num)
  have F7 := hash_eq_chars4_iff (x :: r) hr 100 111 117 98 (by norm_num) (by norm_num)
    (by norm_num) (by norm_num) (by norm_num)
  have G0 := infix_reverse_cons [105, 110, 116] [116, 110, 105] r x rfl
  have G1 := infix_reverse_cons [99, 104, 97, 114] [114, 97, 104, 99] r x rfl
  have G2 := infix_reverse_cons [99, 108, 111, 98] [98, 111, 108, 99] r x rfl
  have G3 := infix_reverse_cons [116, 101, 120, 116] [116, 120, 101, 116] r x rfl
  have G4 := infix_reverse_cons [98, 108, 111, 98] [98, 111, 108, 98] r x rfl
  have G5 := infix_reverse_cons [114, 101, 97, 108] [108, 97, 101, 114] r x rfl
  have G6 := infix_reverse_cons [102, 108, 111, 97] [97, 111, 108, 102] r x rfl
  have G7 := infix_reverse_cons [100, 111, 117, 98] [98, 117, 111, 100] r x rfl
  unfold has_int has_text has_blob has_real
  rw [G0, G1, G2, G3, G4, G5, G6, G7, F0, F1, F2, F3, F4, F5, F6, F7]
  clear F0 F1 F2 F3 F4 F5 F6 F7 G0 G1 G2 G3 G4 G5 G6 G7 hr
  refine ⟨Iff.rfl, ?_, Iff.rfl, ?_⟩
  · tauto
  · tauto

/-- One round of the loop keeps the affinity in step with the table: each
branch taken leaves the affinity of the table for the bytes read so far, and the
loop is left exactly when `int` has just been read. -/
theorem affinity_step (r : List Nat) (x : Nat) (aff : affinity)
    (hr : ∀ y ∈ x :: r, y < 256) (hint : ¬ has_int r.reverse)
    (haff : aff = affinity_before_int r.reverse) :
    (affinity_hash (x :: r) = chars4 99 104 97 114 ∨
      affinity_hash (x :: r) = chars4 99 108 111 98 ∨
      affinity_hash (x :: r) = chars4 116 101 120 116 →
        affinity.SQLITE_AFF_TEXT = affinity_before_int (x :: r).reverse ∧
        ¬ has_int (x :: r).reverse) ∧
    (affinity_hash (x :: r) = chars4 98 108 111 98 ∧
      (aff = affinity.SQLITE_AFF_NUMERIC ∨ aff = affinity.SQLITE_AFF_REAL) →
        affinity.SQLITE_AFF_BLOB = affinity_before_int (x :: r).reverse ∧
        ¬ has_int (x :: r).reverse) ∧
    ((affinity_hash (x :: r) = chars4 114 101 97 108 ∨
      affinity_hash (x :: r) = chars4 102 108 111 97 ∨
      affinity_hash (x :: r) = chars4 100 111 117 98) ∧ aff = affinity.SQLITE_AFF_NUMERIC →
        affinity.SQLITE_AFF_REAL = affinity_before_int (x :: r).reverse ∧
        ¬ has_int (x :: r).reverse) ∧
    (affinity_hash (x :: r) % 2 ^ 24 = chars3 105 110 116 → has_int (x :: r).reverse) ∧
    (¬ affinity_hash (x :: r) = chars4 99 104 97 114 →
      ¬ affinity_hash (x :: r) = chars4 99 108 111 98 →
      ¬ affinity_hash (x :: r) = chars4 116 101 120 116 →
      ¬ (affinity_hash (x :: r) = chars4 98 108 111 98 ∧
        (aff = affinity.SQLITE_AFF_NUMERIC ∨ aff = affinity.SQLITE_AFF_REAL)) →
      ¬ (affinity_hash (x :: r) = chars4 114 101 97 108 ∧ aff = affinity.SQLITE_AFF_NUMERIC) →
      ¬ (affinity_hash (x :: r) = chars4 102 108 111 97 ∧ aff = affinity.SQLITE_AFF_NUMERIC) →
      ¬ (affinity_hash (x :: r) = chars4 100 111 117 98 ∧ aff = affinity.SQLITE_AFF_NUMERIC) →
      ¬ affinity_hash (x :: r) % 2 ^ 24 = chars3 105 110 116 →
        aff = affinity_before_int (x :: r).reverse ∧ ¬ has_int (x :: r).reverse) := by
  obtain ⟨S0, S1, S2, S3⟩ := has_step r x hr
  rw [before_int_eq_iff] at haff
  simp only [before_int_eq_iff, S0, S1, S2, S3, chars4_eq, chars3_eq, Nat.reduceMul,
    Nat.reduceAdd, Nat.reducePow]
  clear S0 S1 S2 S3 hr
  generalize affinity_hash (x :: r) = h
  generalize has_int r.reverse = I at *
  generalize has_text r.reverse = T at *
  generalize has_blob r.reverse = B at *
  generalize has_real r.reverse = R at *
  rcases haff with ⟨hT, rfl⟩ | ⟨hT, hB, rfl⟩ | ⟨hT, hB, hR, rfl⟩ | ⟨hT, hB, hR, rfl⟩
  · refine ⟨?_, ?_, ?_, ?_, ?_⟩
    all_goals intros
    all_goals simp_all
    all_goals omega
  · refine ⟨?_, ?_, ?_, ?_, ?_⟩
    all_goals intros
    all_goals simp_all
    all_goals omega
  · refine ⟨?_, ?_, ?_, ?_, ?_⟩
    all_goals intros
    all_goals simp_all
    all_goals omega
  · refine ⟨?_, ?_, ?_, ?_, ?_⟩
    all_goals intros
    all_goals simp_all
    all_goals omega

/-- The loop of `sqlite3AffinityType`, started after bytes whose lower-case
values are, the last one first, those of `r` and none of which completed `int`,
with `h` and `aff` as those bytes leave them, returns the affinity of the table
for the whole name: the bytes read and those up to the first zero byte. -/
theorem loop_spec (zIn : List Nat) :
    ∀ (r : List Nat) (aff : affinity) (zChar : Option (List Nat)),
      (∀ c ∈ zIn, c < 256) → (∀ y ∈ r, y < 256) → ¬ has_int r.reverse →
      aff = affinity_before_int r.reverse →
      (sqlite3AffinityType_loop zIn (affinity_hash r) aff zChar).1 =
        affinity_of_lower
          (r.reverse ++ (zIn.takeWhile (fun c => c != 0)).map sqlite3UpperToLower) := by
  induction zIn with
  | nil =>
    intro r aff zChar _ _ hint haff
    rw [sqlite3AffinityType_loop]
    simp only [List.takeWhile_nil, List.map_nil, List.append_nil]
    unfold affinity_of_lower
    rw [if_neg hint]
    exact haff
  | cons c zIn ih =>
    intro r aff zChar hz hr hint haff
    rw [sqlite3AffinityType_loop]
    by_cases hc0 : c = 0
    · rw [if_pos hc0]
      subst hc0
      simp only [List.takeWhile_cons, bne_self_eq_false, Bool.false_eq_true, if_false,
        List.map_nil, List.append_nil]
      unfold affinity_of_lower
      rw [if_neg hint]
      exact haff
    · rw [if_neg hc0]
      have hc : c < 256 := hz c (List.mem_cons_self _ _)
      have hz2 : ∀ d ∈ zIn, d < 256 := fun d hd => hz d (List.mem_cons_of_mem _ hd)
      have hmod : c % 256 = c := Nat.mod_eq_of_lt hc
      have hx : sqlite3UpperToLower c < 256 := by
        unfold sqlite3UpperToLower
        split <;> omega
      have hr2 : ∀ y ∈ sqlite3UpperToLower c :: r, y < 256 := by
        intro y hy
        rcases List.mem_cons.mp hy with h | h
        · rw [h]; exact hx
        · exact hr y h
      have hh : (affinity_hash r * 2 ^ 8 + sqlite3UpperToLower (c % 256)) % 2 ^ 32 =
          affinity_hash (sqlite3UpperToLower c :: r) := by
        rw [hmod, affinity_hash]
      have htw : (List.takeWhile (fun c => c != 0) (c :: zIn)) =
          c :: List.takeWhile (fun c => c != 0) zIn := by
        rw [List.takeWhile_cons]
        simp [hc0]
      have hlist : r.reverse ++ (List.takeWhile (fun c => c != 0) (c :: zIn)).map
          sqlite3UpperToLower = (sqlite3UpperToLower c :: r).reverse ++
            (List.takeWhile (fun c => c != 0) zIn).map sqlite3UpperToLower := by
        rw [htw, List.map_cons, List.reverse_cons, List.append_assoc, List.singleton_append]
      rw [hlist]
      simp only [hh]
      obtain ⟨A, B, C, D, E⟩ := affinity_step r (sqlite3UpperToLower c) aff hr2 hint haff
      by_cases h1 : affinity_hash (sqlite3UpperToLower c :: r) = chars4 99 104 97 114
      · rw [if_pos h1]
        exact ih _ _ _ hz2 hr2 (A (Or.inl h1)).2 (A (Or.inl h1)).1
      rw [if_neg h1]
      by_cases h2 : affinity_hash (sqlite3UpperToLower c :: r) = chars4 99 108 111 98
      · rw [if_pos h2]
        exact ih _ _ _ hz2 hr2 (A (Or.inr (Or.inl h2))).2 (A (Or.inr (Or.inl h2))).1
      rw [if_neg h2]
      by_cases h3 : affinity_hash (sqlite3UpperToLower c :: r) = chars4 116 101 120 116
      · rw [if_pos h3]
        exact ih _ _ _ hz2 hr2 (A (Or.inr (Or.inr h3))).2 (A (Or.inr (Or.inr h3))).1
      rw [if_neg h3]
      by_cases h4 : affinity_hash (sqlite3UpperToLower c :: r) = chars4 98 108 111 98 ∧
          (aff = affinity.SQLITE_AFF_NUMERIC ∨ aff = affinity.SQLITE_AFF_REAL)
      · rw [if_pos h4]
        exact ih _ _ _ hz2 hr2 (B h4).2 (B h4).1
      rw [if_neg h4]
      by_cases h5 : affinity_hash (sqlite3UpperToLower c :: r) = chars4 114 101 97 108 ∧
          aff = affinity.SQLITE_AFF_NUMERIC
      · rw [if_pos h5]
        exact ih _ _ _ hz2 hr2 (C ⟨Or.inl h5.1, h5.2⟩).2 (C ⟨Or.inl h5.1, h5.2⟩).1
      rw [if_neg h5]
      by_cases h6 : affinity_hash (sqlite3UpperToLower c :: r) = chars4 102 108 111 97 ∧
          aff = affinity.SQLITE_AFF_NUMERIC
      · rw [if_pos h6]
        exact ih _ _ _ hz2 hr2 (C ⟨Or.inr (Or.inl h6.1), h6.2⟩).2
          (C ⟨Or.inr (Or.inl h6.1), h6.2⟩).1
      rw [if_neg h6]
      by_cases h7 : affinity_hash (sqlite3UpperToLower c :: r) = chars4 100 111 117 98 ∧
          aff = affinity.SQLITE_AFF_NUMERIC
      · rw [if_pos h7]
        exact ih _ _ _ hz2 hr2 (C ⟨Or.inr (Or.inr h7.1), h7.2⟩).2
          (C ⟨Or.inr (Or.inr h7.1), h7.2⟩).1
      rw [if_neg h7]
      by_cases h8 : affinity_hash (sqlite3UpperToLower c :: r) % 2 ^ 24 = chars3 105 110 116
      · rw [if_pos h8]
        have hi : has_int ((sqlite3UpperToLower c :: r).reverse ++
            (List.takeWhile (fun c => c != 0) zIn).map sqlite3UpperToLower) := by
          unfold has_int
          exact List.IsInfix.trans (D h8) (List.prefix_append _ _).isInfix
        unfold affinity_of_lower
        rw [if_pos hi]
      · rw [if_neg h8]
        exact ih _ _ _ hz2 hr2 (E h1 h2 h3 h4 h5 h6 h7 h8).2 (E h1 h2 h3 h4 h5 h6 h7 h8).1

/-! ## C25: the affinity table -/

/-- C25. For every type name, given by the bytes of `zIn` before the first
zero byte, `sqlite3AffinityType` returns the affinity of the table of its
documentation read on the name in lower case: `SQLITE_AFF_INTEGER` if the name
contains `INT`; otherwise `SQLITE_AFF_TEXT` if it contains `CHAR`, `CLOB` or
`TEXT`; otherwise `SQLITE_AFF_BLOB` if it contains `BLOB`; otherwise
`SQLITE_AFF_REAL` if it contains `REAL`, `FLOA` or `DOUB`; otherwise
`SQLITE_AFF_NUMERIC`. This holds with and without a size estimate. -/
theorem affinity_table_correct (aff_code : affinity → Nat) (getInt32 : List Nat → Nat)
    (zIn : List Nat) (pszEst : Bool) (hz : ∀ c ∈ zIn, c < 256) :
    (sqlite3AffinityType aff_code getInt32 zIn pszEst).1 =
      affinity_table (zIn.takeWhile (fun c => c != 0)) := by
  have h := loop_spec zIn [] affinity.SQLITE_AFF_NUMERIC none hz
    (fun y hy => absurd hy (List.not_mem_nil y)) (by decide) (by decide)
  rw [affinity_hash_nil] at h
  unfold sqlite3AffinityType affinity_table
  simp only [List.reverse_nil, List.nil_append] at h
  exact h

/-- C25 at concrete names: `BLOBINT` gives `SQLITE_AFF_INTEGER`, as do
`FLOATING POINT` and `charint`; `VARCHAR(255)` (with its size estimate),
`textblob` and `blobtext` give `SQLITE_AFF_TEXT`; `blob(10)` and `REALBLOB`
give `SQLITE_AFF_BLOB`; `Double` gives `SQLITE_AFF_REAL`; `DECIMAL` and the
empty name give `SQLITE_AFF_NUMERIC`. -/
theorem affinity_table_correct_witness :
    (∀ c ∈ [66, 76, 79, 66, 73, 78, 84], c < 256) ∧
    (sqlite3AffinityType example_aff_code (fun _ => 0) [66, 76, 79, 66, 73, 78, 84] false).1 =
      affinity.SQLITE_AFF_INTEGER ∧
    (sqlite3AffinityType example_aff_code (fun _ => 0) [70, 76, 79, 65, 84, 73, 78, 71, 32, 80, 79, 73, 78, 84]
      false).1 = affinity.SQLITE_AFF_INTEGER ∧
    (sqlite3AffinityType example_aff_code (fun _ => 0) [99, 104, 97, 114, 105, 110, 116] false).1 =
      affinity.SQLITE_AFF_INTEGER ∧
    (sqlite3AffinityType example_aff_code (fun _ => 255) [86, 65, 82, 67, 72, 65, 82, 40, 50, 53, 53, 41] true) =
      (affinity.SQLITE_AFF_TEXT, some 64) ∧
    (sqlite3AffinityType example_aff_code (fun _ => 0) [116, 101, 120, 116, 98, 108, 111, 98] false).1 =
      affinity.SQLITE_AFF_TEXT ∧
    (sqlite3AffinityType example_aff_code (fun _ => 0) [98, 108, 111, 98, 116, 101, 120, 116] false).1 =
      affinity.SQLITE_AFF_TEXT ∧
    (sqlite3AffinityType example_aff_code (fun _ => 10) [98, 108, 111, 98, 40, 49, 48, 41] true) =
      (affinity.SQLITE_AFF_BLOB, some 3) ∧
    (sqlite3AffinityType example_aff_code (fun _ => 0) [82, 69, 65, 76, 66, 76, 79, 66] false).1 =
      affinity.SQLITE_AFF_BLOB ∧
    (sqlite3AffinityType example_aff_code (fun _ => 0) [68, 111, 117, 98, 108, 101] false).1 =
      affinity.SQLITE_AFF_REAL ∧
    (sqlite3AffinityType example_aff_code (fun _ => 0) [68, 69, 67, 73, 77, 65, 76] false).1 =
      affinity.SQLITE_AFF_NUMERIC ∧
    (sqlite3AffinityType example_aff_code (fun _ => 0) [] false).1 =
      affinity.SQLITE_AFF_NUMERIC :=
  ⟨by decide,
    (affinity_table_correct example_aff_code (fun _ => 0) [66, 76, 79, 66, 73, 78, 84] false
      (by decide)).trans (by decide),
    by decide, by decide, by decide, by decide, by decide, by decide, by decide, by decide,
    by decide, by decide⟩

end Sql

/-! # Properties of tuple slicing and transforming -/

namespace Tuple

/-- The `int32_t` value of a number in range is the number. -/
theorem wrap_int32_eq (x : Int) (h1 : -2147483648 ≤ x) (h2 : x < 2147483648) :
    wrap_int32 x = x := by
  unfold wrap_int32
  norm_num
  omega

/-- The `uint32_t` value of a number in range is the number. -/
theorem to_uint32_eq (x : Int) (h1 : 0 ≤ x) (h2 : x < 4294967296) : to_uint32 x = x := by
  unfold to_uint32
  norm_num
  omega

/-- The `int64_t` value of a number in range is the number. -/
theorem wrap_int64_eq (x : Int) (h1 : -9223372036854775808 ≤ x)
    (h2 : x < 9223372036854775808) : wrap_int64 x = x := by
  unfold wrap_int64
  norm_num
  omega

/-- With a start and an end argument, the end not being the least `int32_t`, a
range that is prepared without an error lies inside the tuple. -/
theorem slice_range_valid (fc s e start end_ : Int) (hfc0 : 0 ≤ fc) (hfc : fc < 2147483648)
    (hs1 : -2147483648 ≤ s) (hs2 : s < 2147483648)
    (he1 : -2147483648 < e) (he2 : e < 2147483648)
    (h : lbox_tuple_slice_range fc [s, e] = slice_range.range start end_) :
    0 ≤ start ∧ start < end_ ∧ end_ ≤ fc := by
  unfold lbox_tuple_slice_range at h
  simp only [wrap_int32, to_uint32] at h
  have e31 : (2 : Int) ^ 31 = 2147483648 := by norm_num
  have e32 : (2 : Int) ^ 32 = 4294967296 := by norm_num
  rw [e31, e32] at h
  split at h
  · cases h
  · rename_i start1 hstart
    split at h
    · cases h
    · rename_i end1 hend
      split at h
      · cases h
      · injection h with h1 h2
        subst h1 h2
        split_ifs at hstart hend with c1 c2 c3 c4 <;>
          simp only [Option.some.injEq] at hstart hend <;> omega

/-- With a start argument only, a range that is prepared without an error lies
inside the tuple and ends at its last field. -/
theorem slice_range_valid_one (fc s start end_ : Int) (hfc0 : 0 ≤ fc) (hfc : fc < 2147483648)
    (h : lbox_tuple_slice_range fc [s] = slice_range.range start end_) :
    0 ≤ start ∧ start < end_ ∧ end_ = fc := by
  unfold lbox_tuple_slice_range at h
  simp only [wrap_int32, to_uint32] at h
  have e31 : (2 : Int) ^ 31 = 2147483648 := by norm_num
  have e32 : (2 : Int) ^ 32 = 4294967296 := by norm_num
  rw [e31, e32] at h
  split at h
  · cases h
  · rename_i start1 hstart
    split at h
    · cases h
    · injection h with h1 h2
      subst h1 h2
      split_ifs at hstart with c1 c2 <;>
        simp only [Option.some.injEq] at hstart <;> omega

/-- An end argument beyond the field count is an error, whatever the valid
start. -/
theorem slice_range_end_beyond (fc s e : Int) (hfc : fc < 2147483648)
    (hs : (0 ≤ s ∧ s < fc) ∨ (s < 0 ∧ -fc ≤ s)) (he : fc < e) :
    lbox_tuple_slice_range fc [s, e] = slice_range.error slice_error.end_gt_field_count := by
  unfold lbox_tuple_slice_range
  simp only [wrap_int32, to_uint32]
  have e31 : (2 : Int) ^ 31 = 2147483648 := by norm_num
  have e32 : (2 : Int) ^ 32 = 4294967296 := by norm_num
  rw [e31, e32]
  have hend : (if e > 0 ∧ e ≤ fc then some (e % 4294967296)
      else if e < 0 ∧ (-e + 2147483648) % 4294967296 - 2147483648 < fc then
        some (((e + fc + 2147483648) % 4294967296 - 2147483648) % 4294967296)
      else none) = none := by
    rw [if_neg (by omega), if_neg (by omega)]
  rw [hend]
  rcases hs with hs | hs
  · rw [if_pos (by omega)]
  · rw [if_neg (by omega), if_pos (by omega)]

/-- The loop of the wrapper, started inside the range, pushes the fields up to
`end` and stops there. -/
theorem slice_wrapper_loop_spec (fields : List Nat) (end_ : Int) :
    ∀ (fuel n : Nat) (pushed : List Nat), (n : Int) ≤ end_ → end_ ≤ fields.length →
      end_ - n ≤ fuel →
      slice_wrapper_loop fields end_ fuel n pushed =
        (pushed ++ (fields.drop n).take (end_.toNat - n), end_.toNat) := by
  intro fuel
  induction fuel with
  | zero =>
    intro n pushed h1 h2 h3
    have hn : end_.toNat = n := by omega
    rw [slice_wrapper_loop, hn, Nat.sub_self, List.take_zero, List.append_nil]
  | succ fuel ih =>
    intro n pushed h1 h2 h3
    rw [slice_wrapper_loop]
    cases hget : fields.get? n with
    | none =>
      have hlen : fields.length ≤ n := List.get?_eq_none.mp hget
      have hn : end_.toNat = n := by omega
      simp only [hn, Nat.sub_self, List.take_zero, List.append_nil]
    | some field =>
      obtain ⟨hlt, hval⟩ := List.get?_eq_some.mp hget
      simp only []
      by_cases hc : (n : Int) < end_
      · rw [if_pos hc, ih (n + 1) (pushed ++ [field]) (by omega) h2 (by omega)]
        have hdrop : fields.drop n = field :: fields.drop (n + 1) := by
          rw [List.drop_eq_getElem_cons hlt, ← hval]
          rfl
        have hk : end_.toNat - n = (end_.toNat - (n + 1)) + 1 := by omega
        rw [hdrop, hk, List.take_succ_cons, List.append_assoc, List.singleton_append]
      · rw [if_neg hc]
        have hn : end_.toNat = n := by omega
        rw [hn, Nat.sub_self, List.take_zero, List.append_nil]

/-- On a range inside the tuple the wrapper pushes the fields from `start` up
to `end`, its two assertions hold and it returns `end - start`. -/
theorem slice_wrapper_spec (fields : List Nat) (start end_ : Int) (h0 : 0 ≤ start)
    (h1 : start ≤ end_) (h2 : end_ ≤ fields.length) (hlen : fields.length < 2147483648) :
    lbox_tuple_slice_wrapper fields start end_ =
      { pushed := (fields.drop start.toNat).take (end_ - start).toNat
        field_no := end_
        assert_end_ge_start := true
        assert_field_no_eq_end := true
        ret := end_ - start } := by
  unfold lbox_tuple_slice_wrapper
  have hloop := slice_wrapper_loop_spec fields end_ fields.length start.toNat []
    (by omega) h2 (by omega)
  have hk : end_.toNat - start.toNat = (end_ - start).toNat := by omega
  have hend : ((end_.toNat : Nat) : Int) = end_ := by omega
  have hret : wrap_int32 (to_uint32 (end_ - start)) = end_ - start := by
    rw [to_uint32_eq _ (by omega) (by omega), wrap_int32_eq _ (by omega) (by omega)]
  simp only [hloop, List.nil_append, hk, hend, hret, decide_True, ge_iff_le, h1]

/-- Apart from an end argument equal to the least `int32_t`, a slice that
raises no error works on a range inside the tuple: the assertions of the
wrapper hold and exactly the `end - start` fields of the range are returned. -/
theorem slice_success_valid (fields : List Nat) (s e : Int) (start end_ ret : Int)
    (w : slice_wrapper_result) (hlen : fields.length < 2147483648)
    (hs1 : -2147483648 ≤ s) (hs2 : s < 2147483648)
    (he1 : -2147483648 < e) (he2 : e < 2147483648)
    (h : lbox_tuple_slice fields [s, e] = slice_result.values start end_ w ret) :
    0 ≤ start ∧ start < end_ ∧ end_ ≤ fields.length ∧
    w.assert_end_ge_start = true ∧ w.assert_field_no_eq_end = true ∧
    w.pushed = (fields.drop start.toNat).take (end_ - start).toNat ∧
    (w.pushed.length : Int) = end_ - start ∧ ret = end_ - start := by
  unfold lbox_tuple_slice at h
  rw [wrap_int32_eq _ (by omega) (by omega)] at h
  cases hr : lbox_tuple_slice_range (fields.length : Int) [s, e] with
  | error err =>
    rw [hr] at h
    cases h
  | range start1 end1 =>
    rw [hr] at h
    obtain ⟨k0, k1, k2⟩ := slice_range_valid _ s e start1 end1 (by omega) (by omega) hs1 hs2
      he1 he2 hr
    simp only [] at h
    injection h with e1 e2 e3 e4
    subst e1 e2
    rw [slice_wrapper_spec fields start1 end1 k0 (by omega) k2 hlen] at e3
    rw [to_uint32_eq _ (by omega) (by omega), wrap_int32_eq _ (by omega) (by omega)] at e4
    subst e3 e4
    refine ⟨k0, k1, k2, rfl, rfl, rfl, ?_, rfl⟩
    simp only [List.length_take, List.length_drop]
    omega

/-- Apart from an offset equal to the least `int64_t`, the validation of
`lbox_tuple_transform` leaves `1 <= offset <= field_count + 1` and
`0 <= len <= field_count + 1 - offset`, and the assertion holds. -/
theorem transform_range_valid (fc offset len off1 len1 : Int) (hfc0 : 0 ≤ fc)
    (hfc : fc < 4294967296) (ho1 : -9223372036854775808 < offset)
    (ho2 : offset < 9223372036854775808) (hl : len < 9223372036854775808)
    (h : lbox_tuple_transform_range fc offset len = transform_range.range off1 len1) :
    1 ≤ off1 ∧ off1 ≤ fc + 1 ∧ 0 ≤ len1 ∧ len1 ≤ fc + 1 - off1 ∧
    lbox_tuple_transform_assert fc off1 len1 = true := by
  unfold lbox_tuple_transform_range at h
  unfold lbox_tuple_transform_assert
  simp only [wrap_int64, decide_eq_true_eq] at h ⊢
  have e63 : (2 : Int) ^ 63 = 9223372036854775808 := by norm_num
  have e64 : (2 : Int) ^ 64 = 18446744073709551616 := by norm_num
  rw [e63, e64] at h
  rw [e63, e64]
  split at h
  · cases h
  · rename_i off hoff
    split at h
    · cases h
    · injection h with h1 h2
      subst h1
      split_ifs at hoff h2 <;> simp only [Option.some.injEq] at hoff <;> omega

/-- For every 64-bit offset and len, a `len` that is positive after validation
comes with an `offset` below `field_count + 1`: the delete operation that is
encoded is the one that was counted. -/
theorem transform_range_len_pos (fc offset len off1 len1 : Int) (hfc0 : 0 ≤ fc)
    (hfc : fc < 4294967296) (ho1 : -9223372036854775808 ≤ offset)
    (ho2 : offset < 9223372036854775808) (hl : len < 9223372036854775808)
    (h : lbox_tuple_transform_range fc offset len = transform_range.range off1 len1)
    (hpos : len1 > 0) : off1 < wrap_int64 (fc + 1) := by
  unfold lbox_tuple_transform_range at h
  simp only [wrap_int64] at h ⊢
  have e63 : (2 : Int) ^ 63 = 9223372036854775808 := by norm_num
  have e64 : (2 : Int) ^ 64 = 18446744073709551616 := by norm_num
  rw [e63, e64] at h
  rw [e63, e64]
  split at h
  · cases h
  · rename_i off hoff
    split at h
    · cases h
    · injection h with h1 h2
      subst h1
      split_ifs at hoff h2 <;> simp only [Option.some.injEq] at hoff <;> omega

/-- For every 64-bit offset and len, the operations encoded by
`lbox_tuple_transform` are as many as the `op_cnt` of the array header. -/
theorem transform_op_count (fc offset len : Int) (argc : Nat) (off1 len1 op_cnt : Int)
    (ops : List update_op) (hfc0 : 0 ≤ fc) (hfc : fc < 4294967296)
    (hargc : argc < 2147483648) (ho1 : -9223372036854775808 ≤ offset)
    (ho2 : offset < 9223372036854775808) (hl : len < 9223372036854775808)
    (h : lbox_tuple_transform fc argc offset len =
      transform_result.update off1 len1 op_cnt ops) :
    (ops.length : Int) = op_cnt := by
  unfold lbox_tuple_transform at h
  split at h
  · cases h
  · rename_i hargc3
    cases hr : lbox_tuple_transform_range fc offset len with
    | error err =>
      rw [hr] at h
      cases h
    | range o l =>
      rw [hr] at h
      have hp := transform_range_len_pos fc offset len o l hfc0 hfc ho1 ho2 hl hr
      have e32 : (2 : Int) ^ 32 = 4294967296 := by norm_num
      simp only [to_uint32, e32] at h
      split_ifs at h
      all_goals cases h
      all_goals simp only [List.length_append, List.length_map, List.length_range,
        List.length_cons, List.length_nil]
      all_goals omega

/-! ## C24: an end beyond the tuple size -/

/-- C24 fails in the code: on a tuple of three fields `slice(0, 5)`, whose end is
beyond the tuple size, raises `tuple.slice(): end > field count` instead of
returning the three fields, as do `slice(0, 4)` and `slice(-3, 2147483647)`;
`slice(0, 3)` is the last end that is accepted. -/
theorem slice_end_beyond_size_raises :
    lbox_tuple_slice [10, 20, 30] [0, 5] = slice_result.error slice_error.end_gt_field_count ∧
    lbox_tuple_slice [10, 20, 30] [0, 4] = slice_result.error slice_error.end_gt_field_count ∧
    lbox_tuple_slice [10, 20, 30] [-3, 2147483647] =
      slice_result.error slice_error.end_gt_field_count ∧
    lbox_tuple_slice [10, 20, 30] [0, 3] =
      slice_result.values 0 3
        { pushed := [10, 20, 30], field_no := 3, assert_end_ge_start := true
          assert_field_no_eq_end := true, ret := 3 } 3 := by
  decide

/-! ## C28: the range on success -/

/-- C28 fails in the code: on a tuple of three fields `slice(0, -2147483648)`
raises no error and calls the wrapper on the range `start = 0`,
`end = 2147483651`, which is beyond the field count; the wrapper stops at
`field_no = 3`, so its assertion `field_no == end` does not hold, and the
number of values announced, `end - start` as an `int`, is negative while three
values were pushed. -/
theorem slice_int32_min_end_accepted :
    lbox_tuple_slice_range 3 [0, INT32_MIN] = slice_range.range 0 2147483651 ∧
    lbox_tuple_slice [10, 20, 30] [0, INT32_MIN] =
      slice_result.values 0 2147483651
        { pushed := [10, 20, 30], field_no := 3, assert_end_ge_start := true
          assert_field_no_eq_end := false, ret := -2147483645 } (-2147483645) := by
  decide

/-! ## C29: the normalisation of offset and len -/

/-- C29 fails in the code: on a tuple of three fields
`transform(-9223372036854775808, 1)` raises no error and leaves
`offset = -9223372036854775804` and `len = -9223372036854775808` after
validation, so neither `1 <= offset` nor `0 <= len` holds; with two extra
arguments the two inserts are encoded at that negative offset. The number of
operations encoded is still the `op_cnt` of the header, and the assertion
`offset + len <= field_count + 1` passes because the sum wraps around. -/
theorem transform_int64_min_offset_accepted :
    lbox_tuple_transform_range 3 INT64_MIN 1 =
      transform_range.range (-9223372036854775804) (-9223372036854775808) ∧
    lbox_tuple_transform_assert 3 (-9223372036854775804) (-9223372036854775808) = true ∧
    lbox_tuple_transform 3 3 INT64_MIN 1 =
      transform_result.same_tuple (-9223372036854775804) (-9223372036854775808) ∧
    lbox_tuple_transform 3 5 INT64_MIN 1 =
      transform_result.update (-9223372036854775804) (-9223372036854775808) 2
        [update_op.insert (-9223372036854775804) 5,
          update_op.insert (-9223372036854775804) 4] := by
  decide

end Tuple
